import Mathlib

/-!
Airbooking: the reservation engine, its store and its seat lock.

A shallow embedding of

* `internal/domain/booking.go`, `internal/domain/flight.go` (records),
* `internal/service/booking/booking_service.go` (the reservation engine),
* `internal/repository/booking_repo_pg.go` (the reservation store),
* `internal/cache/redis.go` (the seat lock coordinator),

followed by theorems about them.

Modelling conventions.

* Every collaborator call is a function from the state of the outside world to a
  result and a new state of the world; the engine threads that state through its
  calls in the order the Go code makes them.
* A Go `error` is its message (`Err = String`), `nil` is `none`.  A Go result
  `(*T, error)` of which exactly one component is non-nil is `Except Err T`.
* `int`, `int64`, `time.Time` and `time.Duration` are `Int` (points in time and
  durations are counted in nanoseconds); no operation of the modelled code comes
  near the 64-bit bounds.
* `time.Now()` and `uuid.NewString()` are read from the environment; the engine
  functions take the value read as an argument (`now`, `token`).
* Logging (`log.Printf`, `fmt.Printf`) has no effect on the modelled state.
-/

namespace Airbooking

/-! ## Domain records -/

abbrev Err := String

/-- Go: `type BookingStatus string`. -/
abbrev BookingStatus := String

abbrev BookingStatusPending : BookingStatus := "PENDING"
abbrev BookingStatusConfirmed : BookingStatus := "CONFIRMED"
abbrev BookingStatusCancelled : BookingStatus := "CANCELLED"
abbrev BookingStatusExpired : BookingStatus := "EXPIRED"

/-- Go: `domain.Booking`. -/
structure Booking where
  ID : Int
  FlightID : Int
  SeatNumber : Int
  Token : String
  Status : BookingStatus
  ExpiresAt : Int
  Email : String
  CreatedAt : Int
  UpdatedAt : Int
  deriving DecidableEq, Repr

/-- Go: `domain.Flight`. -/
structure Flight where
  ID : Int
  FromAirport : String
  ToAirport : String
  DepartureTime : Int
  ArrivalTime : Int
  TotalSeats : Int
  AvailableSeats : Int
  PriceCents : Int
  CreatedAt : Int
  UpdatedAt : Int
  deriving DecidableEq, Repr

/-- Go: `booking.CreateBookingInput`. -/
structure CreateBookingInput where
  FlightID : Int
  SeatNumber : Int
  Email : String
  deriving DecidableEq, Repr

/-- Go: `kafka.BookingEvent`; the Go field `Type` is `EventType` here, `Type` being a
keyword. -/
structure BookingEvent where
  EventType : String
  Token : String
  FlightID : Int
  SeatNumber : Int
  Email : String
  Status : String
  ExpiresAt : Int
  deriving DecidableEq, Repr

/-! ## Collaborator interfaces -/

/-- Go: `repository.BookingRepository`.  `CreatePending` receives a pointer: the
model returns the booking as the callee left it together with the error. -/
structure BookingRepository (σ : Type) where
  CreatePending : Booking → σ → (Booking × Option Err) × σ
  GetByToken : String → σ → Except Err Booking × σ
  UpdateStatus : String → BookingStatus → σ → Except Err Booking × σ
  ExpirePendingBefore : Int → σ → Except Err (List Booking) × σ
  ReleaseSeat : Int → σ → Option Err × σ

/-- Go: `booking.Cache`.  `AcquireSeatLock` returns `(bool, error)` as a pair. -/
structure Cache (σ : Type) where
  AcquireSeatLock : Int → Int → Int → σ → (Bool × Option Err) × σ
  ReleaseSeatLock : Int → Int → σ → Option Err × σ
  GetFlights : σ → (Option (List Flight) × Option Err) × σ
  SetFlights : List Flight → σ → Option Err × σ

/-- Go: `booking.Producer`. -/
structure Producer (σ : Type) where
  Publish : String → String → BookingEvent → σ → Option Err × σ

/-- Go: `booking.BookingService`; a nil `cache` or `producer` is `none`.  The
field `flights` is not read by any method of the service and is left out. -/
structure BookingService (σ : Type) where
  bookings : BookingRepository σ
  cache : Option (Cache σ)
  producer : Option (Producer σ)
  bookingTopic : String
  notificationsTopic : String
  holdTTL : Int
  confirmationTTL : Int

/-! ## The reservation engine (`booking_service.go`) -/

section Engine

variable {σ : Type}

/-- Go: the `kafka.BookingEvent` literal built in `publish`. -/
def bookingEvent (eventType : String) (booking : Booking) : BookingEvent :=
  { EventType := eventType, Token := booking.Token, FlightID := booking.FlightID,
    SeatNumber := booking.SeatNumber, Email := booking.Email,
    Status := booking.Status, ExpiresAt := booking.ExpiresAt }

/-- Go: `(*BookingService).publish`. -/
def BookingService.publish (s : BookingService σ) (eventType : String) (booking : Booking)
    (w : σ) : Option Err × σ :=
  match s.producer with
  | none => (none, w)
  | some p =>
    if s.bookingTopic = "" then (none, w)
    else
      let event := bookingEvent eventType booking
      match p.Publish s.bookingTopic booking.Token event w with
      | (some err, w1) => (some err, w1)
      | (none, w1) =>
        if s.notificationsTopic ≠ "" then
          p.Publish s.notificationsTopic booking.Token event w1
        else (none, w1)

/-- Go: `CreateBooking`, lines 117-128: the record handed to the store, with
`expiresIn` the confirmation window, or the hold duration when that is zero. -/
def BookingService.newBooking (s : BookingService σ) (input : CreateBookingInput)
    (token : String) (now : Int) : Booking :=
  let expiresIn := if s.confirmationTTL = 0 then s.holdTTL else s.confirmationTTL
  { ID := 0, FlightID := input.FlightID, SeatNumber := input.SeatNumber, Token := token,
    Status := "", ExpiresAt := now + expiresIn, Email := input.Email,
    CreatedAt := 0, UpdatedAt := 0 }

/-- Go: `CreateBooking`, lines 130-141: everything after the record is built.
`locked` is the Go local of that name. -/
def BookingService.createAfterLock (s : BookingService σ) (input : CreateBookingInput)
    (token : String) (now : Int) (locked : Bool) (w : σ) : Except Err Booking × σ :=
  match s.bookings.CreatePending (s.newBooking input token now) w with
  | ((_, some err), w1) =>
    if locked then
      match s.cache with
      | some c => (.error err, (c.ReleaseSeatLock input.FlightID input.SeatNumber w1).2)
      | none => (.error err, w1)
    else (.error err, w1)
  | ((created, none), w1) =>
    let booking := { created with Status := BookingStatusPending }
    (.ok booking, (s.publish "booking_created" booking w1).2)

/-- Go: `(*BookingService).CreateBooking`. -/
def BookingService.CreateBooking (s : BookingService σ) (input : CreateBookingInput)
    (token : String) (now : Int) (w : σ) : Except Err Booking × σ :=
  if input.SeatNumber ≤ 0 then (.error "seat number must be positive", w)
  else if input.Email = "" then (.error "email is required", w)
  else
    match s.cache with
    | some c =>
      match c.AcquireSeatLock input.FlightID input.SeatNumber s.holdTTL w with
      | ((_, some err), w1) => (.error err, w1)
      | ((false, none), w1) => (.error "seat is already locked", w1)
      | ((true, none), w1) => s.createAfterLock input token now true w1
    | none => s.createAfterLock input token now false w

/-- Go: the guarded lock release `if s.cache != nil { _ = s.cache.ReleaseSeatLock(..) }`. -/
def BookingService.releaseLock (s : BookingService σ) (flightID seat : Int) (w : σ) : σ :=
  match s.cache with
  | some c => (c.ReleaseSeatLock flightID seat w).2
  | none => w

/-- Go: `(*BookingService).ConfirmBooking`. -/
def BookingService.ConfirmBooking (s : BookingService σ) (token : String) (w : σ) :
    Except Err Booking × σ :=
  match s.bookings.GetByToken token w with
  | (.error err, w1) => (.error err, w1)
  | (.ok current, w1) =>
    if current.Status ≠ BookingStatusPending then (.error "booking is not pending", w1)
    else
      match s.bookings.UpdateStatus token BookingStatusConfirmed w1 with
      | (.error err, w2) => (.error err, w2)
      | (.ok updated, w2) =>
        let w3 := (s.publish "booking_confirmed" updated w2).2
        (.ok updated, s.releaseLock updated.FlightID updated.SeatNumber w3)

/-- Go: `(*BookingService).CancelBooking`. -/
def BookingService.CancelBooking (s : BookingService σ) (token : String) (w : σ) :
    Except Err Booking × σ :=
  match s.bookings.GetByToken token w with
  | (.error err, w1) => (.error err, w1)
  | (.ok current, w1) =>
    if current.Status = BookingStatusCancelled ∨ current.Status = BookingStatusExpired then
      (.ok current, w1)
    else
      match s.bookings.UpdateStatus token BookingStatusCancelled w1 with
      | (.error err, w2) => (.error err, w2)
      | (.ok updated, w2) =>
        let w3 := (s.bookings.ReleaseSeat updated.FlightID w2).2
        let w4 := (s.publish "booking_cancelled" updated w3).2
        (.ok updated, s.releaseLock updated.FlightID updated.SeatNumber w4)

/-- Go: the body of the `for _, b := range expired` loop of `ExpirePendingBookings`. -/
def BookingService.expireCleanup (s : BookingService σ) (w : σ) (b : Booking) : σ :=
  let w1 := (s.bookings.ReleaseSeat b.FlightID w).2
  let w2 := (s.publish "booking_expired" b w1).2
  s.releaseLock b.FlightID b.SeatNumber w2

/-- Go: `(*BookingService).ExpirePendingBookings`; `now` is `deadline := time.Now()`. -/
def BookingService.ExpirePendingBookings (s : BookingService σ) (now : Int) (w : σ) :
    Except Err (List Booking) × σ :=
  match s.bookings.ExpirePendingBefore now w with
  | (.error err, w1) => (.error err, w1)
  | (.ok expired, w1) => (.ok expired, expired.foldl s.expireCleanup w1)

end Engine

/-! ## The outside world: database, Redis, Kafka

The concrete collaborators act on one record of the outside world.  Every
statement sent to the database, to Redis or to Kafka first reads the head of
`faults`: `some e` makes that statement fail with `e` without taking effect, `none`
(or an exhausted script) lets it run.  Quantifying over `faults` therefore
quantifies over every pattern of collaborator failures.
-/

/-- State of the outside world.  `flights` and `bookings` are the two tables,
`nextID` the serial of `bookings.id`, `dbNow` the reading of the database clock
`now()`, `redis` the keys present in Redis with their values, `kafka` the messages
written so far as (topic, key, payload), newest last. -/
structure World where
  flights : List Flight
  bookings : List Booking
  nextID : Int
  dbNow : Int
  redis : List (String × String)
  kafka : List (String × String × BookingEvent)
  faults : List (Option Err)
  deriving DecidableEq, Repr

/-- One round trip to a collaborator: reads and drops the head of the fault script
(an exhausted script means no failure). -/
def World.io (w : World) : Option Err × World :=
  (w.faults.headD none, { w with faults := w.faults.tail })

/-- The next `n` round trips are not failed by the environment. -/
def World.calm (n : Nat) (w : World) : Prop := ∀ e ∈ w.faults.take n, e = none

/-- Message of `pgx.ErrNoRows`, returned by `Scan` on an empty result. -/
abbrev ErrNoRows : Err := "no rows in result set"

/-! ### The reservation store (`booking_repo_pg.go`) -/

/-- SQL `UPDATE t SET .. WHERE p`: every row satisfying `p` is replaced by `set row`. -/
def updateWhere {α : Type} (p : α → Bool) (set : α → α) (rows : List α) : List α :=
  rows.map fun r => if p r then set r else r

/-- The rows an `UPDATE t SET .. WHERE p RETURNING ..` returns: the updated rows. -/
def returningWhere {α : Type} (p : α → Bool) (set : α → α) (rows : List α) : List α :=
  (rows.filter p).map set

/-- The `WHERE id=$1 AND available_seats > 0` of the decrement in `CreatePending`. -/
def reservable (flightID : Int) (f : Flight) : Bool :=
  decide (f.ID = flightID) && decide (f.AvailableSeats > 0)

/-- The `SET available_seats = available_seats - 1, updated_at = now()`. -/
def takeSeat (dbNow : Int) (f : Flight) : Flight :=
  { f with AvailableSeats := f.AvailableSeats - 1, UpdatedAt := dbNow }

/-- The `WHERE id = $1` of the increment in `ReleaseSeat`. -/
def onFlight (flightID : Int) (f : Flight) : Bool := decide (f.ID = flightID)

/-- The `SET available_seats = available_seats + 1, updated_at = now()`. -/
def giveSeat (dbNow : Int) (f : Flight) : Flight :=
  { f with AvailableSeats := f.AvailableSeats + 1, UpdatedAt := dbNow }

/-- The `WHERE token=$1` of `GetByToken` and `WHERE token=$2` of `UpdateStatus`. -/
def hasToken (token : String) (b : Booking) : Bool := decide (b.Token = token)

/-- The `SET status=$1, updated_at=now()` of `UpdateStatus` and `ExpirePendingBefore`. -/
def setStatus (status : BookingStatus) (dbNow : Int) (b : Booking) : Booking :=
  { b with Status := status, UpdatedAt := dbNow }

/-- The `WHERE status=$2 AND expires_at <= $3` of `ExpirePendingBefore`. -/
def expirable (deadline : Int) (b : Booking) : Bool :=
  decide (b.Status = BookingStatusPending) && decide (b.ExpiresAt ≤ deadline)

/-- The `WHERE flight_id = $1 AND status = 'CANCELLED'` of the delete in `ReleaseSeat`. -/
def cancelledOn (flightID : Int) (b : Booking) : Bool :=
  decide (b.FlightID = flightID) && decide (b.Status = "CANCELLED")

/-- Go: `(*PGBookingRepository).CreatePending`.  The four fault points are `BeginTx`,
the `UPDATE flights`, the `INSERT INTO bookings` and `Commit`; a failure after
`BeginTx` rolls the tables back (the deferred `tx.Rollback`).  The serial `nextID`
is not transactional.  `Scan` reads the first returned row. -/
def PGBookingRepository.CreatePending (booking : Booking) (w : World) :
    (Booking × Option Err) × World :=
  let w1 := w.io.2
  match w.io.1 with
  | some err => ((booking, some err), w1)
  | none =>
    let w2 := w1.io.2
    match w1.io.1 with
    | some err => ((booking, some err), w2)
    | none =>
      let updated := updateWhere (reservable booking.FlightID) (takeSeat w2.dbNow) w2.flights
      let returning := returningWhere (reservable booking.FlightID) (takeSeat w2.dbNow) w2.flights
      match returning.head? with
      | none => ((booking, some ErrNoRows), w2)
      | some row =>
        if row.AvailableSeats < 0 then ((booking, some "no available seats"), w2)
        else
          let booking := { booking with Status := BookingStatusPending }
          let w3 := w2.io.2
          match w2.io.1 with
          | some err => ((booking, some err), w3)
          | none =>
            let booking :=
              { booking with ID := w3.nextID, CreatedAt := w3.dbNow, UpdatedAt := w3.dbNow }
            let w4 := { w3 with nextID := w3.nextID + 1 }
            let w5 := w4.io.2
            match w4.io.1 with
            | some err => ((booking, some err), w5)
            | none =>
              ((booking, none),
                { w5 with flights := updated, bookings := w5.bookings ++ [booking] })

/-- Go: `(*PGBookingRepository).GetByToken`. -/
def PGBookingRepository.GetByToken (token : String) (w : World) : Except Err Booking × World :=
  let w1 := w.io.2
  match w.io.1 with
  | some err => (.error err, w1)
  | none =>
    match w1.bookings.find? (hasToken token) with
    | none => (.error ErrNoRows, w1)
    | some b => (.ok b, w1)

/-- Go: `(*PGBookingRepository).UpdateStatus`: an `UPDATE .. WHERE token=$2 RETURNING ..`
read with `QueryRow(..).Scan`, which takes the first returned row. -/
def PGBookingRepository.UpdateStatus (token : String) (status : BookingStatus) (w : World) :
    Except Err Booking × World :=
  let w1 := w.io.2
  match w.io.1 with
  | some err => (.error err, w1)
  | none =>
    let w2 :=
      { w1 with bookings := updateWhere (hasToken token) (setStatus status w1.dbNow) w1.bookings }
    match (returningWhere (hasToken token) (setStatus status w1.dbNow) w1.bookings).head? with
    | none => (.error ErrNoRows, w2)
    | some b => (.ok b, w2)

/-- Go: `(*PGBookingRepository).ExpirePendingBefore`.  A failure of the query
(reported by `Query` or by `rows.Err()`) is a statement that took no effect. -/
def PGBookingRepository.ExpirePendingBefore (deadline : Int) (w : World) :
    Except Err (List Booking) × World :=
  let w1 := w.io.2
  match w.io.1 with
  | some err => (.error err, w1)
  | none =>
    let set := setStatus BookingStatusExpired w1.dbNow
    (.ok (returningWhere (expirable deadline) set w1.bookings),
      { w1 with bookings := updateWhere (expirable deadline) set w1.bookings })

/-- Go: `(*PGBookingRepository).ReleaseSeat`: two statements outside any transaction. -/
def PGBookingRepository.ReleaseSeat (flightID : Int) (w : World) : Option Err × World :=
  let w1 := w.io.2
  match w.io.1 with
  | some err => (some err, w1)
  | none =>
    let w2 := { w1 with flights := updateWhere (onFlight flightID) (giveSeat w1.dbNow) w1.flights }
    if (w1.flights.filter (onFlight flightID)).length = 0 then (some "flight not found", w2)
    else
      let w3 := w2.io.2
      match w2.io.1 with
      | some err => (some err, w3)
      | none =>
        (none, { w3 with bookings := w3.bookings.filter fun b => !cancelledOn flightID b })

/-- Go: `repository.NewBookingRepository`: the store as implemented. -/
def PGBookingRepository : BookingRepository World where
  CreatePending := PGBookingRepository.CreatePending
  GetByToken := PGBookingRepository.GetByToken
  UpdateStatus := PGBookingRepository.UpdateStatus
  ExpirePendingBefore := PGBookingRepository.ExpirePendingBefore
  ReleaseSeat := PGBookingRepository.ReleaseSeat

/-! ### The seat lock coordinator (`redis.go`) -/

/-- Decimal digits of `n`, most significant first; `fuel` bounds the number of digits
and `n + 1` is always enough. -/
def decimal : Nat → Nat → List Char
  | 0, _ => []
  | fuel + 1, n =>
    if n < 10 then [Nat.digitChar n] else decimal fuel (n / 10) ++ [Nat.digitChar (n % 10)]

/-- Decimal digits of a natural number. -/
def formatNat (n : Nat) : List Char := decimal (n + 1) n

/-- Go: `%d` of `fmt.Sprintf` for an integer: decimal digits, `-` in front of a
negative number. -/
def formatInt : Int → String
  | Int.ofNat n => String.mk (formatNat n)
  | Int.negSucc n => String.mk ('-' :: formatNat (n + 1))

/-- Go: `flightsKey`. -/
def flightsKey : String := "cache:flights"

/-- Go: `seatLockKey`: `fmt.Sprintf("lock:flight:%d:seat:%d", flightID, seat)`. -/
def seatLockKey (flightID seat : Int) : String :=
  "lock:flight:" ++ formatInt flightID ++ ":seat:" ++ formatInt seat

/-- Whether `key` is present in Redis. -/
def lockHeld (redis : List (String × String)) (key : String) : Bool :=
  redis.any fun kv => kv.1 == key

/-- Go: `(*RedisCache).AcquireSeatLock`: `SETNX key "locked"` with an expiry.  The
expiry itself is an event of the environment, not of this call. -/
def RedisCache.AcquireSeatLock (flightID seat _ttl : Int) (w : World) :
    (Bool × Option Err) × World :=
  let key := seatLockKey flightID seat
  let w1 := w.io.2
  match w.io.1 with
  | some err => ((false, some err), w1)
  | none =>
    if lockHeld w1.redis key then ((false, none), w1)
    else ((true, none), { w1 with redis := w1.redis ++ [(key, "locked")] })

/-- Go: `(*RedisCache).ReleaseSeatLock`: `DEL key`. -/
def RedisCache.ReleaseSeatLock (flightID seat : Int) (w : World) : Option Err × World :=
  let w1 := w.io.2
  match w.io.1 with
  | some err => (some err, w1)
  | none =>
    (none, { w1 with redis := w1.redis.filter fun kv => !(kv.1 == seatLockKey flightID seat) })

/-- Go: `cache.RedisCache` seen through the `booking.Cache` interface.  The flights
cache stores JSON; the model keeps the two flight-list calls as statements that
touch only the fault script, since the booking service never calls them. -/
def RedisCache : Cache World where
  AcquireSeatLock := RedisCache.AcquireSeatLock
  ReleaseSeatLock := RedisCache.ReleaseSeatLock
  GetFlights := fun w => ((none, w.io.1), w.io.2)
  SetFlights := fun _ w => w.io

/-! ### The event publisher (`producer.go`) -/

/-- Go: `(*kafka.Producer).Publish`: one `WriteMessages`, its error wrapped. -/
def KafkaProducer.Publish (topic key : String) (payload : BookingEvent) (w : World) :
    Option Err × World :=
  let w1 := w.io.2
  match w.io.1 with
  | some err => (some ("failed to write message to Kafka: " ++ err), w1)
  | none => (none, { w1 with kafka := w1.kafka ++ [(topic, key, payload)] })

/-- Go: `kafka.Producer` seen through the `booking.Producer` interface. -/
def KafkaProducer : Producer World where
  Publish := KafkaProducer.Publish

/-- Go: `booking.NewBookingService(bookingRepo, flightRepo, redisCache, producer, ..)` as
wired in `cmd/app/main.go`: the engine over the store, Redis and Kafka. -/
def NewBookingService (bookingTopic notificationsTopic : String) (holdTTL confirmationTTL : Int) :
    BookingService World where
  bookings := PGBookingRepository
  cache := some RedisCache
  producer := some KafkaProducer
  bookingTopic := bookingTopic
  notificationsTopic := notificationsTopic
  holdTTL := holdTTL
  confirmationTTL := confirmationTTL

/-! ## Recording collaborator calls

To speak about which collaborator calls an engine operation makes, every
collaborator is wrapped so that each call is appended to a log kept next to the
world, in the manner of the mocks of `booking_service_test.go`.  The wrapped
collaborator behaves as the original one.
-/

/-- A collaborator call with its arguments. -/
inductive Call where
  | AcquireSeatLock (flightID seat ttl : Int)
  | ReleaseSeatLock (flightID seat : Int)
  | GetFlights
  | SetFlights (flights : List Flight)
  | CreatePending (booking : Booking)
  | GetByToken (token : String)
  | UpdateStatus (token : String) (status : BookingStatus)
  | ExpirePendingBefore (deadline : Int)
  | ReleaseSeat (flightID : Int)
  | Publish (topic key : String) (event : BookingEvent)
  deriving DecidableEq, Repr

/-- Whether a call is a call of the publisher. -/
def Call.isPublish : Call → Bool
  | .Publish _ _ _ => true
  | _ => false

section Traced

variable {σ : Type}

/-- Runs a collaborator call on the world and appends the call to the log. -/
def record {α : Type} (c : Call) (f : σ → α × σ) (w : σ × List Call) : α × (σ × List Call) :=
  ((f w.1).1, ((f w.1).2, w.2 ++ [c]))

/-- The store, recording its calls. -/
def BookingRepository.traced (r : BookingRepository σ) : BookingRepository (σ × List Call) where
  CreatePending := fun b => record (.CreatePending b) (r.CreatePending b)
  GetByToken := fun t => record (.GetByToken t) (r.GetByToken t)
  UpdateStatus := fun t st => record (.UpdateStatus t st) (r.UpdateStatus t st)
  ExpirePendingBefore := fun d => record (.ExpirePendingBefore d) (r.ExpirePendingBefore d)
  ReleaseSeat := fun f => record (.ReleaseSeat f) (r.ReleaseSeat f)

/-- The lock coordinator, recording its calls. -/
def Cache.traced (c : Cache σ) : Cache (σ × List Call) where
  AcquireSeatLock := fun f seat ttl => record (.AcquireSeatLock f seat ttl) (c.AcquireSeatLock f seat ttl)
  ReleaseSeatLock := fun f seat => record (.ReleaseSeatLock f seat) (c.ReleaseSeatLock f seat)
  GetFlights := record .GetFlights c.GetFlights
  SetFlights := fun fs => record (.SetFlights fs) (c.SetFlights fs)

/-- The publisher, recording its calls. -/
def Producer.traced (p : Producer σ) : Producer (σ × List Call) where
  Publish := fun topic key ev => record (.Publish topic key ev) (p.Publish topic key ev)

/-- The engine over recording collaborators. -/
def BookingService.traced (s : BookingService σ) : BookingService (σ × List Call) where
  bookings := s.bookings.traced
  cache := s.cache.map Cache.traced
  producer := s.producer.map Producer.traced
  bookingTopic := s.bookingTopic
  notificationsTopic := s.notificationsTopic
  holdTTL := s.holdTTL
  confirmationTTL := s.confirmationTTL

end Traced

/-! ## Vocabulary of the statements -/

section Vocabulary

variable {σ : Type}

/-- A store whose `CreatePending` leaves the flight, seat and contact of the record it
is handed as the caller set them (it may fill in the generated fields and the
status).  The Go method receives a pointer, so this is a property of the callee. -/
def BookingRepository.KeepsCallerFields (r : BookingRepository σ) : Prop :=
  ∀ (b : Booking) (w : σ),
    (r.CreatePending b w).1.1.FlightID = b.FlightID ∧
    (r.CreatePending b w).1.1.SeatNumber = b.SeatNumber ∧
    (r.CreatePending b w).1.1.Email = b.Email

/-- The lock calls of a `CreateBooking` that gets past the lock step: one
`AcquireSeatLock` with the hold duration when a coordinator is configured, none
otherwise. -/
def BookingService.lockCalls (s : BookingService σ) (input : CreateBookingInput) : List Call :=
  match s.cache with
  | some _ => [Call.AcquireSeatLock input.FlightID input.SeatNumber s.holdTTL]
  | none => []

/-- An engine call together with what it reads from the environment. -/
inductive Op where
  | create (input : CreateBookingInput) (token : String) (now : Int)
  | confirm (token : String)
  | cancel (token : String)
  | expire (now : Int)
  deriving DecidableEq, Repr

/-- Whether the call is a `ConfirmBooking`. -/
def Op.isConfirm : Op → Bool
  | .confirm _ => true
  | _ => false

/-- The token `uuid.NewString()` hands to a `CreateBooking` call. -/
def Op.newToken : Op → Option String
  | .create _ token _ => some token
  | _ => none

/-- The world after one engine call (the result of the call is dropped). -/
def BookingService.step (s : BookingService σ) (w : σ) : Op → σ
  | .create input token now => (s.CreateBooking input token now w).2
  | .confirm token => (s.ConfirmBooking token w).2
  | .cancel token => (s.CancelBooking token w).2
  | .expire now => (s.ExpirePendingBookings now w).2

/-- The world after a sequential series of engine calls. -/
def BookingService.run (s : BookingService σ) (w : σ) (ops : List Op) : σ :=
  ops.foldl s.step w

end Vocabulary

/-- A booking in a non-terminal state (PENDING or CONFIRMED). -/
def Booking.live (b : Booking) : Bool :=
  decide (b.Status = BookingStatusPending) || decide (b.Status = BookingStatusConfirmed)

/-- Number of non-terminal bookings stored for the seat `seat` of flight `flightID`. -/
def World.liveOnSeat (w : World) (flightID seat : Int) : Nat :=
  w.bookings.countP fun b =>
    decide (b.FlightID = flightID) && decide (b.SeatNumber = seat) && b.live

/-- Seat uniqueness: at most one non-terminal booking for every (flight, seat). -/
def World.SeatUnique (w : World) : Prop :=
  ∀ flightID seat : Int, w.liveOnSeat flightID seat ≤ 1

/-- The seat-count invariant of a flight row: `0 ≤ available ≤ total`. -/
def Flight.WithinCapacity (f : Flight) : Prop :=
  0 ≤ f.AvailableSeats ∧ f.AvailableSeats ≤ f.TotalSeats

/-- A store as it is before any booking: no booking rows, flight ids are distinct (`id`
is the key of `flights`), every capacity is non-negative and every seat is
available. -/
def World.Fresh (w : World) : Prop :=
  w.bookings = [] ∧ (w.flights.map Flight.ID).Nodup ∧
    ∀ f ∈ w.flights, 0 ≤ f.TotalSeats ∧ f.AvailableSeats = f.TotalSeats

/-- The (flight, seat) pair a booking occupies. -/
def seatOf (b : Booking) : Int × Int := (b.FlightID, b.SeatNumber)

/-- A booking with status PENDING. -/
def Booking.pending (b : Booking) : Bool := decide (b.Status = BookingStatusPending)

/-- The seats of the PENDING rows, in table order. -/
def pendingSeats (bookings : List Booking) : List (Int × Int) :=
  (bookings.filter Booking.pending).map seatOf

/-- The lock discipline of an engine that never confirms: every row is PENDING,
CANCELLED or EXPIRED, no two PENDING rows occupy the same seat, and the lock of every
PENDING row's seat is held. -/
structure LockInv (bookings : List Booking) (redis : List (String × String)) : Prop where
  status : ∀ b ∈ bookings, b.Status = BookingStatusPending ∨
    b.Status = BookingStatusCancelled ∨ b.Status = BookingStatusExpired
  nodup : (pendingSeats bookings).Nodup
  held : ∀ p ∈ pendingSeats bookings, lockHeld redis (seatLockKey p.1 p.2) = true

/-- The lock discipline holds in a world. -/
def World.LockOK (w : World) : Prop := LockInv w.bookings w.redis

/-- Number of non-terminal bookings stored for flight `flightID`. -/
def liveOnFlight (bookings : List Booking) (flightID : Int) : Nat :=
  bookings.countP fun b => decide (b.FlightID = flightID) && b.live

/-- Number of entries of `owed` that name flight `flightID`. -/
def owedTo (owed : List Int) (flightID : Int) : Nat :=
  owed.countP fun x => decide (x = flightID)

/-- The seat accounting behind `0 ≤ available ≤ total`: flight ids and booking tokens
are distinct, every status is one of the four, and for every flight the available
seats, the non-terminal bookings and the releases still owed (bookings already moved
to a terminal state whose `ReleaseSeat` is yet to run) fit in the capacity. -/
structure CountInv (flights : List Flight) (bookings : List Booking) (owed : List Int) :
    Prop where
  ids : (flights.map Flight.ID).Nodup
  tokens : (bookings.map Booking.Token).Nodup
  status : ∀ b ∈ bookings, b.Status = BookingStatusPending ∨
    b.Status = BookingStatusConfirmed ∨ b.Status = BookingStatusCancelled ∨
    b.Status = BookingStatusExpired
  cap : ∀ f ∈ flights, 0 ≤ f.AvailableSeats ∧
    f.AvailableSeats + (liveOnFlight bookings f.ID : Int) + (owedTo owed f.ID : Int)
      ≤ f.TotalSeats

/-- The seat accounting holds in a world, nothing owed. -/
def World.CountOK (w : World) : Prop := CountInv w.flights w.bookings []

/-- The store with another actor scheduled inside a lookup: `between` runs right after
`GetByToken` has read its row and before the caller makes its next call.  This is
the interleaving "read, then the other actor, then write" of two concurrent
operations, each store statement being atomic. -/
def BookingRepository.interleaveAfterRead {σ : Type} (r : BookingRepository σ)
    (between : σ → σ) : BookingRepository σ :=
  { r with GetByToken := fun token w => ((r.GetByToken token w).1, between (r.GetByToken token w).2) }

/-! ## Sample data used by the concrete checks -/

/-- A flight row with the given id, capacity and available count. -/
def sampleFlight (id total available : Int) : Flight :=
  { ID := id, FromAirport := "SVO", ToAirport := "LED", DepartureTime := 0, ArrivalTime := 0,
    TotalSeats := total, AvailableSeats := available, PriceCents := 0, CreatedAt := 0,
    UpdatedAt := 0 }

/-- A world whose only content is flight 1 with five seats, `available` of them free. -/
def sampleWorld (available : Int) : World :=
  { flights := [sampleFlight 1 5 available], bookings := [], nextID := 1, dbNow := 0,
    redis := [], kafka := [], faults := [] }

/-- The engine as wired in `main.go`, with a one-minute hold and a ten-minute
confirmation window (in seconds for brevity) and no notifications topic. -/
def sampleService : BookingService World := NewBookingService "bookings" "" 60 600

/-- A request for seat 3 of flight 1. -/
def sampleInput : CreateBookingInput := { FlightID := 1, SeatNumber := 3, Email := "a@x.com" }

/-- The sample world after seat 3 of flight 1 was booked under token `t1`: one PENDING
row, four seats left, the seat lock held. -/
def bookedWorld : World := (sampleService.CreateBooking sampleInput "t1" 100 (sampleWorld 5)).2

/-- The PENDING row of `bookedWorld`. -/
def bookedRow : Booking :=
  { ID := 1, FlightID := 1, SeatNumber := 3, Token := "t1", Status := BookingStatusPending,
    ExpiresAt := 700, Email := "a@x.com", CreatedAt := 0, UpdatedAt := 0 }

/-- The sample engine with the expiration sweep's bulk update scheduled between the
lookup and the next store call of the running operation. -/
def racingService (deadline : Int) : BookingService World :=
  { sampleService with
    bookings := PGBookingRepository.interleaveAfterRead
      fun w => (PGBookingRepository.ExpirePendingBefore deadline w).2 }

/-! ## Vocabulary of the call-log statements -/

section CallVocabulary

variable {σ : Type}

/-- The publisher calls one `publish` makes, spelled after the spec: nothing without a
producer or without a primary channel; otherwise one send to the primary channel
(`bookingTopic`) keyed by the booking's token, followed, when a notifications channel
is configured and the primary send succeeded, by a send of the same key and payload
to that channel. -/
def BookingService.publishCalls (s : BookingService σ) (eventType : String) (booking : Booking)
    (w : σ) : List Call :=
  match s.producer with
  | none => []
  | some p =>
    if s.bookingTopic = "" then []
    else
      match (p.Publish s.bookingTopic booking.Token (bookingEvent eventType booking) w).1 with
      | some _ => [Call.Publish s.bookingTopic booking.Token (bookingEvent eventType booking)]
      | none =>
        if s.notificationsTopic = "" then
          [Call.Publish s.bookingTopic booking.Token (bookingEvent eventType booking)]
        else
          [Call.Publish s.bookingTopic booking.Token (bookingEvent eventType booking),
           Call.Publish s.notificationsTopic booking.Token (bookingEvent eventType booking)]

/-- The lock calls of a guarded release: one `ReleaseSeatLock` when a coordinator is
configured, none otherwise. -/
def BookingService.releaseCalls (s : BookingService σ) (flightID seat : Int) : List Call :=
  match s.cache with
  | some _ => [Call.ReleaseSeatLock flightID seat]
  | none => []

/-- The cleanup calls of a sweep over `expired`, booking by booking: one `ReleaseSeat`
on the booking's flight, the calls of publishing `booking_expired`, the guarded lock
release of the booking's seat; then the same for the rest, from the world the first
cleanup left. -/
def BookingService.cleanupCalls (s : BookingService σ) : σ → List Booking → List Call
  | _, [] => []
  | w, b :: rest =>
    [Call.ReleaseSeat b.FlightID]
      ++ s.publishCalls "booking_expired" b (s.bookings.ReleaseSeat b.FlightID w).2
      ++ s.releaseCalls b.FlightID b.SeatNumber
      ++ s.cleanupCalls (s.expireCleanup w b) rest

/-- A store whose `UpdateStatus` returns the row of the token it was given: the token,
flight and seat of the booking the lookup returned, with the status written. -/
def BookingRepository.UpdatesLookedUpRow (r : BookingRepository σ) : Prop :=
  ∀ (token : String) (status : BookingStatus) (w w1 w2 : σ) (current updated : Booking),
    r.GetByToken token w = (.ok current, w1) →
    r.UpdateStatus token status w1 = (.ok updated, w2) →
    updated.Token = token ∧ updated.FlightID = current.FlightID ∧
      updated.SeatNumber = current.SeatNumber ∧ updated.Status = status

end CallVocabulary

/-- Whether a call is a `ReleaseSeat` of the store. -/
def Call.isReleaseSeat : Call → Bool
  | .ReleaseSeat _ => true
  | _ => false

/-- Whether a call is a `ReleaseSeatLock` of the lock coordinator. -/
def Call.isReleaseSeatLock : Call → Bool
  | .ReleaseSeatLock _ _ => true
  | _ => false

/-- Whether a call is a send of the publisher to the channel `topic`. -/
def Call.isPublishOn (topic : String) : Call → Bool
  | .Publish t _ _ => decide (t = topic)
  | _ => false

/-! ## The publisher as a collaborator with a state of its own

To compare runs that differ only in what the publisher does, the store and the lock
coordinator act on one component of the world and the publisher on another.
-/

/-- The store acting on the first component of a two-part world. -/
def BookingRepository.onFst {α β : Type} (r : BookingRepository α) :
    BookingRepository (α × β) where
  CreatePending := fun b w => ((r.CreatePending b w.1).1, ((r.CreatePending b w.1).2, w.2))
  GetByToken := fun t w => ((r.GetByToken t w.1).1, ((r.GetByToken t w.1).2, w.2))
  UpdateStatus := fun t st w => ((r.UpdateStatus t st w.1).1, ((r.UpdateStatus t st w.1).2, w.2))
  ExpirePendingBefore := fun d w =>
    ((r.ExpirePendingBefore d w.1).1, ((r.ExpirePendingBefore d w.1).2, w.2))
  ReleaseSeat := fun f w => ((r.ReleaseSeat f w.1).1, ((r.ReleaseSeat f w.1).2, w.2))

/-- The lock coordinator acting on the first component of a two-part world. -/
def Cache.onFst {α β : Type} (c : Cache α) : Cache (α × β) where
  AcquireSeatLock := fun f seat ttl w =>
    ((c.AcquireSeatLock f seat ttl w.1).1, ((c.AcquireSeatLock f seat ttl w.1).2, w.2))
  ReleaseSeatLock := fun f seat w =>
    ((c.ReleaseSeatLock f seat w.1).1, ((c.ReleaseSeatLock f seat w.1).2, w.2))
  GetFlights := fun w => ((c.GetFlights w.1).1, ((c.GetFlights w.1).2, w.2))
  SetFlights := fun fs w => ((c.SetFlights fs w.1).1, ((c.SetFlights fs w.1).2, w.2))

/-- The publisher acting on the second component of a two-part world. -/
def Producer.onSnd {α β : Type} (p : Producer β) : Producer (α × β) where
  Publish := fun topic key ev w =>
    ((p.Publish topic key ev w.2).1, (w.1, (p.Publish topic key ev w.2).2))

/-- The engine `s` (its store, lock coordinator and configuration) with the publisher
`producer`, which keeps its state apart from the store's and the coordinator's. -/
def BookingService.withPublisher {α β : Type} (s : BookingService α)
    (producer : Option (Producer β)) : BookingService (α × β) where
  bookings := s.bookings.onFst
  cache := s.cache.map Cache.onFst
  producer := producer.map Producer.onSnd
  bookingTopic := s.bookingTopic
  notificationsTopic := s.notificationsTopic
  holdTTL := s.holdTTL
  confirmationTTL := s.confirmationTTL

/-- The engine `s` without a publisher. -/
def BookingService.withoutPublisher {α : Type} (s : BookingService α) : BookingService α :=
  { s with producer := none }

/-- No round trip of the remaining run is failed by the environment. -/
def World.calmAll (w : World) : Prop := ∀ e ∈ w.faults, e = none

/-- The rows `ExpirePendingBefore(deadline)` is to expire, in the claim's words: status
PENDING and `expires_at ≤ deadline`. -/
def dueBy (deadline : Int) (b : Booking) : Bool :=
  decide (b.Status = BookingStatusPending ∧ b.ExpiresAt ≤ deadline)

/-- Number of rows of `rows` that belong to flight `flightID`. -/
def rowsOnFlight (rows : List Booking) (flightID : Int) : Nat :=
  rows.countP fun b => decide (b.FlightID = flightID)

/-- The part of a flight row the seat accounting is about: id, capacity, available. -/
def Flight.seats (f : Flight) : Int × Int × Int := (f.ID, f.TotalSeats, f.AvailableSeats)

/-- The status changes of the booking state machine, staying put included:
PENDING→CONFIRMED, PENDING→CANCELLED, PENDING→EXPIRED and CONFIRMED→CANCELLED. -/
def StatusStep (old new : BookingStatus) : Prop :=
  old = new ∨
  (old = BookingStatusPending ∧ new = BookingStatusConfirmed) ∨
  (old = BookingStatusPending ∧ new = BookingStatusCancelled) ∨
  (old = BookingStatusPending ∧ new = BookingStatusExpired) ∨
  (old = BookingStatusConfirmed ∧ new = BookingStatusCancelled)

/-- What one engine operation may do to the stored bookings, a booking being known by
its token: a row that was stored before has moved by a step of the state machine, and
a row that was not stored before is PENDING. -/
def RowsStep (before after : List Booking) : Prop :=
  ∀ b2 ∈ after,
    (∀ b1 ∈ before, b1.Token = b2.Token → StatusStep b1.Status b2.Status) ∧
    ((∀ b1 ∈ before, b1.Token ≠ b2.Token) → b2.Status = BookingStatusPending)

/-- Stored rows are well formed: tokens are distinct and every status is one of the
four. -/
structure RowsOK (bookings : List Booking) : Prop where
  tokens : (bookings.map Booking.Token).Nodup
  status : ∀ b ∈ bookings, b.Status = BookingStatusPending ∨
    b.Status = BookingStatusConfirmed ∨ b.Status = BookingStatusCancelled ∨
    b.Status = BookingStatusExpired


/-! ### Sample data for the second group of claims -/

/-- The booking of `bookedWorld` as the store returns it after a status update (the
store's clock reads 0 in the sample world, so `updated_at` stays 0). -/
def bookedRowAs (status : BookingStatus) : Booking := { bookedRow with Status := status }

/-- The sample world after the sweep at time 1000 expired the booking of `bookedWorld`. -/
def expiredWorld : World := (sampleService.ExpirePendingBookings 1000 bookedWorld).2

/-- The engine of `main.go` with both topics configured. -/
def notifyingService : BookingService World :=
  NewBookingService "bookings" "notifications" 60 600

/-- A booking on flight 1 for the sweep examples. -/
def sweepRow (id seat : Int) (token : String) (status : BookingStatus) (expiresAt : Int) :
    Booking :=
  { ID := id, FlightID := 1, SeatNumber := seat, Token := token, Status := status,
    ExpiresAt := expiresAt, Email := "a@x.com", CreatedAt := 0, UpdatedAt := 0 }

/-- The sweep example of the specification around the deadline 1000, with a boundary
row added: PENDING rows expiring at 900, 1100 and exactly 1000, and a CONFIRMED row
with expiry 900, all on flight 1 (one seat left); flight 2 has no bookings. -/
def sweepWorld : World :=
  { flights := [sampleFlight 1 5 1, sampleFlight 2 5 5],
    bookings := [sweepRow 1 1 "a" BookingStatusPending 900,
                 sweepRow 2 2 "b" BookingStatusPending 1100,
                 sweepRow 3 3 "c" BookingStatusConfirmed 900,
                 sweepRow 4 4 "d" BookingStatusPending 1000],
    nextID := 5, dbNow := 0, redis := [], kafka := [], faults := [] }

/-- The sweep example with an environment that lets the bulk update through and then
fails the seat return, the publication and the lock release of the first row. -/
def stormyWorld : World :=
  { sweepWorld with faults := [none, some "db down", some "broker down", some "redis down"] }

/-! ### Vocabulary of the third group of claims -/

/-- A store whose `CreatePending` leaves the `ExpiresAt` of the record it is handed as
the caller set it (the Go method receives a pointer; the implemented store scans only
`id`, `created_at` and `updated_at` back into it). -/
def BookingRepository.KeepsExpiresAt {σ : Type} (r : BookingRepository σ) : Prop :=
  ∀ (b : Booking) (w : σ), (r.CreatePending b w).1.1.ExpiresAt = b.ExpiresAt

/-! ## The flight catalogue (`flight_service.go`) -/

/-- Go: `[]domain.Flight`.  A nil slice handed over by the repository is the empty
list; where the code tests a slice against nil (`GetFlights`), the slice is an
`Option`. -/
abbrev Flights := List Flight

/-- Go: `repository.FlightRepository`; `List` returns its `([]domain.Flight, error)`
pair as it is. -/
structure FlightRepository (σ : Type) where
  List : σ → (Flights × Option Err) × σ
  GetByID : Int → σ → Except Err Flight × σ
  ReserveSeat : Int → σ → Option Err × σ
  ReleaseSeat : Int → σ → Option Err × σ

/-- Go: `flights.FlightService`; a nil `cache` is `none`. -/
structure FlightService (σ : Type) where
  repo : FlightRepository σ
  cache : Option (Cache σ)
  cacheTTL : Int

/-- Go: `(*FlightService).List`, lines 45-52: the part after the cache lookup. -/
def FlightService.listFromRepo {σ : Type} (s : FlightService σ) (w : σ) :
    Except Err Flights × σ :=
  match s.repo.List w with
  | ((_, some err), w1) => (.error err, w1)
  | ((flights, none), w1) =>
    match s.cache with
    | some c => (.ok flights, (c.SetFlights flights w1).2)
    | none => (.ok flights, w1)

/-- Go: `(*FlightService).List`. -/
def FlightService.List {σ : Type} (s : FlightService σ) (w : σ) : Except Err Flights × σ :=
  match s.cache with
  | some c =>
    match c.GetFlights w with
    | ((some cached, none), w1) => (.ok cached, w1)
    | (_, w1) => s.listFromRepo w1
  | none => s.listFromRepo w

/-- Go: `(*FlightService).GetByID`. -/
def FlightService.GetByID {σ : Type} (s : FlightService σ) (id : Int) (w : σ) :
    Except Err Flight × σ :=
  s.repo.GetByID id w

/-- A collaborator call of the flight service: a cache call or a repository call. -/
inductive FlightCall where
  | cache (c : Call)
  | List
  | GetByID (id : Int)
  | ReserveSeat (flightID : Int)
  | ReleaseSeat (flightID : Int)
  deriving DecidableEq, Repr

/-- The log of the collaborator calls of the flight service. -/
abbrev FlightLog := List FlightCall

/-- Runs a collaborator call of the flight service and appends it to the log. -/
def note {σ α : Type} (c : FlightCall) (f : σ → α × σ) (w : σ × FlightLog) :
    α × (σ × FlightLog) :=
  ((f w.1).1, ((f w.1).2, w.2 ++ [c]))

/-- The flight repository, recording its calls. -/
def FlightRepository.traced {σ : Type} (r : FlightRepository σ) :
    FlightRepository (σ × FlightLog) where
  List := note .List r.List
  GetByID := fun id => note (.GetByID id) (r.GetByID id)
  ReserveSeat := fun id => note (.ReserveSeat id) (r.ReserveSeat id)
  ReleaseSeat := fun id => note (.ReleaseSeat id) (r.ReleaseSeat id)

/-- The cache of the flight service, recording its calls. -/
def Cache.noted {σ : Type} (c : Cache σ) : Cache (σ × FlightLog) where
  AcquireSeatLock := fun f seat ttl =>
    note (.cache (.AcquireSeatLock f seat ttl)) (c.AcquireSeatLock f seat ttl)
  ReleaseSeatLock := fun f seat => note (.cache (.ReleaseSeatLock f seat)) (c.ReleaseSeatLock f seat)
  GetFlights := note (.cache .GetFlights) c.GetFlights
  SetFlights := fun fs => note (.cache (.SetFlights fs)) (c.SetFlights fs)

/-- The flight service over recording collaborators. -/
def FlightService.traced {σ : Type} (s : FlightService σ) :
    FlightService (σ × FlightLog) where
  repo := s.repo.traced
  cache := s.cache.map Cache.noted
  cacheTTL := s.cacheTTL

/-- Go test: `MockFlightRepository` with `On("List").Return(flights, err)`: a
repository that answers `List` with a fixed pair and has no state of its own. -/
def stubFlightRepository (flights : Flights) (err : Option Err) : FlightRepository Unit where
  List := fun w => ((flights, err), w)
  GetByID := fun _ w => (.error ErrNoRows, w)
  ReserveSeat := fun _ w => (none, w)
  ReleaseSeat := fun _ w => (none, w)

/-- Go test: `MockCache` with `On("GetFlights").Return(cached, getErr)` and
`On("SetFlights", ..).Return(setErr)`. -/
def stubCache (cached : Option Flights) (getErr setErr : Option Err) : Cache Unit where
  AcquireSeatLock := fun _ _ _ w => ((true, none), w)
  ReleaseSeatLock := fun _ _ w => (none, w)
  GetFlights := fun w => ((cached, getErr), w)
  SetFlights := fun _ w => (setErr, w)

/-- The world in which the bookings of `token` expire at `expiresAt` instead, all else
being equal. -/
def withExpiry (token : String) (expiresAt : Int) (w : World) : World :=
  { w with
    bookings := updateWhere (hasToken token) (fun b => { b with ExpiresAt := expiresAt })
      w.bookings }

/-- The sample world after seat 4 of flight 1 was booked under token `t0` at time 50:
one PENDING row, four of five seats left. -/
def accountingWorld : World :=
  (sampleService.CreateBooking { sampleInput with SeatNumber := 4 } "t0" 50 (sampleWorld 5)).2

/-- The world `bookedWorld` after the seat lock of its booking `t1` lapsed (the TTL ran
out in Redis, an event of the environment) and the same seat was booked again under
token `t2`, which acquired the lock anew. -/
def relockedWorld : World :=
  (sampleService.CreateBooking sampleInput "t2" 200 { bookedWorld with redis := [] }).2

/-- What a booking is issued for: flight, seat and contact. -/
def Booking.identity (b : Booking) : Int × Int × String := (b.FlightID, b.SeatNumber, b.Email)
/-! ## Theorems -/

/-! ### The seat-lock key determines the flight and the seat -/

theorem decimal_fuel (f1 : Nat) : ∀ (f2 n : Nat), n < f1 → n < f2 → decimal f1 n = decimal f2 n := by
  induction f1 with
  | zero => intro f2 n h; omega
  | succ f1 ih =>
    intro f2 n h1 h2
    cases f2 with
    | zero => omega
    | succ f2 =>
      unfold decimal
      by_cases hn : n < 10
      · simp [hn]
      · simp only [hn, if_false]
        rw [ih f2 (n / 10) (by omega) (by omega)]

theorem formatNat_eq (n : Nat) :
    formatNat n = if n < 10 then [Nat.digitChar n]
      else formatNat (n / 10) ++ [Nat.digitChar (n % 10)] := by
  unfold formatNat
  conv => lhs; unfold decimal
  by_cases hn : n < 10
  · simp [hn]
  · simp only [hn, if_false]
    rw [decimal_fuel n (n / 10 + 1) (n / 10) (by omega) (by omega)]

theorem formatNat_ne_nil (n : Nat) : formatNat n ≠ [] := by
  rw [formatNat_eq]
  split <;> simp

theorem digitChar_inj : ∀ a b : Fin 10,
    Nat.digitChar a.val = Nat.digitChar b.val → a = b := by
  decide

theorem digitChar_plain : ∀ a : Fin 10,
    Nat.digitChar a.val ≠ ':' ∧ Nat.digitChar a.val ≠ '-' := by
  decide

theorem formatNat_plain (n : Nat) : ∀ c ∈ formatNat n, c ≠ ':' ∧ c ≠ '-' := by
  induction n using Nat.strong_induction_on with
  | _ n ih =>
    intro c hc
    rw [formatNat_eq] at hc
    by_cases hn : n < 10
    · simp only [hn, if_true, List.mem_singleton] at hc
      subst hc
      exact digitChar_plain ⟨n, hn⟩
    · simp only [hn, if_false, List.mem_append, List.mem_singleton] at hc
      rcases hc with hc | hc
      · exact ih (n / 10) (by omega) c hc
      · subst hc
        exact digitChar_plain ⟨n % 10, by omega⟩

theorem formatNat_inj (n : Nat) : ∀ m : Nat, formatNat n = formatNat m → n = m := by
  induction n using Nat.strong_induction_on with
  | _ n ih =>
    intro m h
    rw [formatNat_eq n, formatNat_eq m] at h
    by_cases hn : n < 10 <;> by_cases hm : m < 10
    · simp only [hn, hm, if_true, List.cons.injEq, and_true] at h
      have := digitChar_inj ⟨n, hn⟩ ⟨m, hm⟩ h
      simpa using this
    · simp only [hn, hm, if_true, if_false] at h
      have hl := congrArg List.length h
      have := List.length_pos.mpr (formatNat_ne_nil (m / 10))
      simp only [List.length_append, List.length_singleton] at hl
      omega
    · simp only [hn, hm, if_true, if_false] at h
      have hl := congrArg List.length h
      have := List.length_pos.mpr (formatNat_ne_nil (n / 10))
      simp only [List.length_append, List.length_singleton] at hl
      omega
    · simp only [hn, hm, if_false] at h
      have h2 := List.append_inj' h rfl
      have h10 := ih (n / 10) (by omega) (m / 10) h2.1
      have hd := digitChar_inj ⟨n % 10, by omega⟩ ⟨m % 10, by omega⟩
        (by simpa using h2.2)
      have hd2 : n % 10 = m % 10 := by simpa using hd
      omega

theorem formatInt_inj (a b : Int) (h : formatInt a = formatInt b) : a = b := by
  have h := congrArg String.data h
  cases a with
  | ofNat n =>
    cases b with
    | ofNat m =>
      simp only [formatInt] at h
      rw [formatNat_inj n m h]
    | negSucc m =>
      simp only [formatInt] at h
      have := formatNat_plain n '-' (by rw [h]; simp)
      exact absurd rfl this.2
  | negSucc n =>
    cases b with
    | ofNat m =>
      simp only [formatInt] at h
      have := formatNat_plain m '-' (by rw [← h]; simp)
      exact absurd rfl this.2
    | negSucc m =>
      simp only [formatInt, List.cons.injEq, true_and] at h
      have := formatNat_inj (n + 1) (m + 1) h
      have hnm : n = m := by omega
      rw [hnm]

theorem formatInt_no_colon (a : Int) : ':' ∉ (formatInt a).data := by
  cases a with
  | ofNat n =>
    intro h
    exact (formatNat_plain n ':' h).1 rfl
  | negSucc n =>
    intro h
    simp only [formatInt, List.mem_cons] at h
    rcases h with h | h
    · exact absurd h (by decide)
    · exact (formatNat_plain (n + 1) ':' h).1 rfl

theorem split_at_first {α : Type} (c : α) : ∀ (a b x y : List α), c ∉ a → c ∉ b →
    a ++ c :: x = b ++ c :: y → a = b ∧ x = y := by
  intro a
  induction a with
  | nil =>
    intro b x y _ hb h
    cases b with
    | nil => simpa using h
    | cons b0 b =>
      simp only [List.nil_append, List.cons_append, List.cons.injEq] at h
      exact absurd (h.1 ▸ List.mem_cons_self _ _) hb
  | cons a0 a ih =>
    intro b x y ha hb h
    cases b with
    | nil =>
      simp only [List.nil_append, List.cons_append, List.cons.injEq] at h
      exact absurd (h.1 ▸ List.mem_cons_self _ _) ha
    | cons b0 b =>
      simp only [List.cons_append, List.cons.injEq] at h
      have := ih b x y (fun hm => ha (List.mem_cons_of_mem _ hm))
        (fun hm => hb (List.mem_cons_of_mem _ hm)) h.2
      exact ⟨by rw [h.1, this.1], this.2⟩

/-- Two seat-lock keys are equal only for the same flight and the same seat. -/
theorem seatLockKey_inj (f1 s1 f2 s2 : Int) (h : seatLockKey f1 s1 = seatLockKey f2 s2) :
    f1 = f2 ∧ s1 = s2 := by
  have hd := congrArg String.data h
  simp only [seatLockKey, String.data_append] at hd
  have h0 : "lock:flight:".data ++
        ((formatInt f1).data ++ ':' :: ("seat:".data ++ (formatInt s1).data))
      = "lock:flight:".data ++
        ((formatInt f2).data ++ ':' :: ("seat:".data ++ (formatInt s2).data)) := by
    simpa [List.append_assoc] using hd
  have h1 : (formatInt f1).data ++ ':' :: ("seat:".data ++ (formatInt s1).data)
      = (formatInt f2).data ++ ':' :: ("seat:".data ++ (formatInt s2).data) :=
    List.append_cancel_left h0
  have h2 := split_at_first ':' _ _ _ _ (formatInt_no_colon f1) (formatInt_no_colon f2) h1
  have h3 := List.append_cancel_left h2.2
  exact ⟨formatInt_inj f1 f2 (String.ext h2.1), formatInt_inj s1 s2 (String.ext h3)⟩
/-! ### Auxiliary facts: lists, the fault script, recording -/

theorem head?_filter_eq_find? {α : Type} (p : α → Bool) (l : List α) :
    (l.filter p).head? = l.find? p := by
  induction l with
  | nil => rfl
  | cons a l ih =>
    by_cases h : p a
    · simp [List.filter, List.find?, h]
    · simp [List.filter, List.find?, h, ih]

theorem World.io_fst_of_calm {n : Nat} {w : World} (h : w.calm (n + 1)) : w.io.1 = none := by
  unfold World.calm at h
  unfold World.io
  cases hf : w.faults with
  | nil => rfl
  | cons f rest =>
    rw [hf] at h
    exact h f (by simp)

theorem World.io_calm {n : Nat} {w : World} (h : w.calm (n + 1)) : w.io.2.calm n := by
  unfold World.calm at h ⊢
  unfold World.io
  cases hf : w.faults with
  | nil => simp
  | cons f rest =>
    rw [hf] at h
    intro e he
    exact h e (by simp only [List.take_succ_cons, List.mem_cons]; exact Or.inr he)

theorem World.calm_mono {m n : Nat} {w : World} (hmn : m ≤ n) (h : w.calm n) : w.calm m :=
  fun e he => h e (List.take_subset_take_left _ hmn he)

@[simp] theorem World.io_flights (w : World) : w.io.2.flights = w.flights := rfl
@[simp] theorem World.io_bookings (w : World) : w.io.2.bookings = w.bookings := rfl
@[simp] theorem World.io_redis (w : World) : w.io.2.redis = w.redis := rfl
@[simp] theorem World.io_kafka (w : World) : w.io.2.kafka = w.kafka := rfl
@[simp] theorem World.io_dbNow (w : World) : w.io.2.dbNow = w.dbNow := rfl
@[simp] theorem World.io_nextID (w : World) : w.io.2.nextID = w.nextID := rfl

theorem PGBookingRepository.GetByToken_calm (token : String) (w : World) (h : w.calm 1) :
    PGBookingRepository.GetByToken token w =
      (match w.bookings.find? (hasToken token) with
       | none => .error ErrNoRows
       | some b => .ok b, w.io.2) := by
  have h1 := World.io_fst_of_calm h
  unfold PGBookingRepository.GetByToken
  simp only [h1, World.io_bookings]
  cases w.bookings.find? (hasToken token) <;> rfl

theorem PGBookingRepository.UpdateStatus_calm (token : String) (status : BookingStatus)
    (w : World) (h : w.calm 1) :
    PGBookingRepository.UpdateStatus token status w =
      (match w.bookings.find? (hasToken token) with
       | none => .error ErrNoRows
       | some b => .ok (setStatus status w.dbNow b),
       { w.io.2 with
         bookings := updateWhere (hasToken token) (setStatus status w.dbNow) w.bookings }) := by
  have h1 := World.io_fst_of_calm h
  unfold PGBookingRepository.UpdateStatus
  simp only [h1, World.io_bookings, World.io_dbNow, returningWhere, List.head?_map,
    head?_filter_eq_find?]
  cases w.bookings.find? (hasToken token) <;> rfl

section

variable {σ : Type}

/-- The recording engine publishes as the plain engine does and logs only
publisher calls while doing so. -/
theorem traced_publish (s : BookingService σ) (ev : String) (b : Booking) (w : σ)
    (log : List Call) :
    ∃ pubs : List Call, (∀ c ∈ pubs, c.isPublish = true) ∧
      s.traced.publish ev b (w, log) = ((s.publish ev b w).1, ((s.publish ev b w).2, log ++ pubs)) := by
  unfold BookingService.publish
  cases hp : s.producer with
  | none => exact ⟨[], by simp, by simp [BookingService.traced, hp]⟩
  | some p =>
    by_cases ht : s.bookingTopic = ""
    · exact ⟨[], by simp, by simp [BookingService.traced, hp, ht]⟩
    · simp only [BookingService.traced, hp, Option.map_some', ht, if_false, Producer.traced, record]
      rcases h1 : p.Publish s.bookingTopic b.Token (bookingEvent ev b) w with ⟨r, w1⟩
      cases r with
      | some e =>
        exact ⟨[Call.Publish s.bookingTopic b.Token (bookingEvent ev b)],
          by simp [Call.isPublish], by simp⟩
      | none =>
        by_cases hn : s.notificationsTopic = ""
        · exact ⟨[Call.Publish s.bookingTopic b.Token (bookingEvent ev b)],
            by simp [Call.isPublish], by simp [hn]⟩
        · exact ⟨[Call.Publish s.bookingTopic b.Token (bookingEvent ev b),
              Call.Publish s.notificationsTopic b.Token (bookingEvent ev b)],
            by simp [Call.isPublish], by simp [hn]⟩

end

/-- The store as implemented writes only the status and the generated fields of the
record handed to `CreatePending`. -/
theorem PG_keepsCallerFields : PGBookingRepository.KeepsCallerFields := by
  intro b w
  simp only [PGBookingRepository, PGBookingRepository.CreatePending]
  repeat' split
  all_goals simp
/-! ### CreateBooking: validation, lock refusal, store failure, success -/

section

variable {σ : Type}

/-- C6. A `CreateBooking` whose input has `SeatNumber ≤ 0` or an empty `Email` returns
no booking and the validation error ("seat number must be positive" when
`SeatNumber ≤ 0`, otherwise "email is required"), for every implementation of the
lock coordinator, the store and the publisher; the world and the log of collaborator
calls are as before the call, so no collaborator was invoked. -/
theorem CreateBooking_validation_no_calls (s : BookingService σ) (input : CreateBookingInput)
    (token : String) (now : Int) (w : σ) (log : List Call)
    (h : input.SeatNumber ≤ 0 ∨ input.Email = "") :
    s.traced.CreateBooking input token now (w, log) =
      (.error (if input.SeatNumber ≤ 0 then "seat number must be positive"
               else "email is required"), (w, log)) := by
  unfold BookingService.CreateBooking
  by_cases h1 : input.SeatNumber ≤ 0
  · simp [h1]
  · have h2 : input.Email = "" := by tauto
    simp [h1, h2]

/-- Witness of C6: seat number zero on the wired engine. -/
theorem CreateBooking_validation_no_calls_witness :
    ((0 : Int) ≤ 0 ∨ "a@x.com" = "") ∧
    sampleService.traced.CreateBooking { FlightID := 1, SeatNumber := 0, Email := "a@x.com" }
        "t1" 100 (sampleWorld 5, []) =
      (.error (if (0 : Int) ≤ 0 then "seat number must be positive" else "email is required"),
        (sampleWorld 5, [])) :=
  ⟨Or.inl (by decide),
    CreateBooking_validation_no_calls sampleService
      { FlightID := 1, SeatNumber := 0, Email := "a@x.com" } "t1" 100 (sampleWorld 5) []
      (Or.inl (by decide))⟩

/-- C7. With a lock coordinator configured and a valid input, if `AcquireSeatLock`
returns anything but `(true, nil)` then `CreateBooking` returns no booking and an
error: the coordinator's own error when there is one, "seat is already locked" when
the result is `(false, nil)`.  The only collaborator call made is that one
`AcquireSeatLock`: neither `CreatePending`, nor `ReleaseSeatLock`, nor the publisher
is invoked. -/
theorem CreateBooking_lock_not_acquired (s : BookingService σ) (c : Cache σ)
    (hc : s.cache = some c) (input : CreateBookingInput) (token : String) (now : Int)
    (w w1 : σ) (log : List Call) (hseat : 0 < input.SeatNumber) (hmail : input.Email ≠ "")
    (ok : Bool) (err : Option Err)
    (hacq : c.AcquireSeatLock input.FlightID input.SeatNumber s.holdTTL w = ((ok, err), w1))
    (hfail : (ok, err) ≠ (true, none)) :
    s.traced.CreateBooking input token now (w, log) =
      (.error (err.getD "seat is already locked"),
        (w1, log ++ [Call.AcquireSeatLock input.FlightID input.SeatNumber s.holdTTL])) := by
  unfold BookingService.CreateBooking
  have h1 : ¬ input.SeatNumber ≤ 0 := by omega
  simp only [h1, hmail, if_false]
  simp only [BookingService.traced, hc, Option.map_some', Cache.traced, record, hacq]
  cases err with
  | some e => simp
  | none =>
    cases ok with
    | false => simp
    | true => exact absurd rfl hfail

/-- Witness of C7: the seat of `bookedWorld` is requested again while its lock is held. -/
theorem CreateBooking_lock_not_acquired_witness :
    sampleService.traced.CreateBooking sampleInput "t2" 200 (bookedWorld, []) =
      (.error "seat is already locked", (bookedWorld, [Call.AcquireSeatLock 1 3 60])) :=
  CreateBooking_lock_not_acquired sampleService RedisCache rfl sampleInput "t2" 200
    bookedWorld bookedWorld [] (by decide) (by decide) false none (by rfl) (by decide)

/-- C8. With a valid input and the seat lock acquired, if the store's `CreatePending`
fails with `err` (whatever the failure, "no seats" included) then `CreateBooking`
returns no booking and `err` unchanged, and the collaborator calls are exactly:
the acquisition, the `CreatePending`, and one `ReleaseSeatLock` for the input's
(flight, seat).  No event is published. -/
theorem CreateBooking_store_failure_releases_lock (s : BookingService σ) (c : Cache σ)
    (hc : s.cache = some c) (input : CreateBookingInput) (token : String) (now : Int)
    (w w1 w2 : σ) (log : List Call) (hseat : 0 < input.SeatNumber) (hmail : input.Email ≠ "")
    (hacq : c.AcquireSeatLock input.FlightID input.SeatNumber s.holdTTL w = ((true, none), w1))
    (left : Booking) (err : Err)
    (hstore : s.bookings.CreatePending (s.newBooking input token now) w1
      = ((left, some err), w2)) :
    s.traced.CreateBooking input token now (w, log) =
      (.error err,
        ((c.ReleaseSeatLock input.FlightID input.SeatNumber w2).2,
          log ++ [Call.AcquireSeatLock input.FlightID input.SeatNumber s.holdTTL,
                  Call.CreatePending (s.newBooking input token now),
                  Call.ReleaseSeatLock input.FlightID input.SeatNumber])) := by
  unfold BookingService.CreateBooking
  have h1 : ¬ input.SeatNumber ≤ 0 := by omega
  simp only [h1, hmail, if_false]
  simp only [BookingService.traced, hc, Option.map_some', Cache.traced, record, hacq,
    BookingService.createAfterLock, BookingRepository.traced, BookingService.newBooking, hstore]
  have := hstore
  simp only [BookingService.newBooking] at this
  simp [this]

/-- Witness of C8: a flight without free seats; the store refuses and the lock taken
for the request is released again. -/
theorem CreateBooking_store_failure_releases_lock_witness :
    sampleService.traced.CreateBooking sampleInput "t1" 100 (sampleWorld 0, []) =
      (.error ErrNoRows,
        (sampleWorld 0,
          [Call.AcquireSeatLock 1 3 60,
           Call.CreatePending (sampleService.newBooking sampleInput "t1" 100),
           Call.ReleaseSeatLock 1 3])) :=
  CreateBooking_store_failure_releases_lock sampleService RedisCache rfl sampleInput "t1" 100
    (sampleWorld 0) { sampleWorld 0 with redis := [("lock:flight:1:seat:3", "locked")] }
    { sampleWorld 0 with redis := [("lock:flight:1:seat:3", "locked")] } []
    (by decide) (by decide) (by rfl) (sampleService.newBooking sampleInput "t1" 100) ErrNoRows
    (by rfl)

/-- C9. With a valid input, when the lock step succeeds (no coordinator configured, or
`AcquireSeatLock` returned `(true, nil)`) and the store's `CreatePending` succeeds,
`CreateBooking` returns a booking with status PENDING whose `FlightID`, `SeatNumber`
and `Email` are the input's.  Its collaborator calls are, in order: `AcquireSeatLock`
with `holdTTL` once if a coordinator is configured and not at all otherwise,
`CreatePending` once, then only publisher calls.  The store is any store that leaves
the caller's flight, seat and contact in the record it is handed. -/
theorem CreateBooking_success (s : BookingService σ) (input : CreateBookingInput)
    (token : String) (now : Int) (w w1 w2 : σ) (log : List Call) (created : Booking)
    (hseat : 0 < input.SeatNumber) (hmail : input.Email ≠ "")
    (hkeep : s.bookings.KeepsCallerFields)
    (hlock : (s.cache = none ∧ w1 = w) ∨
      ∃ c, s.cache = some c ∧
        c.AcquireSeatLock input.FlightID input.SeatNumber s.holdTTL w = ((true, none), w1))
    (hstore : s.bookings.CreatePending (s.newBooking input token now) w1
      = ((created, none), w2)) :
    ∃ (b : Booking) (pubs : List Call),
      s.traced.CreateBooking input token now (w, log) =
        (.ok b, ((s.publish "booking_created" b w2).2,
          log ++ s.lockCalls input ++ [Call.CreatePending (s.newBooking input token now)]
            ++ pubs)) ∧
      (∀ c ∈ pubs, c.isPublish = true) ∧
      b = { created with Status := BookingStatusPending } ∧
      b.Status = BookingStatusPending ∧ b.FlightID = input.FlightID ∧
      b.SeatNumber = input.SeatNumber ∧ b.Email = input.Email := by
  obtain ⟨pubs, hpubs, hpub⟩ := traced_publish s "booking_created"
    { created with Status := BookingStatusPending } w2
    (log ++ s.lockCalls input ++ [Call.CreatePending (s.newBooking input token now)])
  have hk := hkeep (s.newBooking input token now) w1
  rw [hstore] at hk
  refine ⟨{ created with Status := BookingStatusPending }, pubs, ?_, hpubs, rfl, rfl, ?_, ?_, ?_⟩
  · have h1 : ¬ input.SeatNumber ≤ 0 := by omega
    have hnb : s.traced.newBooking input token now = s.newBooking input token now := rfl
    have hafter : ∀ (locked : Bool) (l : List Call),
        s.traced.createAfterLock input token now locked (w1, l) =
          (.ok { created with Status := BookingStatusPending },
            (s.traced.publish "booking_created"
              { created with Status := BookingStatusPending }
              (w2, l ++ [Call.CreatePending (s.newBooking input token now)])).2) := by
      intro locked l
      unfold BookingService.createAfterLock
      rw [hnb]
      have : s.traced.bookings.CreatePending (s.newBooking input token now) (w1, l)
          = ((created, none), (w2, l ++ [Call.CreatePending (s.newBooking input token now)])) := by
        simp [BookingService.traced, BookingRepository.traced, record, hstore]
      rw [this]
    unfold BookingService.CreateBooking
    simp only [h1, hmail, if_false]
    rcases hlock with ⟨hc, rfl⟩ | ⟨c, hc, hacq⟩
    · have hc2 : s.traced.cache = none := by simp [BookingService.traced, hc]
      simp only [hc2]
      rw [hafter]
      have hl : s.lockCalls input = [] := by simp [BookingService.lockCalls, hc]
      rw [hl] at hpub
      simp only [List.append_nil] at hpub
      rw [hpub]
      simp [hl]
    · have hc2 : s.traced.cache = some c.traced := by simp [BookingService.traced, hc]
      have hh : s.traced.holdTTL = s.holdTTL := rfl
      simp only [hc2, Cache.traced, record, hh, hacq]
      rw [hafter]
      have hl : s.lockCalls input
          = [Call.AcquireSeatLock input.FlightID input.SeatNumber s.holdTTL] := by
        simp [BookingService.lockCalls, hc]
      rw [hl] at hpub
      rw [hpub]
      simp [hl]
  · simpa [BookingService.newBooking] using hk.1
  · simpa [BookingService.newBooking] using hk.2.1
  · simpa [BookingService.newBooking] using hk.2.2

/-- Witness of C9: the booking that leads from the sample world to `bookedWorld`. -/
theorem CreateBooking_success_witness :
    ∃ (b : Booking) (pubs : List Call),
      sampleService.traced.CreateBooking sampleInput "t1" 100 (sampleWorld 5, []) =
        (.ok b, ((sampleService.publish "booking_created" b
            { bookedWorld with kafka := [] }).2,
          [] ++ sampleService.lockCalls sampleInput
            ++ [Call.CreatePending (sampleService.newBooking sampleInput "t1" 100)] ++ pubs)) ∧
      (∀ c ∈ pubs, c.isPublish = true) ∧
      b = { bookedRow with Status := BookingStatusPending } ∧
      b.Status = BookingStatusPending ∧ b.FlightID = sampleInput.FlightID ∧
      b.SeatNumber = sampleInput.SeatNumber ∧ b.Email = sampleInput.Email :=
  CreateBooking_success sampleService sampleInput "t1" 100 (sampleWorld 5)
    { sampleWorld 5 with redis := [("lock:flight:1:seat:3", "locked")] }
    { bookedWorld with kafka := [] } [] bookedRow (by decide) (by decide)
    PG_keepsCallerFields (Or.inr ⟨RedisCache, rfl, by rfl⟩) (by rfl)

end

/-- C10. Over the store as implemented, let `current` be the stored booking of `token`
(the row the lookup returns).  If its status is not PENDING (so in particular if it
is CONFIRMED, CANCELLED or EXPIRED) and the lookup is not failed by the environment,
`ConfirmBooking` returns no booking and the error "booking is not pending", and its
only collaborator call is the lookup: no `UpdateStatus`, no lock release, no
publication.  If its status is PENDING and neither store statement is failed by the
environment, `ConfirmBooking` succeeds and returns that booking with status
CONFIRMED. -/
theorem ConfirmBooking_requires_pending (s : BookingService World)
    (hs : s.bookings = PGBookingRepository) (token : String) (w : World) (log : List Call)
    (current : Booking)
    (hrow : w.bookings.find? (hasToken token) = some current) :
    (current.Status ≠ BookingStatusPending → w.calm 1 →
      s.traced.ConfirmBooking token (w, log) =
        (.error "booking is not pending", (w.io.2, log ++ [Call.GetByToken token]))) ∧
    (current.Status = BookingStatusPending → w.calm 2 →
      ∃ b, (s.ConfirmBooking token w).1 = .ok b ∧ b.Status = BookingStatusConfirmed ∧
        b.Token = token ∧ b.FlightID = current.FlightID ∧
        b.SeatNumber = current.SeatNumber ∧ b.Email = current.Email) := by
  constructor
  · intro hst hcalm
    unfold BookingService.ConfirmBooking
    have hg := PGBookingRepository.GetByToken_calm token w hcalm
    rw [hrow] at hg
    simp only [BookingService.traced, hs, BookingRepository.traced, record, PGBookingRepository, hg]
    simp [hst]
  · intro hst hcalm
    have hc1 : w.calm 1 := World.calm_mono (by omega) hcalm
    have hc2 : w.io.2.calm 1 := World.io_calm hcalm
    have hb : w.io.2.bookings = w.bookings := rfl
    have hg := PGBookingRepository.GetByToken_calm token w hc1
    rw [hrow] at hg
    have hu := PGBookingRepository.UpdateStatus_calm token BookingStatusConfirmed w.io.2 hc2
    rw [hb, hrow] at hu
    have htok : current.Token = token := by
      have := List.find?_some hrow
      simpa [hasToken] using this
    refine ⟨setStatus BookingStatusConfirmed w.io.2.dbNow current, ?_, rfl, htok, rfl, rfl, rfl⟩
    unfold BookingService.ConfirmBooking
    simp only [hs, PGBookingRepository, hg, hu]
    simp [hst]

/-- Witness of C10: the PENDING row of `bookedWorld` is confirmed, and a second
confirmation of the same token is refused. -/
theorem ConfirmBooking_requires_pending_witness :
    (∃ b, (sampleService.ConfirmBooking "t1" bookedWorld).1 = .ok b ∧
        b.Status = BookingStatusConfirmed ∧ b.Token = "t1" ∧
        b.FlightID = bookedRow.FlightID ∧ b.SeatNumber = bookedRow.SeatNumber ∧
        b.Email = bookedRow.Email) ∧
    sampleService.traced.ConfirmBooking "t1"
        ((sampleService.ConfirmBooking "t1" bookedWorld).2, []) =
      (.error "booking is not pending",
        ((sampleService.ConfirmBooking "t1" bookedWorld).2.io.2, [] ++ [Call.GetByToken "t1"])) :=
  ⟨(ConfirmBooking_requires_pending sampleService rfl "t1" bookedWorld [] bookedRow
      (by rfl)).2 rfl (by
        intro e he
        have hf : bookedWorld.faults = [] := by rfl
        rw [hf] at he
        simp at he),
   (ConfirmBooking_requires_pending sampleService rfl "t1"
      (sampleService.ConfirmBooking "t1" bookedWorld).2 []
      { bookedRow with Status := BookingStatusConfirmed } (by rfl)).1 (by decide)
      (by intro e he; revert e; decide)⟩
/-! ### The store's refusal, cancellation twice, the confirm/sweep race -/

/-- Unless the environment injects that very message, `CreatePending` never returns
"no available seats": the decrement's `RETURNING` row has `available_seats ≥ 0`, so
the check `available < 0` never fires, and a flight without free seats yields no row
at all. -/
theorem CreatePending_never_reports_no_seats (booking : Booking) (w : World) (h : w.calm 4) :
    (PGBookingRepository.CreatePending booking w).1.2 ≠ some "no available seats" := by
  have h1 := World.io_fst_of_calm h
  have c1 := World.io_calm h
  have h2 := World.io_fst_of_calm c1
  have c2 := World.io_calm c1
  have h3 := World.io_fst_of_calm c2
  have c3 := World.io_calm c2
  have h4 := World.io_fst_of_calm
    (show ({ w.io.2.io.2.io.2 with nextID := w.io.2.io.2.io.2.nextID + 1 } : World).calm (0 + 1)
      from c3)
  unfold PGBookingRepository.CreatePending
  simp only [h1, h2, h3, h4]
  cases hh : (returningWhere (reservable booking.FlightID) (takeSeat w.io.2.io.2.dbNow)
      w.io.2.io.2.flights).head? with
  | none =>
    simp only [ne_eq, Option.some.injEq]
    decide
  | some row =>
    have hpos : ¬ row.AvailableSeats < 0 := by
      unfold returningWhere at hh
      rw [List.head?_map] at hh
      cases hf : (w.io.2.io.2.flights.filter (reservable booking.FlightID)).head? with
      | none => rw [hf] at hh; simp at hh
      | some f =>
        rw [hf] at hh
        simp only [Option.map_some', Option.some.injEq] at hh
        have hmem : f ∈ w.io.2.io.2.flights.filter (reservable booking.FlightID) :=
          List.mem_of_mem_head? hf
        have hres := (List.mem_filter.mp hmem).2
        simp only [reservable, Bool.and_eq_true, decide_eq_true_eq] at hres
        rw [← hh]
        simp only [takeSeat]
        omega
    simp [hpos]

/-- C5 (evaluation at the failing input). On flight 1 with `available = 0` the store's
`CreatePending` fails and leaves the world as it was, but the error it returns is
`pgx.ErrNoRows` ("no rows in result set"), not "no available seats". -/
theorem CreatePending_sold_out_returns_ErrNoRows :
    PGBookingRepository.CreatePending (sampleService.newBooking sampleInput "t1" 100)
        (sampleWorld 0) =
      ((sampleService.newBooking sampleInput "t1" 100, some "no rows in result set"),
        sampleWorld 0) := by
  rfl

/-- C3 (evaluation at the failing input). Over the store as implemented, cancelling
the PENDING booking of `bookedWorld` succeeds, returns it as CANCELLED and gives the
seat back; `ReleaseSeat` has then deleted the row, so cancelling the same token a
second time fails with `pgx.ErrNoRows` instead of returning the CANCELLED booking. -/
theorem CancelBooking_twice_second_call_fails :
    (sampleService.CancelBooking "t1" bookedWorld).1
        = .ok { bookedRow with Status := BookingStatusCancelled } ∧
      (sampleService.CancelBooking "t1" bookedWorld).2.bookings = [] ∧
      (sampleService.CancelBooking "t1" bookedWorld).2.flights = [sampleFlight 1 5 5] ∧
      (sampleService.CancelBooking "t1" (sampleService.CancelBooking "t1" bookedWorld).2).1
        = .error "no rows in result set" := by
  refine ⟨by rfl, by rfl, by rfl, by rfl⟩

/-- C4 (evaluation at the failing input). `ConfirmBooking` reads the booking of
`bookedWorld` as PENDING; the sweep's `ExpirePendingBefore(700)` then moves it to
EXPIRED; `ConfirmBooking` goes on to `UpdateStatus(token, CONFIRMED)`, which is an
unconditional write by token: the row is changed, the call succeeds, and the
EXPIRED booking ends CONFIRMED. -/
theorem ConfirmBooking_after_sweep_confirms_expired :
    ((racingService 700).bookings.GetByToken "t1" bookedWorld).1 = .ok bookedRow ∧
      ((racingService 700).bookings.GetByToken "t1" bookedWorld).2.bookings.map Booking.Status
        = [BookingStatusExpired] ∧
      ((racingService 700).ConfirmBooking "t1" bookedWorld).1
        = .ok { bookedRow with Status := BookingStatusConfirmed } ∧
      ((racingService 700).ConfirmBooking "t1" bookedWorld).2.bookings.map Booking.Status
        = [BookingStatusConfirmed] := by
  refine ⟨by rfl, by rfl, by rfl, by rfl⟩
/-! ### What each collaborator call does to the tables and to Redis -/

theorem updateWhere_none {α : Type} (p : α → Bool) (set : α → α) (l : List α)
    (h : ∀ x ∈ l, p x = false) : updateWhere p set l = l := by
  unfold updateWhere
  conv => rhs; rw [← List.map_id l]
  apply List.map_congr_left
  intro b hb
  simp [h b hb]

theorem ReleaseSeat_effect (f : Int) (w : World) :
    (PGBookingRepository.ReleaseSeat f w).2.redis = w.redis ∧
    ((PGBookingRepository.ReleaseSeat f w).2.flights = w.flights ∨
      (PGBookingRepository.ReleaseSeat f w).2.flights
        = updateWhere (onFlight f) (giveSeat w.dbNow) w.flights) ∧
    ((PGBookingRepository.ReleaseSeat f w).2.bookings = w.bookings ∨
      (PGBookingRepository.ReleaseSeat f w).2.bookings
        = w.bookings.filter fun b => !cancelledOn f b) := by
  unfold PGBookingRepository.ReleaseSeat
  dsimp only
  split
  · simp
  · split
    · simp
    · split <;> simp

theorem GetByToken_effect (token : String) (w : World) :
    (PGBookingRepository.GetByToken token w).2.redis = w.redis ∧
    (PGBookingRepository.GetByToken token w).2.flights = w.flights ∧
    (PGBookingRepository.GetByToken token w).2.bookings = w.bookings ∧
    ∀ b, (PGBookingRepository.GetByToken token w).1 = .ok b →
      w.bookings.find? (hasToken token) = some b := by
  unfold PGBookingRepository.GetByToken
  dsimp only
  split
  · simp
  · split <;> simp_all

theorem UpdateStatus_effect (token : String) (st : BookingStatus) (w : World) :
    (PGBookingRepository.UpdateStatus token st w).2.redis = w.redis ∧
    (PGBookingRepository.UpdateStatus token st w).2.flights = w.flights ∧
    (((∃ e, (PGBookingRepository.UpdateStatus token st w).1 = .error e) ∧
      (PGBookingRepository.UpdateStatus token st w).2.bookings = w.bookings) ∨
     (∃ b0, w.bookings.find? (hasToken token) = some b0 ∧
       (PGBookingRepository.UpdateStatus token st w).1 = .ok (setStatus st w.dbNow b0) ∧
       (PGBookingRepository.UpdateStatus token st w).2.bookings
         = updateWhere (hasToken token) (setStatus st w.dbNow) w.bookings)) := by
  unfold PGBookingRepository.UpdateStatus
  simp only [returningWhere, List.head?_map, head?_filter_eq_find?, World.io_bookings,
    World.io_dbNow]
  split
  · simp
  · cases hf : w.bookings.find? (hasToken token) with
    | none =>
      simp only [Option.map_none', World.io_redis, World.io_flights, true_and]
      left
      refine ⟨⟨_, rfl⟩, ?_⟩
      exact updateWhere_none _ _ _ (by simpa using hf)
    | some b0 => simp

theorem ExpirePendingBefore_effect (deadline : Int) (w : World) :
    (PGBookingRepository.ExpirePendingBefore deadline w).2.redis = w.redis ∧
    (PGBookingRepository.ExpirePendingBefore deadline w).2.flights = w.flights ∧
    (((∃ e, (PGBookingRepository.ExpirePendingBefore deadline w).1 = .error e) ∧
      (PGBookingRepository.ExpirePendingBefore deadline w).2.bookings = w.bookings) ∨
     ((PGBookingRepository.ExpirePendingBefore deadline w).1
        = .ok (returningWhere (expirable deadline) (setStatus BookingStatusExpired w.dbNow)
            w.bookings) ∧
       (PGBookingRepository.ExpirePendingBefore deadline w).2.bookings
         = updateWhere (expirable deadline) (setStatus BookingStatusExpired w.dbNow)
            w.bookings)) := by
  unfold PGBookingRepository.ExpirePendingBefore
  split <;> simp

theorem CreatePending_effect (b : Booking) (w : World) :
    (PGBookingRepository.CreatePending b w).2.redis = w.redis ∧
    (((∃ e, (PGBookingRepository.CreatePending b w).1.2 = some e) ∧
      (PGBookingRepository.CreatePending b w).2.flights = w.flights ∧
      (PGBookingRepository.CreatePending b w).2.bookings = w.bookings) ∨
     ((PGBookingRepository.CreatePending b w).1.2 = none ∧
      (∃ f ∈ w.flights, reservable b.FlightID f = true) ∧
      (PGBookingRepository.CreatePending b w).2.flights
        = updateWhere (reservable b.FlightID) (takeSeat w.dbNow) w.flights ∧
      ∃ id t, (PGBookingRepository.CreatePending b w).2.bookings = w.bookings ++
        [{ b with Status := BookingStatusPending, ID := id, CreatedAt := t, UpdatedAt := t }])) := by
  unfold PGBookingRepository.CreatePending
  simp only [World.io_flights, World.io_dbNow]
  split
  · simp
  · split
    · simp
    · split
      · simp
      · rename_i row hrow
        split
        · simp
        · split
          · simp
          · split
            · simp
            · simp only [World.io_redis, World.io_bookings, World.io_flights, true_and]
              right
              unfold returningWhere at hrow
              rw [List.head?_map, head?_filter_eq_find?] at hrow
              cases hf : w.flights.find? (reservable b.FlightID) with
              | none => rw [hf] at hrow; simp at hrow
              | some f =>
                exact ⟨⟨f, List.mem_of_find?_eq_some hf, List.find?_some hf⟩, _, _, rfl⟩

theorem AcquireSeatLock_effect (f seat ttl : Int) (w : World) :
    (RedisCache.AcquireSeatLock f seat ttl w).2.flights = w.flights ∧
    (RedisCache.AcquireSeatLock f seat ttl w).2.bookings = w.bookings ∧
    (((RedisCache.AcquireSeatLock f seat ttl w).1 ≠ (true, none) ∧
      (RedisCache.AcquireSeatLock f seat ttl w).2.redis = w.redis) ∨
     ((RedisCache.AcquireSeatLock f seat ttl w).1 = (true, none) ∧
      lockHeld w.redis (seatLockKey f seat) = false ∧
      (RedisCache.AcquireSeatLock f seat ttl w).2.redis
        = w.redis ++ [(seatLockKey f seat, "locked")])) := by
  unfold RedisCache.AcquireSeatLock
  dsimp only
  split
  · simp
  · split <;> simp_all

theorem ReleaseSeatLock_effect (f seat : Int) (w : World) :
    (RedisCache.ReleaseSeatLock f seat w).2.flights = w.flights ∧
    (RedisCache.ReleaseSeatLock f seat w).2.bookings = w.bookings ∧
    ((RedisCache.ReleaseSeatLock f seat w).2.redis = w.redis ∨
     (RedisCache.ReleaseSeatLock f seat w).2.redis
        = w.redis.filter fun kv => !(kv.1 == seatLockKey f seat)) := by
  unfold RedisCache.ReleaseSeatLock
  dsimp only
  split <;> simp

theorem KafkaPublish_effect (topic key : String) (ev : BookingEvent) (w : World) :
    (KafkaProducer.Publish topic key ev w).2.flights = w.flights ∧
    (KafkaProducer.Publish topic key ev w).2.bookings = w.bookings ∧
    (KafkaProducer.Publish topic key ev w).2.redis = w.redis ∧
    (KafkaProducer.Publish topic key ev w).2.dbNow = w.dbNow := by
  unfold KafkaProducer.Publish
  dsimp only
  split <;> simp

/-! ### The lock discipline on lists of rows and keys -/

theorem pendingSeats_cons (b : Booking) (l : List Booking) :
    pendingSeats (b :: l) = if b.pending then seatOf b :: pendingSeats l else pendingSeats l := by
  unfold pendingSeats
  by_cases h : b.pending = true <;> simp [List.filter, h]

theorem pendingSeats_append (l1 l2 : List Booking) :
    pendingSeats (l1 ++ l2) = pendingSeats l1 ++ pendingSeats l2 := by
  simp [pendingSeats]

theorem setStatus_not_pending (st : BookingStatus) (t : Int) (b : Booking)
    (hst : st ≠ BookingStatusPending) : (setStatus st t b).pending = false := by
  simp [Booking.pending, setStatus, hst]

theorem pendingSeats_updateWhere_sublist (p : Booking → Bool) (st : BookingStatus) (t : Int)
    (hst : st ≠ BookingStatusPending) (l : List Booking) :
    (pendingSeats (updateWhere p (setStatus st t) l)).Sublist (pendingSeats l) := by
  induction l with
  | nil => simp [updateWhere, pendingSeats]
  | cons b l ih =>
    have hcons : updateWhere p (setStatus st t) (b :: l)
        = (if p b then setStatus st t b else b) :: updateWhere p (setStatus st t) l := rfl
    rw [hcons, pendingSeats_cons, pendingSeats_cons]
    by_cases hp : p b = true
    · simp only [hp, if_true, setStatus_not_pending st t b hst]
      by_cases hb : b.pending = true
      · simp only [hb, if_true]
        exact List.Sublist.cons _ ih
      · simp only [hb]
        exact ih
    · simp only [hp, Bool.false_eq_true, if_false]
      by_cases hb : b.pending = true
      · simp only [hb, if_true]
        exact List.Sublist.cons₂ _ ih
      · simp only [hb, Bool.false_eq_true, if_false]
        exact ih

theorem pendingSeats_filter_sublist (q : Booking → Bool) (l : List Booking) :
    (pendingSeats (l.filter q)).Sublist (pendingSeats l) := by
  unfold pendingSeats
  apply List.Sublist.map
  apply List.Sublist.filter
  exact List.filter_sublist l

theorem mem_updateWhere {α : Type} (p : α → Bool) (set : α → α) (l : List α) (x : α)
    (h : x ∈ updateWhere p set l) : x ∈ l ∨ ∃ y ∈ l, p y = true ∧ x = set y := by
  unfold updateWhere at h
  rw [List.mem_map] at h
  obtain ⟨y, hy, rfl⟩ := h
  by_cases hp : p y = true
  · right; exact ⟨y, hy, hp, by simp [hp]⟩
  · left; simpa [hp] using hy

theorem LockInv.terminalise {bk : List Booking} {rd : List (String × String)}
    (h : LockInv bk rd) (p : Booking → Bool) (st : BookingStatus) (t : Int)
    (hst : st = BookingStatusCancelled ∨ st = BookingStatusExpired) :
    LockInv (updateWhere p (setStatus st t) bk) rd := by
  have hne : st ≠ BookingStatusPending := by
    rcases hst with rfl | rfl <;> decide
  have hsub := pendingSeats_updateWhere_sublist p st t hne bk
  refine ⟨?_, h.nodup.sublist hsub, fun q hq => h.held q (hsub.subset hq)⟩
  intro b hb
  rcases mem_updateWhere _ _ _ _ hb with hb | ⟨y, _, _, rfl⟩
  · exact h.status b hb
  · right; exact hst

theorem LockInv.delete {bk : List Booking} {rd : List (String × String)}
    (h : LockInv bk rd) (q : Booking → Bool) : LockInv (bk.filter q) rd := by
  have hsub := pendingSeats_filter_sublist q bk
  exact ⟨fun b hb => h.status b (List.mem_of_mem_filter hb), h.nodup.sublist hsub,
    fun p hp => h.held p (hsub.subset hp)⟩

theorem lockHeld_append (rd : List (String × String)) (kv : String × String) (k : String)
    (h : lockHeld rd k = true) : lockHeld (rd ++ [kv]) k = true := by
  simp only [lockHeld, List.any_append, Bool.or_eq_true] at h ⊢
  exact Or.inl h

theorem lockHeld_append_self (rd : List (String × String)) (k v : String) :
    lockHeld (rd ++ [(k, v)]) k = true := by
  simp [lockHeld]

theorem lockHeld_filter (rd : List (String × String)) (k k2 : String) (hne : k ≠ k2)
    (h : lockHeld rd k = true) :
    lockHeld (rd.filter fun kv => !(kv.1 == k2)) k = true := by
  simp only [lockHeld, List.any_eq_true, List.mem_filter, beq_iff_eq] at h ⊢
  obtain ⟨kv, hkv, hk⟩ := h
  exact ⟨kv, ⟨hkv, by simp [hk, hne]⟩, hk⟩

theorem LockInv.addKey {bk : List Booking} {rd : List (String × String)}
    (h : LockInv bk rd) (kv : String × String) : LockInv bk (rd ++ [kv]) :=
  ⟨h.status, h.nodup, fun p hp => lockHeld_append rd kv _ (h.held p hp)⟩

theorem LockInv.delKey {bk : List Booking} {rd : List (String × String)}
    (h : LockInv bk rd) (k : String)
    (hk : ∀ p ∈ pendingSeats bk, seatLockKey p.1 p.2 ≠ k) :
    LockInv bk (rd.filter fun kv => !(kv.1 == k)) :=
  ⟨h.status, h.nodup, fun p hp => lockHeld_filter rd _ k (hk p hp) (h.held p hp)⟩

theorem LockInv.insert {bk : List Booking} {rd : List (String × String)}
    (h : LockInv bk rd) (b : Booking) (hst : b.Status = BookingStatusPending)
    (hfree : seatOf b ∉ pendingSeats bk)
    (hheld : lockHeld rd (seatLockKey b.FlightID b.SeatNumber) = true) :
    LockInv (bk ++ [b]) rd := by
  have hp : b.pending = true := by simp [Booking.pending, hst]
  have hps : pendingSeats (bk ++ [b]) = pendingSeats bk ++ [seatOf b] := by
    rw [pendingSeats_append, pendingSeats_cons]
    simp [hp, pendingSeats]
  refine ⟨?_, ?_, ?_⟩
  · intro x hx
    rcases List.mem_append.mp hx with hx | hx
    · exact h.status x hx
    · simp only [List.mem_singleton] at hx
      subst hx
      exact Or.inl hst
  · rw [hps]
    apply List.Nodup.append h.nodup (List.nodup_singleton _)
    intro q hq1 hq2
    simp only [List.mem_singleton] at hq2
    subst hq2
    exact hfree hq1
  · intro q hq
    rw [hps] at hq
    rcases List.mem_append.mp hq with hq | hq
    · exact h.held q hq
    · simp only [List.mem_singleton] at hq
      subst hq
      exact hheld

/-- Once a PENDING row is moved to a terminal state, no PENDING row is left on its seat. -/
theorem seat_vacated (p : Booking → Bool) (st : BookingStatus) (t : Int)
    (hst : st ≠ BookingStatusPending) (l : List Booking) (hnd : (pendingSeats l).Nodup)
    (b0 : Booking) (hb0 : b0 ∈ l) (hpend : b0.pending = true) (hp : p b0 = true) :
    seatOf b0 ∉ pendingSeats (updateWhere p (setStatus st t) l) := by
  induction l with
  | nil => simp at hb0
  | cons x xs ih =>
    have hcons : updateWhere p (setStatus st t) (x :: xs)
        = (if p x then setStatus st t x else x) :: updateWhere p (setStatus st t) xs := rfl
    have hsub := pendingSeats_updateWhere_sublist p st t hst xs
    rw [pendingSeats_cons] at hnd
    rw [hcons, pendingSeats_cons]
    rcases List.mem_cons.mp hb0 with rfl | hmem
    · simp only [hp, if_true, setStatus_not_pending st t b0 hst]
      simp only [hpend, if_true, List.nodup_cons] at hnd
      intro hin
      exact hnd.1 (hsub.subset hin)
    · by_cases hx : x.pending = true
      · simp only [hx, if_true, List.nodup_cons] at hnd
        have hin0 : seatOf b0 ∈ pendingSeats xs := by
          unfold pendingSeats
          exact List.mem_map.mpr ⟨b0, List.mem_filter.mpr ⟨hmem, hpend⟩, rfl⟩
        have hne : seatOf b0 ≠ seatOf x := fun he => hnd.1 (he ▸ hin0)
        by_cases hpx : p x = true
        · simp only [hpx, if_true, setStatus_not_pending st t x hst]
          exact ih hnd.2 hmem
        · simp only [hpx, Bool.false_eq_true, if_false, hx, if_true]
          intro hin
          rcases List.mem_cons.mp hin with he | hin
          · exact hne he
          · exact ih hnd.2 hmem hin
      · simp only [hx] at hnd
        by_cases hpx : p x = true
        · simp only [hpx, if_true, setStatus_not_pending st t x hst]
          exact ih hnd hmem
        · simp only [hpx, hx, Bool.false_eq_true, if_false]
          exact ih hnd hmem

/-! ### The engine keeps the lock discipline (no confirmation) -/

theorem publish_frame (bt nt : String) (hold conf : Int) (ev : String) (b : Booking) (w : World) :
    ((NewBookingService bt nt hold conf).publish ev b w).2.flights = w.flights ∧
    ((NewBookingService bt nt hold conf).publish ev b w).2.bookings = w.bookings ∧
    ((NewBookingService bt nt hold conf).publish ev b w).2.redis = w.redis := by
  unfold BookingService.publish
  simp only [NewBookingService, KafkaProducer]
  split
  · simp
  · have e1 := KafkaPublish_effect bt b.Token (bookingEvent ev b) w
    rcases h1 : KafkaProducer.Publish bt b.Token (bookingEvent ev b) w with ⟨r, w1⟩
    rw [h1] at e1
    simp only at e1
    cases r with
    | some e => simpa using ⟨e1.1, e1.2.1, e1.2.2.1⟩
    | none =>
      simp only
      split
      · have e2 := KafkaPublish_effect nt b.Token (bookingEvent ev b) w1
        exact ⟨e2.1.trans e1.1, e2.2.1.trans e1.2.1, e2.2.2.1.trans e1.2.2.1⟩
      · exact ⟨e1.1, e1.2.1, e1.2.2.1⟩

theorem publish_LockOK (bt nt : String) (hold conf : Int) (ev : String) (b : Booking) (w : World)
    (h : w.LockOK) : ((NewBookingService bt nt hold conf).publish ev b w).2.LockOK := by
  have e := publish_frame bt nt hold conf ev b w
  unfold World.LockOK at h ⊢
  rw [e.2.1, e.2.2]
  exact h

theorem releaseLock_LockOK (bt nt : String) (hold conf : Int) (f seat : Int) (w : World)
    (h : w.LockOK) (hsafe : ∀ p ∈ pendingSeats w.bookings, p ≠ (f, seat)) :
    ((NewBookingService bt nt hold conf).releaseLock f seat w).LockOK ∧
    ((NewBookingService bt nt hold conf).releaseLock f seat w).bookings = w.bookings := by
  unfold BookingService.releaseLock
  simp only [NewBookingService, RedisCache]
  have e := ReleaseSeatLock_effect f seat w
  refine ⟨?_, e.2.1⟩
  unfold World.LockOK at h ⊢
  rw [e.2.1]
  rcases e.2.2 with hr | hr
  · rw [hr]; exact h
  · rw [hr]
    apply h.delKey
    intro p hp hk
    have := seatLockKey_inj _ _ _ _ hk
    exact hsafe p hp (Prod.ext this.1 this.2)

theorem ReleaseSeat_LockOK (f : Int) (w : World) (h : w.LockOK) :
    (PGBookingRepository.ReleaseSeat f w).2.LockOK ∧
    (pendingSeats (PGBookingRepository.ReleaseSeat f w).2.bookings).Sublist
      (pendingSeats w.bookings) := by
  have e := ReleaseSeat_effect f w
  unfold World.LockOK at h ⊢
  rw [e.1]
  rcases e.2.2 with hb | hb
  · rw [hb]; exact ⟨h, List.Sublist.refl _⟩
  · rw [hb]; exact ⟨h.delete _, pendingSeats_filter_sublist _ _⟩

theorem createAfterLock_LockOK (bt nt : String) (hold conf : Int) (input : CreateBookingInput)
    (token : String) (now : Int) (w : World) (h : w.LockOK)
    (hheld : lockHeld w.redis (seatLockKey input.FlightID input.SeatNumber) = true)
    (hfree : ∀ p ∈ pendingSeats w.bookings, p ≠ (input.FlightID, input.SeatNumber)) :
    ((NewBookingService bt nt hold conf).createAfterLock input token now true w).2.LockOK := by
  unfold BookingService.createAfterLock
  have e := CreatePending_effect ((NewBookingService bt nt hold conf).newBooking input token now) w
  have hstore : (NewBookingService bt nt hold conf).bookings.CreatePending
      = PGBookingRepository.CreatePending := rfl
  rw [hstore]
  rcases hcp : PGBookingRepository.CreatePending
    ((NewBookingService bt nt hold conf).newBooking input token now) w with ⟨⟨left, err⟩, w1⟩
  rw [hcp] at e
  simp only at e
  have h1 : (∃ e, err = some e) → w1.LockOK ∧ w1.bookings = w.bookings := by
    intro he
    rcases e.2 with ⟨-, -, hb⟩ | ⟨hn, -⟩
    · unfold World.LockOK at h ⊢
      rw [e.1, hb]; exact ⟨h, rfl⟩
    · obtain ⟨x, hx⟩ := he
      rw [hx] at hn; cases hn
  cases err with
  | some er =>
    obtain ⟨hl, hb⟩ := h1 ⟨er, rfl⟩
    simp only [if_true]
    have hc : (NewBookingService bt nt hold conf).cache = some RedisCache := rfl
    simp only [hc]
    have := releaseLock_LockOK bt nt hold conf input.FlightID input.SeatNumber w1 hl
      (by rw [hb]; exact hfree)
    simpa [BookingService.releaseLock, NewBookingService] using this.1
  | none =>
    simp only
    apply publish_LockOK
    rcases e.2 with ⟨⟨x, hx⟩, -⟩ | ⟨-, -, -, id, t, hb⟩
    · cases hx
    · unfold World.LockOK at h ⊢
      rw [e.1, hb]
      apply h.insert
      · rfl
      · intro hin
        exact hfree _ hin (by simp [seatOf, BookingService.newBooking])
      · simpa [BookingService.newBooking] using hheld

theorem CreateBooking_LockOK (bt nt : String) (hold conf : Int) (input : CreateBookingInput)
    (token : String) (now : Int) (w : World) (h : w.LockOK) :
    ((NewBookingService bt nt hold conf).CreateBooking input token now w).2.LockOK := by
  unfold BookingService.CreateBooking
  split
  · exact h
  · split
    · exact h
    · have hc : (NewBookingService bt nt hold conf).cache = some RedisCache := rfl
      have hh : (NewBookingService bt nt hold conf).holdTTL = hold := rfl
      simp only [hc, hh]
      have e := AcquireSeatLock_effect input.FlightID input.SeatNumber hold w
      have hacq1 : RedisCache.AcquireSeatLock = (RedisCache : Cache World).AcquireSeatLock := rfl
      rw [← hacq1]
      rcases hacq : RedisCache.AcquireSeatLock input.FlightID input.SeatNumber hold w
        with ⟨⟨ok, err⟩, w1⟩
      rw [hacq] at e
      simp only at e
      have hsame : (ok, err) ≠ (true, none) → w1.LockOK := by
        intro hne
        rcases e.2.2 with ⟨-, hr⟩ | ⟨heq, -⟩
        · unfold World.LockOK at h ⊢
          rw [e.2.1, hr]; exact h
        · exact absurd heq hne
      cases err with
      | some er =>
        cases ok <;> exact hsame (by simp)
      | none =>
        cases ok with
        | false =>
          show w1.LockOK
          exact hsame (by simp)
        | true =>
          simp only
          rcases e.2.2 with ⟨hne, -⟩ | ⟨-, hfree, hr⟩
          · exact absurd rfl hne
          · apply createAfterLock_LockOK
            · unfold World.LockOK at h ⊢
              rw [e.2.1, hr]
              exact h.addKey _
            · rw [hr]; exact lockHeld_append_self _ _ _
            · rw [e.2.1]
              intro p hp he
              have := h.held p hp
              rw [he] at this
              simp only at this
              rw [this] at hfree
              cases hfree


theorem mem_pendingSeats {l : List Booking} {b : Booking} (hb : b ∈ l) (hp : b.pending = true) :
    seatOf b ∈ pendingSeats l :=
  List.mem_map.mpr ⟨b, List.mem_filter.mpr ⟨hb, hp⟩, rfl⟩

theorem CancelBooking_LockOK (bt nt : String) (hold conf : Int) (token : String) (w : World)
    (h : w.LockOK) : ((NewBookingService bt nt hold conf).CancelBooking token w).2.LockOK := by
  unfold BookingService.CancelBooking
  have hstore : (NewBookingService bt nt hold conf).bookings = PGBookingRepository := rfl
  simp only [hstore, PGBookingRepository]
  have eg := GetByToken_effect token w
  rcases hg : PGBookingRepository.GetByToken token w with ⟨r, w1⟩
  rw [hg] at eg
  simp only at eg
  have h1 : w1.LockOK := by
    unfold World.LockOK at h ⊢
    rw [eg.1, eg.2.2.1]; exact h
  cases r with
  | error e => exact h1
  | ok current =>
    simp only
    split
    · exact h1
    · rename_i hterm
      have hfind := eg.2.2.2 current rfl
      have hmem : current ∈ w1.bookings := by
        rw [eg.2.2.1]; exact List.mem_of_find?_eq_some hfind
      have htok : hasToken token current = true := List.find?_some hfind
      have hpend : current.pending = true := by
        have := h1.status current hmem
        simp only [Booking.pending, decide_eq_true_eq]
        tauto
      have eu := UpdateStatus_effect token BookingStatusCancelled w1
      rcases hu : PGBookingRepository.UpdateStatus token BookingStatusCancelled w1 with ⟨r2, w2⟩
      rw [hu] at eu
      simp only at eu
      rcases eu.2.2 with ⟨⟨e, he⟩, hb⟩ | ⟨b0, hb0, hr, hb⟩
      · subst he
        show w2.LockOK
        unfold World.LockOK at h1 ⊢
        rw [eu.1, hb]; exact h1
      · subst hr
        simp only
        have hb0c : b0 = current := by
          rw [eg.2.2.1, hfind] at hb0
          exact (Option.some.inj hb0).symm
        subst hb0c
        have h2 : w2.LockOK := by
          unfold World.LockOK at h1 ⊢
          rw [eu.1, hb]
          exact h1.terminalise _ _ _ (Or.inl rfl)
        have hvac : seatOf b0 ∉ pendingSeats w2.bookings := by
          rw [hb]
          exact seat_vacated _ _ _ (by decide) _ h1.nodup b0 hmem hpend htok
        have e3 := ReleaseSeat_LockOK (setStatus BookingStatusCancelled w1.dbNow b0).FlightID w2 h2
        have e4 := publish_frame bt nt hold conf "booking_cancelled"
          (setStatus BookingStatusCancelled w1.dbNow b0)
          (PGBookingRepository.ReleaseSeat
            (setStatus BookingStatusCancelled w1.dbNow b0).FlightID w2).2
        have h4 := publish_LockOK bt nt hold conf "booking_cancelled"
          (setStatus BookingStatusCancelled w1.dbNow b0) _ e3.1
        refine (releaseLock_LockOK bt nt hold conf _ _ _ h4 ?_).1
        intro p hp he
        rw [e4.2.1] at hp
        have := e3.2.subset hp
        rw [he] at this
        exact hvac this

theorem expireCleanup_LockOK (bt nt : String) (hold conf : Int) (b : Booking) (w : World)
    (h : w.LockOK) (hfree : seatOf b ∉ pendingSeats w.bookings) :
    ((NewBookingService bt nt hold conf).expireCleanup w b).LockOK ∧
    (pendingSeats ((NewBookingService bt nt hold conf).expireCleanup w b).bookings).Sublist
      (pendingSeats w.bookings) := by
  unfold BookingService.expireCleanup
  have hstore : (NewBookingService bt nt hold conf).bookings = PGBookingRepository := rfl
  simp only [hstore, PGBookingRepository]
  have e1 := ReleaseSeat_LockOK b.FlightID w h
  have e2 := publish_frame bt nt hold conf "booking_expired" b
    (PGBookingRepository.ReleaseSeat b.FlightID w).2
  have h2 := publish_LockOK bt nt hold conf "booking_expired" b _ e1.1
  have e3 := releaseLock_LockOK bt nt hold conf b.FlightID b.SeatNumber _ h2 (by
    intro p hp he
    rw [e2.2.1] at hp
    have := e1.2.subset hp
    rw [he] at this
    exact hfree this)
  refine ⟨e3.1, ?_⟩
  rw [e3.2, e2.2.1]
  exact e1.2

theorem foldl_expireCleanup_LockOK (bt nt : String) (hold conf : Int) (rs : List Booking) :
    ∀ (w : World), w.LockOK → (∀ r ∈ rs, seatOf r ∉ pendingSeats w.bookings) →
      (rs.foldl (NewBookingService bt nt hold conf).expireCleanup w).LockOK := by
  induction rs with
  | nil => intro w h _; exact h
  | cons r rs ih =>
    intro w h hfree
    simp only [List.foldl_cons]
    have e := expireCleanup_LockOK bt nt hold conf r w h (hfree r (List.mem_cons_self _ _))
    apply ih _ e.1
    intro x hx hin
    exact hfree x (List.mem_cons_of_mem _ hx) (e.2.subset hin)

theorem ExpirePendingBookings_LockOK (bt nt : String) (hold conf : Int) (now : Int) (w : World)
    (h : w.LockOK) : ((NewBookingService bt nt hold conf).ExpirePendingBookings now w).2.LockOK := by
  unfold BookingService.ExpirePendingBookings
  have hstore : (NewBookingService bt nt hold conf).bookings = PGBookingRepository := rfl
  simp only [hstore, PGBookingRepository]
  have e := ExpirePendingBefore_effect now w
  rcases hx : PGBookingRepository.ExpirePendingBefore now w with ⟨r, w1⟩
  rw [hx] at e
  simp only at e
  rcases e.2.2 with ⟨⟨er, he⟩, hb⟩ | ⟨hr, hb⟩
  · subst he
    show w1.LockOK
    unfold World.LockOK at h ⊢
    rw [e.1, hb]; exact h
  · subst hr
    simp only
    apply foldl_expireCleanup_LockOK
    · unfold World.LockOK at h ⊢
      rw [e.1, hb]
      exact h.terminalise _ _ _ (Or.inr rfl)
    · intro x hx
      unfold returningWhere at hx
      obtain ⟨y, hy, rfl⟩ := List.mem_map.mp hx
      obtain ⟨hy1, hy2⟩ := List.mem_filter.mp hy
      rw [hb]
      have hyp : y.pending = true := by
        simp only [expirable, Bool.and_eq_true, decide_eq_true_eq] at hy2
        simp [Booking.pending, hy2.1]
      exact seat_vacated _ _ _ (by decide) _ h.nodup y hy1 hyp hy2

/-! ### Seat uniqueness -/

theorem countP_eq_le_one_of_nodup {α : Type} [DecidableEq α] (a : α) (l : List α)
    (h : l.Nodup) : l.countP (fun x => decide (x = a)) ≤ 1 := by
  induction l with
  | nil => simp
  | cons x xs ih =>
    rw [List.nodup_cons] at h
    rw [List.countP_cons]
    by_cases hx : x = a
    · subst hx
      have h0 : xs.countP (fun y => decide (y = x)) = 0 := by
        rw [List.countP_eq_zero]
        intro y hy
        simp only [decide_eq_true_eq]
        intro he
        exact h.1 (he ▸ hy)
      simp [h0]
    · have := ih h.2
      simp [hx, this]

theorem liveOnSeat_eq_count (f seat : Int) (l : List Booking)
    (hst : ∀ b ∈ l, b.Status = BookingStatusPending ∨
      b.Status = BookingStatusCancelled ∨ b.Status = BookingStatusExpired) :
    l.countP (fun b => decide (b.FlightID = f) && decide (b.SeatNumber = seat) && b.live)
      = (pendingSeats l).countP (fun p => decide (p = (f, seat))) := by
  induction l with
  | nil => simp [pendingSeats]
  | cons b l ih =>
    have ih2 := ih (fun x hx => hst x (List.mem_cons_of_mem _ hx))
    rw [pendingSeats_cons, List.countP_cons, ih2]
    have hb := hst b (List.mem_cons_self _ _)
    by_cases hp : b.Status = BookingStatusPending
    · have hpend : b.pending = true := by simp [Booking.pending, hp]
      have hlive : b.live = true := by simp [Booking.live, hp]
      simp only [hpend, if_true, hlive, Bool.and_true, List.countP_cons, seatOf]
      by_cases hfs : b.FlightID = f ∧ b.SeatNumber = seat
      · simp [hfs.1, hfs.2]
      · have : ¬ ((b.FlightID, b.SeatNumber) = (f, seat)) := by
          intro he; exact hfs ⟨(Prod.mk.inj he).1, (Prod.mk.inj he).2⟩
        have h2 : (decide (b.FlightID = f) && decide (b.SeatNumber = seat)) = false := by
          simpa using hfs
        simp [this, h2]
    · have hpend : b.pending = false := by simp [Booking.pending, hp]
      have hlive : b.live = false := by
        rcases hb with hb | hb | hb
        · exact absurd hb hp
        · simp only [Booking.live, hb]; decide
        · simp only [Booking.live, hb]; decide
      simp [hpend, hlive]

theorem SeatUnique_of_LockOK (w : World) (h : w.LockOK) : w.SeatUnique := by
  intro f seat
  unfold World.liveOnSeat
  rw [liveOnSeat_eq_count f seat w.bookings h.status]
  exact countP_eq_le_one_of_nodup (f, seat) _ h.nodup

theorem LockOK_of_no_bookings (w : World) (h : w.bookings = []) : w.LockOK := by
  unfold World.LockOK
  rw [h]
  exact ⟨by simp, by simp [pendingSeats], by simp [pendingSeats]⟩

theorem run_LockOK (bt nt : String) (hold conf : Int) (ops : List Op) :
    ∀ (w : World), w.LockOK → (∀ op ∈ ops, op.isConfirm = false) →
      ((NewBookingService bt nt hold conf).run w ops).LockOK := by
  induction ops with
  | nil => intro w h _; exact h
  | cons op ops ih =>
    intro w h hops
    unfold BookingService.run
    simp only [List.foldl_cons]
    apply ih
    · cases op with
      | create input token now => exact CreateBooking_LockOK bt nt hold conf input token now w h
      | confirm token =>
        have := hops (.confirm token) (List.mem_cons_self _ _)
        simp [Op.isConfirm] at this
      | cancel token => exact CancelBooking_LockOK bt nt hold conf token w h
      | expire now => exact ExpirePendingBookings_LockOK bt nt hold conf now w h
    · intro op2 h2
      exact hops op2 (List.mem_cons_of_mem _ h2)

/-- C1, counterexample. With a lock coordinator configured and no lock lapsing, the
series CreateBooking(flight 1, seat 3), ConfirmBooking of that booking,
CreateBooking(flight 1, seat 3) leaves two non-terminal bookings on seat 3 of flight
1: the confirmation released the lock while the booking stays CONFIRMED. -/
theorem SeatUnique_broken_by_confirm :
    ¬ (sampleService.run (sampleWorld 5)
        [Op.create sampleInput "t1" 100, Op.confirm "t1",
         Op.create { sampleInput with Email := "b@x.com" } "t2" 200]).SeatUnique := by
  intro h
  have h13 := h 1 3
  revert h13
  decide

/-- C1, amended. Starting from a store without bookings, after any sequential series
of CreateBooking, CancelBooking and ExpirePendingBookings calls (no ConfirmBooking) on
the engine wired with the lock coordinator, whatever collaborator calls fail and no
lock lapsing by TTL, at most one booking in a non-terminal state exists for every
(flight, seat) pair. -/
theorem SeatUnique_without_confirm (bookingTopic notificationsTopic : String)
    (holdTTL confirmationTTL : Int) (w0 : World) (ops : List Op)
    (hempty : w0.bookings = []) (hops : ∀ op ∈ ops, op.isConfirm = false) :
    ((NewBookingService bookingTopic notificationsTopic holdTTL confirmationTTL).run w0
      ops).SeatUnique :=
  SeatUnique_of_LockOK _
    (run_LockOK bookingTopic notificationsTopic holdTTL confirmationTTL ops w0
      (LockOK_of_no_bookings w0 hempty) hops)

/-- Witness of C1 (amended): book seat 3, cancel, book it again, sweep. -/
theorem SeatUnique_without_confirm_witness :
    ((NewBookingService "bookings" "" 60 600).run (sampleWorld 5)
      [Op.create sampleInput "t1" 100, Op.cancel "t1", Op.create sampleInput "t2" 200,
       Op.expire 1000]).SeatUnique :=
  SeatUnique_without_confirm "bookings" "" 60 600 (sampleWorld 5)
    [Op.create sampleInput "t1" 100, Op.cancel "t1", Op.create sampleInput "t2" 200,
     Op.expire 1000] rfl (by decide)
/-! ### Seat accounting: `0 ≤ available ≤ total` -/

theorem map_updateWhere {α β : Type} (p : α → Bool) (set : α → α) (g : α → β)
    (hg : ∀ x, g (set x) = g x) (l : List α) : (updateWhere p set l).map g = l.map g := by
  unfold updateWhere
  rw [List.map_map]
  apply List.map_congr_left
  intro x _
  by_cases hp : p x = true <;> simp [hp, hg]

theorem updateWhere_cons {α : Type} (p : α → Bool) (set : α → α) (x : α) (l : List α) :
    updateWhere p set (x :: l) = (if p x then set x else x) :: updateWhere p set l := rfl

/-- Rows that are not live do not count. -/
theorem liveOnFlight_filter (q : Booking → Bool) (f : Int) (l : List Booking)
    (hq : ∀ b ∈ l, q b = false → b.live = false) :
    liveOnFlight (l.filter q) f = liveOnFlight l f := by
  unfold liveOnFlight
  rw [List.countP_filter]
  apply List.countP_congr
  intro b hb
  by_cases hqb : q b = true
  · simp [hqb]
  · have := hq b hb (by simpa using hqb)
    simp [this]

theorem cancelledOn_not_live (F : Int) (b : Booking) (h : (!cancelledOn F b) = false) :
    b.live = false := by
  simp only [cancelledOn, Bool.not_eq_false', Bool.and_eq_true, decide_eq_true_eq] at h
  simp only [Booking.live, h.2]
  decide

theorem CountInv.drop {fl : List Flight} {bk : List Booking} {F : Int} {owed : List Int}
    (h : CountInv fl bk (F :: owed)) : CountInv fl bk owed := by
  refine ⟨h.ids, h.tokens, h.status, ?_⟩
  intro f hf
  have := h.cap f hf
  refine ⟨this.1, ?_⟩
  have h2 : owedTo owed f.ID ≤ owedTo (F :: owed) f.ID := by
    unfold owedTo
    rw [List.countP_cons]
    omega
  have h3 : (owedTo owed f.ID : Int) ≤ (owedTo (F :: owed) f.ID : Int) := by exact_mod_cast h2
  omega

theorem CountInv.give {fl : List Flight} {bk : List Booking} {F : Int} {owed : List Int}
    (h : CountInv fl bk (F :: owed)) (t : Int) :
    CountInv (updateWhere (onFlight F) (giveSeat t) fl) bk owed := by
  refine ⟨?_, h.tokens, h.status, ?_⟩
  · rw [map_updateWhere (onFlight F) (giveSeat t) Flight.ID (fun x => rfl)]
    exact h.ids
  · intro f hf
    rcases mem_updateWhere _ _ _ _ hf with hf | ⟨y, hy, hpy, rfl⟩
    · exact (h.drop).cap f hf
    · have := h.cap y hy
      simp only [onFlight, decide_eq_true_eq] at hpy
      have h2 : owedTo (F :: owed) y.ID = owedTo owed y.ID + 1 := by
        unfold owedTo
        rw [List.countP_cons]
        simp [hpy]
      simp only [giveSeat]
      rw [h2] at this
      push_cast at this
      omega

theorem CountInv.purge {fl : List Flight} {bk : List Booking} {owed : List Int}
    (h : CountInv fl bk owed) (F : Int) :
    CountInv fl (bk.filter fun b => !cancelledOn F b) owed := by
  refine ⟨h.ids, ?_, fun b hb => h.status b (List.mem_of_mem_filter hb), ?_⟩
  · exact h.tokens.sublist ((List.filter_sublist bk).map _)
  · intro f hf
    rw [liveOnFlight_filter _ _ _ (fun b _ hq => cancelledOn_not_live F b hq)]
    exact h.cap f hf

theorem ReleaseSeat_CountInv (F : Int) (w : World) (owed : List Int)
    (h : CountInv w.flights w.bookings (F :: owed)) :
    CountInv (PGBookingRepository.ReleaseSeat F w).2.flights
      (PGBookingRepository.ReleaseSeat F w).2.bookings owed := by
  have e := ReleaseSeat_effect F w
  have h1 : CountInv (PGBookingRepository.ReleaseSeat F w).2.flights w.bookings owed := by
    rcases e.2.1 with hf | hf
    · rw [hf]; exact h.drop
    · rw [hf]; exact h.give _
  rcases e.2.2 with hb | hb
  · rw [hb]; exact h1
  · rw [hb]; exact h1.purge F

theorem ReleaseSeat_tokens (F : Int) (w : World) :
    ∀ b ∈ (PGBookingRepository.ReleaseSeat F w).2.bookings, b ∈ w.bookings := by
  have e := ReleaseSeat_effect F w
  intro b hb
  rcases e.2.2 with h | h
  · rw [h] at hb; exact hb
  · rw [h] at hb; exact List.mem_of_mem_filter hb


theorem mem_updateWhere_cases {α : Type} (p : α → Bool) (set : α → α) (l : List α) (x : α)
    (h : x ∈ updateWhere p set l) :
    (x ∈ l ∧ p x = false) ∨ ∃ y ∈ l, p y = true ∧ x = set y := by
  unfold updateWhere at h
  rw [List.mem_map] at h
  obtain ⟨y, hy, rfl⟩ := h
  by_cases hp : p y = true
  · right; exact ⟨y, hy, hp, by simp [hp]⟩
  · left
    have hp2 : p y = false := by simpa using hp
    have hxy : (if p y = true then set y else y) = y := by simp [hp2]
    rw [hxy]
    exact ⟨hy, hp2⟩

theorem liveOnFlight_append_one (bk : List Booking) (row : Booking) (f : Int)
    (hlive : row.live = true) :
    liveOnFlight (bk ++ [row]) f = liveOnFlight bk f + (if row.FlightID = f then 1 else 0) := by
  unfold liveOnFlight
  rw [List.countP_append]
  by_cases h : row.FlightID = f <;> simp [List.countP_cons, h, hlive]

theorem CountInv.reserve {fl : List Flight} {bk : List Booking} (h : CountInv fl bk [])
    (F t : Int) (row : Booking) (hst : row.Status = BookingStatusPending)
    (hF : row.FlightID = F) (hfresh : row.Token ∉ bk.map Booking.Token)
    (hres : ∃ f ∈ fl, reservable F f = true) :
    CountInv (updateWhere (reservable F) (takeSeat t) fl) (bk ++ [row]) [] := by
  have hlive : row.live = true := by simp [Booking.live, hst]
  refine ⟨?_, ?_, ?_, ?_⟩
  · rw [map_updateWhere (reservable F) (takeSeat t) Flight.ID (fun x => rfl)]
    exact h.ids
  · rw [List.map_append]
    apply List.Nodup.append h.tokens (by simp)
    intro x hx1 hx2
    simp only [List.map_cons, List.map_nil, List.mem_singleton] at hx2
    subst hx2
    exact hfresh hx1
  · intro b hb
    rcases List.mem_append.mp hb with hb | hb
    · exact h.status b hb
    · simp only [List.mem_singleton] at hb
      subst hb
      exact Or.inl hst
  · obtain ⟨f0, hf0, hr0⟩ := hres
    have hr0' := hr0
    simp only [reservable, Bool.and_eq_true, decide_eq_true_eq] at hr0'
    intro f hf
    rw [liveOnFlight_append_one _ _ _ hlive, hF]
    rcases mem_updateWhere_cases _ _ _ _ hf with ⟨hfm, hnot⟩ | ⟨y, hy, hpy, rfl⟩
    · have hne : ¬ F = f.ID := by
        intro he
        have : f = f0 := List.inj_on_of_nodup_map h.ids hfm hf0 (by rw [← he, hr0'.1])
        rw [this, hr0] at hnot
        cases hnot
      have := h.cap f hfm
      simp only [hne, if_false]
      simpa using this
    · have := h.cap y hy
      simp only [reservable, Bool.and_eq_true, decide_eq_true_eq] at hpy
      rw [hpy.1] at this
      simp only [takeSeat, hpy.1, if_true]
      push_cast
      simp only [owedTo, List.countP_nil] at this ⊢
      omega

theorem countP_updateWhere_token (q : Booking → Bool) (tok : String) (set : Booking → Booking)
    (l : List Booking) (hnd : (l.map Booking.Token).Nodup) (b0 : Booking)
    (hfind : l.find? (hasToken tok) = some b0) :
    (updateWhere (hasToken tok) set l).countP q + (if q b0 then 1 else 0)
      = l.countP q + (if q (set b0) then 1 else 0) := by
  induction l with
  | nil => simp at hfind
  | cons x xs ih =>
    rw [updateWhere_cons]
    simp only [List.map_cons, List.nodup_cons] at hnd
    by_cases hx : hasToken tok x = true
    · have hb0 : x = b0 := by
        simpa [List.find?, hx] using hfind
      subst hb0
      have hxs : updateWhere (hasToken tok) set xs = xs := by
        apply updateWhere_none
        intro y hy
        by_contra hc
        have hyt : hasToken tok y = true := by simpa using hc
        simp only [hasToken, decide_eq_true_eq] at hx hyt
        exact hnd.1 (List.mem_map.mpr ⟨y, hy, by rw [hyt, hx]⟩)
      simp only [hx, if_true, hxs, List.countP_cons]
      omega
    · have hx2 : hasToken tok x = false := by simpa using hx
      have hf2 : xs.find? (hasToken tok) = some b0 := by
        simpa [List.find?, hx2] using hfind
      have := ih hnd.2 hf2
      simp only [hx2, Bool.false_eq_true, if_false, List.countP_cons]
      omega

theorem CountInv.confirm {fl : List Flight} {bk : List Booking} (h : CountInv fl bk [])
    (tok : String) (t : Int) (b0 : Booking) (hfind : bk.find? (hasToken tok) = some b0)
    (hst : b0.Status = BookingStatusPending) :
    CountInv fl (updateWhere (hasToken tok) (setStatus BookingStatusConfirmed t) bk) [] := by
  refine ⟨h.ids, ?_, ?_, ?_⟩
  · rw [map_updateWhere (hasToken tok) (setStatus BookingStatusConfirmed t) Booking.Token
      (fun x => rfl)]
    exact h.tokens
  · intro b hb
    rcases mem_updateWhere _ _ _ _ hb with hb | ⟨y, _, _, rfl⟩
    · exact h.status b hb
    · right; left; rfl
  · intro f hf
    have hc := countP_updateWhere_token
      (fun b => decide (b.FlightID = f.ID) && b.live) tok
      (setStatus BookingStatusConfirmed t) bk h.tokens b0 hfind
    have h1 : b0.live = true := by simp [Booking.live, hst]
    have h2 : (setStatus BookingStatusConfirmed t b0).live = true := by
      simp [Booking.live, setStatus]
    have h3 : (setStatus BookingStatusConfirmed t b0).FlightID = b0.FlightID := rfl
    simp only [h1, h2, h3, Bool.and_true] at hc
    have := h.cap f hf
    unfold liveOnFlight at this ⊢
    have heq : (updateWhere (hasToken tok) (setStatus BookingStatusConfirmed t) bk).countP
        (fun b => decide (b.FlightID = f.ID) && b.live)
        = bk.countP (fun b => decide (b.FlightID = f.ID) && b.live) := by omega
    rw [heq]
    exact this

theorem CountInv.cancel {fl : List Flight} {bk : List Booking} (h : CountInv fl bk [])
    (tok : String) (t : Int) (b0 : Booking) (hfind : bk.find? (hasToken tok) = some b0)
    (hst : ¬ (b0.Status = BookingStatusCancelled ∨ b0.Status = BookingStatusExpired)) :
    CountInv fl (updateWhere (hasToken tok) (setStatus BookingStatusCancelled t) bk)
      [b0.FlightID] := by
  have hmem : b0 ∈ bk := List.mem_of_find?_eq_some hfind
  refine ⟨h.ids, ?_, ?_, ?_⟩
  · rw [map_updateWhere (hasToken tok) (setStatus BookingStatusCancelled t) Booking.Token
      (fun x => rfl)]
    exact h.tokens
  · intro b hb
    rcases mem_updateWhere _ _ _ _ hb with hb | ⟨y, _, _, rfl⟩
    · exact h.status b hb
    · right; right; left; rfl
  · intro f hf
    have hc := countP_updateWhere_token
      (fun b => decide (b.FlightID = f.ID) && b.live) tok
      (setStatus BookingStatusCancelled t) bk h.tokens b0 hfind
    have h1 : b0.live = true := by
      have := h.status b0 hmem
      simp only [Booking.live, Bool.or_eq_true, decide_eq_true_eq]
      tauto
    have h2 : (setStatus BookingStatusCancelled t b0).live = false := rfl
    simp only [h1, h2, Bool.and_true, Bool.and_false, Bool.false_eq_true, if_false,
      decide_eq_true_eq] at hc
    have := h.cap f hf
    unfold liveOnFlight at this ⊢
    simp only [owedTo, List.countP_cons, List.countP_nil, decide_eq_true_eq] at this ⊢
    refine ⟨this.1, ?_⟩
    by_cases hbf : b0.FlightID = f.ID
    · simp only [hbf, if_true] at hc ⊢
      push_cast
      omega
    · simp only [hbf, if_false] at hc ⊢
      push_cast
      omega

theorem expire_count (d t : Int) (f : Int) (l : List Booking) :
    liveOnFlight (updateWhere (expirable d) (setStatus BookingStatusExpired t) l) f
      + owedTo ((returningWhere (expirable d) (setStatus BookingStatusExpired t) l).map
          Booking.FlightID) f
      = liveOnFlight l f := by
  induction l with
  | nil => rfl
  | cons x xs ih =>
    unfold liveOnFlight owedTo returningWhere at ih ⊢
    rw [updateWhere_cons]
    by_cases hx : expirable d x = true
    · have hlive : x.live = true := by
        simp only [expirable, Bool.and_eq_true, decide_eq_true_eq] at hx
        simp [Booking.live, hx.1]
      have hdead : (setStatus BookingStatusExpired t x).live = false := rfl
      have hfl : (setStatus BookingStatusExpired t x).FlightID = x.FlightID := rfl
      simp only [hx, if_true, List.filter_cons_of_pos, List.map_cons, List.countP_cons, hdead,
        hlive, hfl, Bool.and_false, Bool.and_true, Bool.false_eq_true, if_false,
        decide_eq_true_eq]
      omega
    · have hx2 : expirable d x = false := by simpa using hx
      simp only [hx2, Bool.false_eq_true, if_false, List.filter_cons_of_neg, not_false_eq_true,
        List.countP_cons]
      omega

theorem CountInv.sweep {fl : List Flight} {bk : List Booking} (h : CountInv fl bk [])
    (d t : Int) :
    CountInv fl (updateWhere (expirable d) (setStatus BookingStatusExpired t) bk)
      ((returningWhere (expirable d) (setStatus BookingStatusExpired t) bk).map
        Booking.FlightID) := by
  refine ⟨h.ids, ?_, ?_, ?_⟩
  · rw [map_updateWhere (expirable d) (setStatus BookingStatusExpired t) Booking.Token
      (fun x => rfl)]
    exact h.tokens
  · intro b hb
    rcases mem_updateWhere _ _ _ _ hb with hb | ⟨y, _, _, rfl⟩
    · exact h.status b hb
    · right; right; right; rfl
  · intro f hf
    have := h.cap f hf
    have he := expire_count d t f.ID bk
    simp only [owedTo, List.countP_nil] at this
    refine ⟨this.1, ?_⟩
    have he2 : ((liveOnFlight (updateWhere (expirable d) (setStatus BookingStatusExpired t) bk)
        f.ID : Nat) : Int) + (owedTo ((returningWhere (expirable d)
          (setStatus BookingStatusExpired t) bk).map Booking.FlightID) f.ID : Int)
        = (liveOnFlight bk f.ID : Int) := by exact_mod_cast he
    omega


theorem CountOK_of_tables {w w1 : World} (hf : w1.flights = w.flights)
    (hb : w1.bookings = w.bookings) (h : w.CountOK) : w1.CountOK := by
  unfold World.CountOK at h ⊢
  rw [hf, hb]; exact h

theorem releaseLock_frame (bt nt : String) (hold conf : Int) (f seat : Int) (w : World) :
    ((NewBookingService bt nt hold conf).releaseLock f seat w).flights = w.flights ∧
    ((NewBookingService bt nt hold conf).releaseLock f seat w).bookings = w.bookings := by
  unfold BookingService.releaseLock
  simp only [NewBookingService, RedisCache]
  have e := ReleaseSeatLock_effect f seat w
  exact ⟨e.1, e.2.1⟩

theorem CreateBooking_CountOK (bt nt : String) (hold conf : Int) (input : CreateBookingInput)
    (token : String) (now : Int) (w : World) (h : w.CountOK)
    (hfresh : token ∉ w.bookings.map Booking.Token) :
    ((NewBookingService bt nt hold conf).CreateBooking input token now w).2.CountOK ∧
    ∀ x ∈ ((NewBookingService bt nt hold conf).CreateBooking input token now w).2.bookings.map
        Booking.Token, x ∈ w.bookings.map Booking.Token ∨ x = token := by
  have hkeep : ∀ w1 : World, w1.flights = w.flights → w1.bookings = w.bookings →
      w1.CountOK ∧ ∀ x ∈ w1.bookings.map Booking.Token,
        x ∈ w.bookings.map Booking.Token ∨ x = token := by
    intro w1 hf hb
    refine ⟨CountOK_of_tables hf hb h, ?_⟩
    intro x hx
    rw [hb] at hx
    exact Or.inl hx
  unfold BookingService.CreateBooking
  split
  · exact hkeep w rfl rfl
  · split
    · exact hkeep w rfl rfl
    · have hc : (NewBookingService bt nt hold conf).cache = some RedisCache := rfl
      have hh : (NewBookingService bt nt hold conf).holdTTL = hold := rfl
      simp only [hc, hh]
      have e := AcquireSeatLock_effect input.FlightID input.SeatNumber hold w
      have hacq1 : RedisCache.AcquireSeatLock = (RedisCache : Cache World).AcquireSeatLock := rfl
      rw [← hacq1]
      rcases hacq : RedisCache.AcquireSeatLock input.FlightID input.SeatNumber hold w
        with ⟨⟨ok, err⟩, w1⟩
      rw [hacq] at e
      simp only at e
      cases err with
      | some er => cases ok <;> exact hkeep w1 e.1 e.2.1
      | none =>
        cases ok with
        | false => exact hkeep w1 e.1 e.2.1
        | true =>
          simp only
          unfold BookingService.createAfterLock
          have hstore : (NewBookingService bt nt hold conf).bookings.CreatePending
              = PGBookingRepository.CreatePending := rfl
          rw [hstore]
          have ec := CreatePending_effect
            ((NewBookingService bt nt hold conf).newBooking input token now) w1
          rcases hcp : PGBookingRepository.CreatePending
            ((NewBookingService bt nt hold conf).newBooking input token now) w1
            with ⟨⟨left, err2⟩, w2⟩
          rw [hcp] at ec
          simp only at ec
          cases err2 with
          | some er2 =>
            simp only [if_true, hc]
            rcases ec.2 with ⟨-, hf, hb⟩ | ⟨hn, -⟩
            · have er := ReleaseSeatLock_effect input.FlightID input.SeatNumber w2
              exact hkeep _ (by rw [show (RedisCache : Cache World).ReleaseSeatLock
                  = RedisCache.ReleaseSeatLock from rfl, er.1, hf, e.1])
                (by rw [show (RedisCache : Cache World).ReleaseSeatLock
                  = RedisCache.ReleaseSeatLock from rfl, er.2.1, hb, e.2.1])
            · cases hn
          | none =>
            simp only
            rcases ec.2 with ⟨⟨x, hx⟩, -⟩ | ⟨-, hres, hf, id, t, hb⟩
            · cases hx
            · have ep := publish_frame bt nt hold conf "booking_created"
                { left with Status := BookingStatusPending } w2
              have h2 : w2.CountOK := by
                unfold World.CountOK at h ⊢
                rw [hf, hb, e.1, e.2.1]
                apply h.reserve
                · rfl
                · rfl
                · simpa [BookingService.newBooking] using hfresh
                · rw [← e.1]; exact hres
              refine ⟨CountOK_of_tables ep.1 ep.2.1 h2, ?_⟩
              intro x hx
              rw [ep.2.1, hb, e.2.1] at hx
              simp only [List.map_append, List.map_cons, List.map_nil, List.mem_append,
                List.mem_singleton] at hx
              rcases hx with hx | hx
              · exact Or.inl hx
              · right
                rw [hx]
                rfl


theorem ConfirmBooking_CountOK (bt nt : String) (hold conf : Int) (token : String) (w : World)
    (h : w.CountOK) :
    ((NewBookingService bt nt hold conf).ConfirmBooking token w).2.CountOK ∧
    ∀ x ∈ ((NewBookingService bt nt hold conf).ConfirmBooking token w).2.bookings.map
        Booking.Token, x ∈ w.bookings.map Booking.Token := by
  unfold BookingService.ConfirmBooking
  have hstore : (NewBookingService bt nt hold conf).bookings = PGBookingRepository := rfl
  simp only [hstore, PGBookingRepository]
  have eg := GetByToken_effect token w
  rcases hg : PGBookingRepository.GetByToken token w with ⟨r, w1⟩
  rw [hg] at eg
  simp only at eg
  have hkeep : ∀ w2 : World, w2.flights = w.flights → w2.bookings = w.bookings →
      w2.CountOK ∧ ∀ x ∈ w2.bookings.map Booking.Token, x ∈ w.bookings.map Booking.Token := by
    intro w2 hf hb
    refine ⟨CountOK_of_tables hf hb h, ?_⟩
    intro x hx
    rw [hb] at hx
    exact hx
  cases r with
  | error e => exact hkeep w1 eg.2.1 eg.2.2.1
  | ok current =>
    simp only
    split
    · exact hkeep w1 eg.2.1 eg.2.2.1
    · rename_i hpend
      have hpend2 : current.Status = BookingStatusPending := by simpa using hpend
      have hfind := eg.2.2.2 current rfl
      have eu := UpdateStatus_effect token BookingStatusConfirmed w1
      rcases hu : PGBookingRepository.UpdateStatus token BookingStatusConfirmed w1 with ⟨r2, w2⟩
      rw [hu] at eu
      simp only at eu
      rcases eu.2.2 with ⟨⟨e, he⟩, hb⟩ | ⟨b0, hb0, hr, hb⟩
      · subst he
        exact hkeep w2 (eu.2.1.trans eg.2.1) (hb.trans eg.2.2.1)
      · subst hr
        simp only
        have hb0c : b0 = current := by
          rw [eg.2.2.1, hfind] at hb0
          exact (Option.some.inj hb0).symm
        subst hb0c
        have ep := publish_frame bt nt hold conf "booking_confirmed"
          (setStatus BookingStatusConfirmed w1.dbNow b0) w2
        have er := releaseLock_frame bt nt hold conf
          (setStatus BookingStatusConfirmed w1.dbNow b0).FlightID
          (setStatus BookingStatusConfirmed w1.dbNow b0).SeatNumber
          ((NewBookingService bt nt hold conf).publish "booking_confirmed"
            (setStatus BookingStatusConfirmed w1.dbNow b0) w2).2
        have h2 : w2.CountOK := by
          unfold World.CountOK at h ⊢
          rw [eu.2.1, hb, eg.2.1, eg.2.2.1]
          exact h.confirm token _ b0 hfind hpend2
        refine ⟨CountOK_of_tables (er.1.trans ep.1) (er.2.trans ep.2.1) h2, ?_⟩
        intro x hx
        rw [er.2, ep.2.1, hb, eg.2.2.1,
          map_updateWhere (hasToken token) (setStatus BookingStatusConfirmed w1.dbNow)
            Booking.Token (fun _ => rfl)] at hx
        exact hx

theorem CancelBooking_CountOK (bt nt : String) (hold conf : Int) (token : String) (w : World)
    (h : w.CountOK) :
    ((NewBookingService bt nt hold conf).CancelBooking token w).2.CountOK ∧
    ∀ x ∈ ((NewBookingService bt nt hold conf).CancelBooking token w).2.bookings.map
        Booking.Token, x ∈ w.bookings.map Booking.Token := by
  unfold BookingService.CancelBooking
  have hstore : (NewBookingService bt nt hold conf).bookings = PGBookingRepository := rfl
  simp only [hstore, PGBookingRepository]
  have eg := GetByToken_effect token w
  rcases hg : PGBookingRepository.GetByToken token w with ⟨r, w1⟩
  rw [hg] at eg
  simp only at eg
  have hkeep : ∀ w2 : World, w2.flights = w.flights → w2.bookings = w.bookings →
      w2.CountOK ∧ ∀ x ∈ w2.bookings.map Booking.Token, x ∈ w.bookings.map Booking.Token := by
    intro w2 hf hb
    refine ⟨CountOK_of_tables hf hb h, ?_⟩
    intro x hx
    rw [hb] at hx
    exact hx
  cases r with
  | error e => exact hkeep w1 eg.2.1 eg.2.2.1
  | ok current =>
    simp only
    split
    · exact hkeep w1 eg.2.1 eg.2.2.1
    · rename_i hterm
      have hfind := eg.2.2.2 current rfl
      have eu := UpdateStatus_effect token BookingStatusCancelled w1
      rcases hu : PGBookingRepository.UpdateStatus token BookingStatusCancelled w1 with ⟨r2, w2⟩
      rw [hu] at eu
      simp only at eu
      rcases eu.2.2 with ⟨⟨e, he⟩, hb⟩ | ⟨b0, hb0, hr, hb⟩
      · subst he
        exact hkeep w2 (eu.2.1.trans eg.2.1) (hb.trans eg.2.2.1)
      · subst hr
        simp only
        have hb0c : b0 = current := by
          rw [eg.2.2.1, hfind] at hb0
          exact (Option.some.inj hb0).symm
        subst hb0c
        have h2 : CountInv w2.flights w2.bookings [b0.FlightID] := by
          unfold World.CountOK at h
          rw [eu.2.1, hb, eg.2.1, eg.2.2.1]
          exact h.cancel token _ b0 hfind hterm
        have h3 := ReleaseSeat_CountInv b0.FlightID w2 [] h2
        have et := ReleaseSeat_tokens b0.FlightID w2
        have ep := publish_frame bt nt hold conf "booking_cancelled"
          (setStatus BookingStatusCancelled w1.dbNow b0)
          (PGBookingRepository.ReleaseSeat b0.FlightID w2).2
        have er := releaseLock_frame bt nt hold conf
          (setStatus BookingStatusCancelled w1.dbNow b0).FlightID
          (setStatus BookingStatusCancelled w1.dbNow b0).SeatNumber
          ((NewBookingService bt nt hold conf).publish "booking_cancelled"
            (setStatus BookingStatusCancelled w1.dbNow b0)
            (PGBookingRepository.ReleaseSeat b0.FlightID w2).2).2
        have hfl : (setStatus BookingStatusCancelled w1.dbNow b0).FlightID = b0.FlightID := rfl
        rw [hfl] at er ⊢
        refine ⟨CountOK_of_tables (er.1.trans ep.1) (er.2.trans ep.2.1) h3, ?_⟩
        intro x hx
        rw [er.2, ep.2.1] at hx
        obtain ⟨b, hbm, rfl⟩ := List.mem_map.mp hx
        have hb2 := et b hbm
        have : b.Token ∈ w2.bookings.map Booking.Token := List.mem_map.mpr ⟨b, hb2, rfl⟩
        rw [hb, eg.2.2.1,
          map_updateWhere (hasToken token) (setStatus BookingStatusCancelled w1.dbNow)
            Booking.Token (fun _ => rfl)] at this
        exact this

theorem expireCleanup_CountInv (bt nt : String) (hold conf : Int) (b : Booking) (w : World)
    (owed : List Int) (h : CountInv w.flights w.bookings (b.FlightID :: owed)) :
    CountInv ((NewBookingService bt nt hold conf).expireCleanup w b).flights
      ((NewBookingService bt nt hold conf).expireCleanup w b).bookings owed ∧
    ∀ x ∈ ((NewBookingService bt nt hold conf).expireCleanup w b).bookings, x ∈ w.bookings := by
  unfold BookingService.expireCleanup
  have hstore : (NewBookingService bt nt hold conf).bookings = PGBookingRepository := rfl
  simp only [hstore, PGBookingRepository]
  have h3 := ReleaseSeat_CountInv b.FlightID w owed h
  have et := ReleaseSeat_tokens b.FlightID w
  have ep := publish_frame bt nt hold conf "booking_expired" b
    (PGBookingRepository.ReleaseSeat b.FlightID w).2
  have er := releaseLock_frame bt nt hold conf b.FlightID b.SeatNumber
    ((NewBookingService bt nt hold conf).publish "booking_expired" b
      (PGBookingRepository.ReleaseSeat b.FlightID w).2).2
  rw [er.1, er.2, ep.1, ep.2.1]
  exact ⟨h3, et⟩

theorem foldl_expireCleanup_CountInv (bt nt : String) (hold conf : Int) (rs : List Booking) :
    ∀ (w : World), CountInv w.flights w.bookings (rs.map Booking.FlightID) →
      (rs.foldl (NewBookingService bt nt hold conf).expireCleanup w).CountOK ∧
      ∀ x ∈ (rs.foldl (NewBookingService bt nt hold conf).expireCleanup w).bookings,
        x ∈ w.bookings := by
  induction rs with
  | nil => intro w h; exact ⟨h, fun x hx => hx⟩
  | cons r rs ih =>
    intro w h
    simp only [List.foldl_cons]
    have e := expireCleanup_CountInv bt nt hold conf r w (rs.map Booking.FlightID) h
    have := ih _ e.1
    exact ⟨this.1, fun x hx => e.2 x (this.2 x hx)⟩

theorem ExpirePendingBookings_CountOK (bt nt : String) (hold conf : Int) (now : Int)
    (w : World) (h : w.CountOK) :
    ((NewBookingService bt nt hold conf).ExpirePendingBookings now w).2.CountOK ∧
    ∀ x ∈ ((NewBookingService bt nt hold conf).ExpirePendingBookings now w).2.bookings.map
        Booking.Token, x ∈ w.bookings.map Booking.Token := by
  unfold BookingService.ExpirePendingBookings
  have hstore : (NewBookingService bt nt hold conf).bookings = PGBookingRepository := rfl
  simp only [hstore, PGBookingRepository]
  have e := ExpirePendingBefore_effect now w
  rcases hx : PGBookingRepository.ExpirePendingBefore now w with ⟨r, w1⟩
  rw [hx] at e
  simp only at e
  rcases e.2.2 with ⟨⟨er, he⟩, hb⟩ | ⟨hr, hb⟩
  · subst he
    refine ⟨CountOK_of_tables e.2.1 hb h, ?_⟩
    intro x hx
    rw [show w1.bookings = w.bookings from hb] at hx
    exact hx
  · subst hr
    simp only
    have h1 : CountInv w1.flights w1.bookings
        ((returningWhere (expirable now) (setStatus BookingStatusExpired w.dbNow)
          w.bookings).map Booking.FlightID) := by
      unfold World.CountOK at h
      rw [e.2.1, hb]
      exact h.sweep now w.dbNow
    have := foldl_expireCleanup_CountInv bt nt hold conf _ w1 h1
    refine ⟨this.1, ?_⟩
    intro x hx
    obtain ⟨b, hbm, rfl⟩ := List.mem_map.mp hx
    have hb2 := this.2 b hbm
    have : b.Token ∈ w1.bookings.map Booking.Token := List.mem_map.mpr ⟨b, hb2, rfl⟩
    rw [hb, map_updateWhere (expirable now) (setStatus BookingStatusExpired w.dbNow)
      Booking.Token (fun _ => rfl)] at this
    exact this

theorem step_CountOK (bt nt : String) (hold conf : Int) (op : Op) (w : World) (h : w.CountOK)
    (hfresh : ∀ t, op.newToken = some t → t ∉ w.bookings.map Booking.Token) :
    ((NewBookingService bt nt hold conf).step w op).CountOK ∧
    ∀ x ∈ ((NewBookingService bt nt hold conf).step w op).bookings.map Booking.Token,
      x ∈ w.bookings.map Booking.Token ∨ op.newToken = some x := by
  cases op with
  | create input token now =>
    have := CreateBooking_CountOK bt nt hold conf input token now w h (hfresh token rfl)
    refine ⟨this.1, fun x hx => ?_⟩
    rcases this.2 x hx with h1 | h1
    · exact Or.inl h1
    · right; rw [h1]; rfl
  | confirm token =>
    have := ConfirmBooking_CountOK bt nt hold conf token w h
    exact ⟨this.1, fun x hx => Or.inl (this.2 x hx)⟩
  | cancel token =>
    have := CancelBooking_CountOK bt nt hold conf token w h
    exact ⟨this.1, fun x hx => Or.inl (this.2 x hx)⟩
  | expire now =>
    have := ExpirePendingBookings_CountOK bt nt hold conf now w h
    exact ⟨this.1, fun x hx => Or.inl (this.2 x hx)⟩

theorem run_CountOK (bt nt : String) (hold conf : Int) (ops : List Op) :
    ∀ (w : World), w.CountOK → (ops.filterMap Op.newToken).Nodup →
      (∀ x ∈ w.bookings.map Booking.Token, x ∉ ops.filterMap Op.newToken) →
      ((NewBookingService bt nt hold conf).run w ops).CountOK := by
  induction ops with
  | nil => intro w h _ _; exact h
  | cons op ops ih =>
    intro w h hnd hout
    unfold BookingService.run
    simp only [List.foldl_cons]
    have hs := step_CountOK bt nt hold conf op w h (by
      intro t ht hin
      exact hout t hin (by simp [List.filterMap_cons, ht]))
    cases hop : op.newToken with
    | none =>
      rw [List.filterMap_cons, hop] at hnd hout
      apply ih _ hs.1 hnd
      intro x hx
      rcases hs.2 x hx with h1 | h1
      · exact hout x h1
      · rw [hop] at h1; cases h1
    | some t =>
      rw [List.filterMap_cons, hop] at hnd hout
      simp only [List.nodup_cons] at hnd
      apply ih _ hs.1 hnd.2
      intro x hx
      rcases hs.2 x hx with h1 | h1
      · intro hin
        exact hout x h1 (List.mem_cons_of_mem _ hin)
      · rw [hop] at h1
        cases h1
        exact hnd.1

theorem CountOK_of_Fresh (w : World) (h : w.Fresh) : w.CountOK := by
  obtain ⟨hb, hid, hcap⟩ := h
  unfold World.CountOK
  rw [hb]
  refine ⟨hid, by simp, by simp, ?_⟩
  intro f hf
  have := hcap f hf
  simp only [liveOnFlight, owedTo, List.countP_nil]
  omega

/-- C2. Starting from a store in which every flight has `available = total` (flight
ids distinct, capacities non-negative) and there are no bookings, after any sequential
series of CreateBooking, ConfirmBooking, CancelBooking and ExpirePendingBookings calls
on the wired engine, for every script of collaborator failures, every flight satisfies
`0 ≤ available ≤ total`.  The tokens drawn by the CreateBooking calls are distinct, as
values of `uuid.NewString()` are. -/
theorem seat_count_invariant (bookingTopic notificationsTopic : String)
    (holdTTL confirmationTTL : Int) (w0 : World) (ops : List Op) (hfresh : w0.Fresh)
    (htokens : (ops.filterMap Op.newToken).Nodup) :
    ∀ f ∈ ((NewBookingService bookingTopic notificationsTopic holdTTL confirmationTTL).run w0
      ops).flights, f.WithinCapacity := by
  have h := run_CountOK bookingTopic notificationsTopic holdTTL confirmationTTL ops w0
    (CountOK_of_Fresh w0 hfresh) htokens (by rw [hfresh.1]; simp)
  intro f hf
  have := h.cap f hf
  unfold Flight.WithinCapacity
  refine ⟨this.1, ?_⟩
  simp only [owedTo, List.countP_nil] at this
  omega

/-- Witness of C2: book seat 3, confirm it, book seat 4, cancel that one and sweep,
with the sixth collaborator round trip failing; flight 1 ends with four of its five
seats available. -/
theorem seat_count_invariant_witness :
    sampleFlight 1 5 4 ∈ ((NewBookingService "bookings" "" 60 600).run
      { sampleWorld 5 with faults := [none, none, none, none, none, some "broker down"] }
      [Op.create sampleInput "t1" 100, Op.confirm "t1",
       Op.create { sampleInput with SeatNumber := 4 } "t2" 200, Op.cancel "t2",
       Op.expire 1000]).flights ∧
    (sampleFlight 1 5 4).WithinCapacity :=
  ⟨by decide,
   seat_count_invariant "bookings" "" 60 600
    { sampleWorld 5 with faults := [none, none, none, none, none, some "broker down"] }
    [Op.create sampleInput "t1" 100, Op.confirm "t1",
     Op.create { sampleInput with SeatNumber := 4 } "t2" 200, Op.cancel "t2",
     Op.expire 1000]
    ⟨rfl, by decide, by decide⟩ (by decide) (sampleFlight 1 5 4) (by decide)⟩
/-! ### Call logs of the recording engine -/
section
variable {σ : Type}

theorem traced_publish_calls (s : BookingService σ) (ev : String) (b : Booking) (w : σ)
    (log : List Call) :
    s.traced.publish ev b (w, log)
      = ((s.publish ev b w).1, ((s.publish ev b w).2, log ++ s.publishCalls ev b w)) := by
  unfold BookingService.publish BookingService.publishCalls
  cases hp : s.producer with
  | none => simp [BookingService.traced, hp]
  | some p =>
    by_cases ht : s.bookingTopic = ""
    · simp [BookingService.traced, hp, ht]
    · simp only [BookingService.traced, hp, Option.map_some', ht, if_false, Producer.traced, record]
      rcases h1 : p.Publish s.bookingTopic b.Token (bookingEvent ev b) w with ⟨r, w1⟩
      cases r with
      | some e => simp
      | none =>
        by_cases hn : s.notificationsTopic = "" <;> simp [hn]

theorem traced_releaseLock (s : BookingService σ) (f seat : Int) (w : σ) (log : List Call) :
    s.traced.releaseLock f seat (w, log)
      = (s.releaseLock f seat w, log ++ s.releaseCalls f seat) := by
  unfold BookingService.releaseLock BookingService.releaseCalls
  cases hc : s.cache with
  | none => simp [BookingService.traced, hc]
  | some c => simp [BookingService.traced, hc, Cache.traced, record]

theorem traced_expireCleanup (s : BookingService σ) (b : Booking) (w : σ) (log : List Call) :
    s.traced.expireCleanup (w, log) b
      = (s.expireCleanup w b,
          log ++ ([Call.ReleaseSeat b.FlightID]
            ++ s.publishCalls "booking_expired" b (s.bookings.ReleaseSeat b.FlightID w).2
            ++ s.releaseCalls b.FlightID b.SeatNumber)) := by
  unfold BookingService.expireCleanup
  have h1 : s.traced.bookings.ReleaseSeat b.FlightID (w, log)
      = ((s.bookings.ReleaseSeat b.FlightID w).1,
          ((s.bookings.ReleaseSeat b.FlightID w).2, log ++ [Call.ReleaseSeat b.FlightID])) := rfl
  simp only [h1, traced_publish_calls, traced_releaseLock, List.append_assoc]

theorem traced_foldl_expireCleanup (s : BookingService σ) (bs : List Booking) :
    ∀ (w : σ) (log : List Call),
      bs.foldl s.traced.expireCleanup (w, log)
        = (bs.foldl s.expireCleanup w, log ++ s.cleanupCalls w bs) := by
  induction bs with
  | nil => intro w log; simp [BookingService.cleanupCalls]
  | cons b bs ih =>
    intro w log
    simp only [List.foldl_cons, traced_expireCleanup, ih, BookingService.cleanupCalls,
      List.append_assoc]

end

section
variable {σ : Type}

theorem traced_ConfirmBooking_log (s : BookingService σ) (token : String) (w w1 w2 : σ)
    (log : List Call) (current updated : Booking)
    (hget : s.bookings.GetByToken token w = (.ok current, w1))
    (hpend : current.Status = BookingStatusPending)
    (hupd : s.bookings.UpdateStatus token BookingStatusConfirmed w1 = (.ok updated, w2)) :
    s.traced.ConfirmBooking token (w, log) =
      (.ok updated,
        (s.releaseLock updated.FlightID updated.SeatNumber
            (s.publish "booking_confirmed" updated w2).2,
          log ++ ([Call.GetByToken token, Call.UpdateStatus token BookingStatusConfirmed]
            ++ s.publishCalls "booking_confirmed" updated w2
            ++ s.releaseCalls updated.FlightID updated.SeatNumber))) := by
  unfold BookingService.ConfirmBooking
  have h1 : s.traced.bookings.GetByToken token (w, log)
      = (.ok current, (w1, log ++ [Call.GetByToken token])) := by
    simp [BookingService.traced, BookingRepository.traced, record, hget]
  have h2 : ∀ l, s.traced.bookings.UpdateStatus token BookingStatusConfirmed (w1, l)
      = (.ok updated, (w2, l ++ [Call.UpdateStatus token BookingStatusConfirmed])) := by
    intro l
    simp [BookingService.traced, BookingRepository.traced, record, hupd]
  simp only [h1, hpend, ne_eq, not_true_eq_false, if_false, h2, traced_publish_calls,
    traced_releaseLock, List.append_assoc, List.singleton_append, List.cons_append,
    List.nil_append]

theorem traced_CancelBooking_log (s : BookingService σ) (token : String) (w w1 w2 : σ)
    (log : List Call) (current updated : Booking)
    (hget : s.bookings.GetByToken token w = (.ok current, w1))
    (hlive : ¬ (current.Status = BookingStatusCancelled ∨ current.Status = BookingStatusExpired))
    (hupd : s.bookings.UpdateStatus token BookingStatusCancelled w1 = (.ok updated, w2)) :
    s.traced.CancelBooking token (w, log) =
      (.ok updated,
        (s.releaseLock updated.FlightID updated.SeatNumber
            (s.publish "booking_cancelled" updated
              (s.bookings.ReleaseSeat updated.FlightID w2).2).2,
          log ++ ([Call.GetByToken token, Call.UpdateStatus token BookingStatusCancelled,
              Call.ReleaseSeat updated.FlightID]
            ++ s.publishCalls "booking_cancelled" updated
                (s.bookings.ReleaseSeat updated.FlightID w2).2
            ++ s.releaseCalls updated.FlightID updated.SeatNumber))) := by
  unfold BookingService.CancelBooking
  have h1 : s.traced.bookings.GetByToken token (w, log)
      = (.ok current, (w1, log ++ [Call.GetByToken token])) := by
    simp [BookingService.traced, BookingRepository.traced, record, hget]
  have h2 : ∀ l, s.traced.bookings.UpdateStatus token BookingStatusCancelled (w1, l)
      = (.ok updated, (w2, l ++ [Call.UpdateStatus token BookingStatusCancelled])) := by
    intro l
    simp [BookingService.traced, BookingRepository.traced, record, hupd]
  have h3 : ∀ f x l, s.traced.bookings.ReleaseSeat f (x, l)
      = ((s.bookings.ReleaseSeat f x).1, ((s.bookings.ReleaseSeat f x).2, l ++ [Call.ReleaseSeat f])) :=
    fun _ _ _ => rfl
  simp only [h1, hlive, if_false, h2, h3, traced_publish_calls,
    traced_releaseLock, List.append_assoc, List.singleton_append, List.cons_append,
    List.nil_append]

/-- The publisher calls of a configured engine: the primary send, then at most the
send of the same event to the notifications channel. -/
theorem publishCalls_configured (s : BookingService σ) (p : Producer σ)
    (hp : s.producer = some p) (ht : s.bookingTopic ≠ "") (ev : String) (b : Booking) (w : σ) :
    ∃ secondary : List Call,
      s.publishCalls ev b w
        = Call.Publish s.bookingTopic b.Token (bookingEvent ev b) :: secondary ∧
      (secondary = [] ∨
        secondary = [Call.Publish s.notificationsTopic b.Token (bookingEvent ev b)]) := by
  unfold BookingService.publishCalls
  simp only [hp, ht, if_false]
  cases (p.Publish s.bookingTopic b.Token (bookingEvent ev b) w).1 with
  | some e => exact ⟨[], rfl, Or.inl rfl⟩
  | none =>
    by_cases hn : s.notificationsTopic = ""
    · exact ⟨[], by simp [hn], Or.inl rfl⟩
    · exact ⟨[Call.Publish s.notificationsTopic b.Token (bookingEvent ev b)], by simp [hn],
        Or.inr rfl⟩

end

theorem ConfirmBooking_flights (bt nt : String) (hold conf : Int) (token : String) (w : World) :
    ((NewBookingService bt nt hold conf).ConfirmBooking token w).2.flights = w.flights := by
  unfold BookingService.ConfirmBooking
  have hstore : (NewBookingService bt nt hold conf).bookings = PGBookingRepository := rfl
  simp only [hstore, PGBookingRepository]
  have eg := GetByToken_effect token w
  rcases hg : PGBookingRepository.GetByToken token w with ⟨r, w1⟩
  rw [hg] at eg
  simp only at eg
  cases r with
  | error e => exact eg.2.1
  | ok current =>
    simp only
    split
    · exact eg.2.1
    · have eu := UpdateStatus_effect token BookingStatusConfirmed w1
      rcases hu : PGBookingRepository.UpdateStatus token BookingStatusConfirmed w1 with ⟨r2, w2⟩
      rw [hu] at eu
      simp only at eu
      cases r2 with
      | error e => exact eu.2.1.trans eg.2.1
      | ok updated =>
        simp only
        have ep := publish_frame bt nt hold conf "booking_confirmed" updated w2
        have er := releaseLock_frame bt nt hold conf updated.FlightID updated.SeatNumber
          ((NewBookingService bt nt hold conf).publish "booking_confirmed" updated w2).2
        rw [er.1, ep.1, eu.2.1, eg.2.1]

theorem PG_updatesLookedUpRow : PGBookingRepository.UpdatesLookedUpRow := by
  intro token status w w1 w2 current updated hget hupd
  have eg := GetByToken_effect token w
  have hget2 : PGBookingRepository.GetByToken token w = (.ok current, w1) := hget
  rw [hget2] at eg
  simp only at eg
  have hfind := eg.2.2.2 current rfl
  have eu := UpdateStatus_effect token status w1
  have hupd2 : PGBookingRepository.UpdateStatus token status w1 = (.ok updated, w2) := hupd
  rw [hupd2] at eu
  simp only at eu
  rcases eu.2.2 with ⟨⟨e, he⟩, -⟩ | ⟨b0, hb0, hr, -⟩
  · cases he
  · rw [eg.2.2.1, hfind] at hb0
    cases hb0
    cases hr
    have htok : hasToken token current = true := List.find?_some hfind
    simp only [hasToken, decide_eq_true_eq] at htok
    exact ⟨htok, rfl, rfl, rfl⟩



theorem ReleaseSeat_flights_calm (F : Int) (w : World) (h : w.calm 1) :
    (PGBookingRepository.ReleaseSeat F w).2.flights
      = updateWhere (onFlight F) (giveSeat w.dbNow) w.flights := by
  have h1 := World.io_fst_of_calm h
  unfold PGBookingRepository.ReleaseSeat
  simp only [h1, World.io_flights, World.io_dbNow]
  split
  · rfl
  · split <;> rfl

theorem World.calm_of_faults {n : Nat} {w w2 : World} (hf : w2.faults = w.faults)
    (h : w.calm n) : w2.calm n := by
  unfold World.calm at h ⊢
  rw [hf]; exact h

theorem CancelBooking_flights_calm (bt nt : String) (hold conf : Int) (token : String)
    (w : World) (current : Booking)
    (hrow : w.bookings.find? (hasToken token) = some current)
    (hlive : ¬ (current.Status = BookingStatusCancelled ∨ current.Status = BookingStatusExpired))
    (hcalm : w.calm 3) :
    ((NewBookingService bt nt hold conf).CancelBooking token w).1
        = .ok (setStatus BookingStatusCancelled w.dbNow current) ∧
    ((NewBookingService bt nt hold conf).CancelBooking token w).2.flights
        = updateWhere (onFlight current.FlightID) (giveSeat w.dbNow) w.flights := by
  have hc1 : w.calm 1 := World.calm_mono (by omega) hcalm
  have hc2 : w.io.2.calm 2 := World.io_calm hcalm
  have hc2' : w.io.2.calm 1 := World.calm_mono (by omega) hc2
  have hc3 : w.io.2.io.2.calm 1 := World.io_calm hc2
  have hg : PGBookingRepository.GetByToken token w = (.ok current, w.io.2) := by
    rw [PGBookingRepository.GetByToken_calm token w hc1, hrow]
  obtain ⟨w2, hu, hfl, hnow, hcw2⟩ : ∃ w2 : World,
      PGBookingRepository.UpdateStatus token BookingStatusCancelled w.io.2
        = (.ok (setStatus BookingStatusCancelled w.dbNow current), w2) ∧
      w2.flights = w.flights ∧ w2.dbNow = w.dbNow ∧ w2.calm 1 := by
    have hcalc := PGBookingRepository.UpdateStatus_calm token BookingStatusCancelled w.io.2 hc2'
    rw [World.io_bookings, hrow] at hcalc
    refine ⟨(PGBookingRepository.UpdateStatus token BookingStatusCancelled w.io.2).2,
      ?_, ?_, ?_, ?_⟩
    · rw [hcalc]; rfl
    · rw [hcalc]; rfl
    · rw [hcalc]; rfl
    · rw [hcalc]; exact World.calm_of_faults rfl hc3
  unfold BookingService.CancelBooking
  have hstore : (NewBookingService bt nt hold conf).bookings = PGBookingRepository := rfl
  simp only [hstore, PGBookingRepository, hg, hlive, if_false, hu, true_and]
  rw [(releaseLock_frame bt nt hold conf _ _ _).1, (publish_frame bt nt hold conf _ _ _).1,
    ReleaseSeat_flights_calm _ _ hcw2, hfl, hnow]
  rfl

/-! ### Confirmation, cancellation and the sweep: results and call logs -/

section
variable {σ : Type}

/-- C20. The engine's `publish`, with every producer call recorded.  When no producer is
configured or `bookingTopic` is empty it sends nothing and returns nil.  With a producer
and a non-empty `bookingTopic` it sends the event to `bookingTopic`, keyed by the
booking's token; if that send fails its error is returned and nothing more is sent; if it
succeeds and `notificationsTopic` is empty the result is nil after that one send; if it
succeeds and `notificationsTopic` is non-empty the same key and payload are sent to
`notificationsTopic` as well and the result of that second send is returned. -/
theorem publish_channels (s : BookingService σ) (ev : String) (b : Booking) (w : σ)
    (log : List Call) :
    ((s.producer = none ∨ s.bookingTopic = "") →
      s.traced.publish ev b (w, log) = (none, (w, log))) ∧
    (∀ p : Producer σ, s.producer = some p → s.bookingTopic ≠ "" →
      (∀ e, (p.Publish s.bookingTopic b.Token (bookingEvent ev b) w).1 = some e →
        s.traced.publish ev b (w, log) =
          (some e, ((p.Publish s.bookingTopic b.Token (bookingEvent ev b) w).2,
            log ++ [Call.Publish s.bookingTopic b.Token (bookingEvent ev b)]))) ∧
      ((p.Publish s.bookingTopic b.Token (bookingEvent ev b) w).1 = none →
        s.notificationsTopic = "" →
        s.traced.publish ev b (w, log) =
          (none, ((p.Publish s.bookingTopic b.Token (bookingEvent ev b) w).2,
            log ++ [Call.Publish s.bookingTopic b.Token (bookingEvent ev b)]))) ∧
      ((p.Publish s.bookingTopic b.Token (bookingEvent ev b) w).1 = none →
        s.notificationsTopic ≠ "" →
        s.traced.publish ev b (w, log) =
          ((p.Publish s.notificationsTopic b.Token (bookingEvent ev b)
              (p.Publish s.bookingTopic b.Token (bookingEvent ev b) w).2).1,
            ((p.Publish s.notificationsTopic b.Token (bookingEvent ev b)
              (p.Publish s.bookingTopic b.Token (bookingEvent ev b) w).2).2,
            log ++ [Call.Publish s.bookingTopic b.Token (bookingEvent ev b),
                    Call.Publish s.notificationsTopic b.Token (bookingEvent ev b)])))) := by
  refine ⟨?_, ?_⟩
  · intro h
    unfold BookingService.publish
    rcases h with h | h
    · simp [BookingService.traced, h]
    · cases hp : s.producer with
      | none => simp [BookingService.traced, hp]
      | some p => simp [BookingService.traced, hp, h]
  · intro p hp ht
    refine ⟨?_, ?_, ?_⟩
    · intro e he
      unfold BookingService.publish
      simp only [BookingService.traced, hp, Option.map_some', ht, if_false, Producer.traced,
        record, he]
    · intro he hn
      unfold BookingService.publish
      simp only [BookingService.traced, hp, Option.map_some', ht, if_false, Producer.traced,
        record, he, hn, ne_eq, not_true_eq_false]
    · intro he hn
      unfold BookingService.publish
      simp only [BookingService.traced, hp, Option.map_some', ht, if_false, Producer.traced,
        record, he, hn, ne_eq, not_false_eq_true, if_true, List.append_assoc,
        List.singleton_append]

/-- Witness of C20: with both topics configured and a working broker the event goes to
the primary and then to the notifications topic. -/
theorem publish_channels_witness :
    notifyingService.traced.publish "booking_confirmed" (bookedRowAs BookingStatusConfirmed)
        (bookedWorld, []) =
      (none,
        ({ bookedWorld with
            kafka := bookedWorld.kafka ++
              [("bookings", "t1",
                  bookingEvent "booking_confirmed" (bookedRowAs BookingStatusConfirmed)),
               ("notifications", "t1",
                  bookingEvent "booking_confirmed" (bookedRowAs BookingStatusConfirmed))] },
         [Call.Publish "bookings" "t1"
            (bookingEvent "booking_confirmed" (bookedRowAs BookingStatusConfirmed)),
          Call.Publish "notifications" "t1"
            (bookingEvent "booking_confirmed" (bookedRowAs BookingStatusConfirmed))])) :=
  ((publish_channels notifyingService "booking_confirmed" (bookedRowAs BookingStatusConfirmed)
    bookedWorld []).2 KafkaProducer rfl (by decide)).2.2 (by rfl) (by decide)

/-- C18. If the store's bulk expire `ExpirePendingBefore` fails, `ExpirePendingBookings`
returns no bookings and that error as it is, and the bulk expire is its only
collaborator call: no `ReleaseSeat`, no `ReleaseSeatLock`, no publication. -/
theorem ExpirePendingBookings_bulk_failure (s : BookingService σ) (now : Int) (w w1 : σ)
    (log : List Call) (err : Err)
    (hx : s.bookings.ExpirePendingBefore now w = (.error err, w1)) :
    s.traced.ExpirePendingBookings now (w, log) =
      (.error err, (w1, log ++ [Call.ExpirePendingBefore now])) := by
  unfold BookingService.ExpirePendingBookings
  have h1 : s.traced.bookings.ExpirePendingBefore now (w, log)
      = (.error err, (w1, log ++ [Call.ExpirePendingBefore now])) := by
    simp [BookingService.traced, BookingRepository.traced, record, hx]
  simp only [h1]

/-- Witness of C18: the database is down when the sweep starts. -/
theorem ExpirePendingBookings_bulk_failure_witness :
    sampleService.traced.ExpirePendingBookings 1000
        ({ sweepWorld with faults := [some "db down"] }, []) =
      (.error "db down", (sweepWorld, [Call.ExpirePendingBefore 1000])) :=
  ExpirePendingBookings_bulk_failure sampleService 1000
    { sweepWorld with faults := [some "db down"] } sweepWorld [] "db down" (by rfl)

/-- C12. If the lookup of `token` returns a booking whose status is CANCELLED or EXPIRED,
`CancelBooking` returns that booking as it was read, with a nil error, and the lookup
is its only collaborator call: no `UpdateStatus`, no `ReleaseSeat`, no
`ReleaseSeatLock`, no publication. -/
theorem CancelBooking_terminal_noop (s : BookingService σ) (token : String) (w w1 : σ)
    (log : List Call) (current : Booking)
    (hget : s.bookings.GetByToken token w = (.ok current, w1))
    (hterm : current.Status = BookingStatusCancelled ∨ current.Status = BookingStatusExpired) :
    s.traced.CancelBooking token (w, log) =
      (.ok current, (w1, log ++ [Call.GetByToken token])) := by
  unfold BookingService.CancelBooking
  have h1 : s.traced.bookings.GetByToken token (w, log)
      = (.ok current, (w1, log ++ [Call.GetByToken token])) := by
    simp [BookingService.traced, BookingRepository.traced, record, hget]
  simp only [h1, hterm, if_true]

/-- Witness of C12: cancelling the booking of the sample world after the sweep expired
it. -/
theorem CancelBooking_terminal_noop_witness :
    sampleService.traced.CancelBooking "t1" (expiredWorld, []) =
      (.ok (bookedRowAs BookingStatusExpired), (expiredWorld, [Call.GetByToken "t1"])) :=
  CancelBooking_terminal_noop sampleService "t1" expiredWorld expiredWorld []
    (bookedRowAs BookingStatusExpired) (by rfl) (Or.inr rfl)

end


theorem updateWhere_onFlight (F t : Int) (l : List Flight) :
    updateWhere (onFlight F) (giveSeat t) l
      = l.map fun f =>
          if f.ID = F then { f with AvailableSeats := f.AvailableSeats + 1, UpdatedAt := t }
          else f := by
  unfold updateWhere
  apply List.map_congr_left
  intro f _
  by_cases h : f.ID = F <;> simp [onFlight, giveSeat, h]

section
variable {σ : Type}

/-- C11. A successful `ConfirmBooking` of a PENDING booking, on an engine with a lock
coordinator, a producer and a primary topic configured, over a store whose
`UpdateStatus` returns the row of the token it was given (the implemented store does:
`PG_updatesLookedUpRow`).  Its collaborator calls are, in order: the lookup, one
`UpdateStatus(token, CONFIRMED)`, one send of the `booking_confirmed` event keyed by the
token on the primary topic, at most one further send of that same event on the
notifications topic, and one `ReleaseSeatLock` on the booking's own flight and seat.
There is no `ReleaseSeat` among them, and over the implemented store `ConfirmBooking`
leaves the flights table, hence every available count, as it was. -/
theorem ConfirmBooking_success_calls (s : BookingService σ) (c : Cache σ) (p : Producer σ)
    (hc : s.cache = some c) (hp : s.producer = some p) (ht : s.bookingTopic ≠ "")
    (hstore : s.bookings.UpdatesLookedUpRow) (token : String) (w w1 w2 : σ) (log : List Call)
    (current updated : Booking)
    (hget : s.bookings.GetByToken token w = (.ok current, w1))
    (hpend : current.Status = BookingStatusPending)
    (hupd : s.bookings.UpdateStatus token BookingStatusConfirmed w1 = (.ok updated, w2)) :
    ∃ secondary : List Call,
      s.traced.ConfirmBooking token (w, log) =
        (.ok updated,
          ((c.ReleaseSeatLock current.FlightID current.SeatNumber
              (s.publish "booking_confirmed" updated w2).2).2,
            log ++ ([Call.GetByToken token, Call.UpdateStatus token BookingStatusConfirmed,
                Call.Publish s.bookingTopic token (bookingEvent "booking_confirmed" updated)]
              ++ secondary
              ++ [Call.ReleaseSeatLock current.FlightID current.SeatNumber]))) ∧
      (secondary = [] ∨ secondary =
        [Call.Publish s.notificationsTopic token (bookingEvent "booking_confirmed" updated)]) ∧
      ∀ (bt nt : String) (hold conf : Int) (tok : String) (w0 : World),
        ((NewBookingService bt nt hold conf).ConfirmBooking tok w0).2.flights = w0.flights := by
  obtain ⟨htok, hfl, hseat, -⟩ := hstore token BookingStatusConfirmed w w1 w2 current updated
    hget hupd
  obtain ⟨secondary, hsec, hshape⟩ :=
    publishCalls_configured s p hp ht "booking_confirmed" updated w2
  rw [htok] at hsec hshape
  refine ⟨secondary, ?_, hshape, fun bt nt hold conf tok w0 =>
    ConfirmBooking_flights bt nt hold conf tok w0⟩
  rw [traced_ConfirmBooking_log s token w w1 w2 log current updated hget hpend hupd, hsec]
  simp only [BookingService.releaseLock, BookingService.releaseCalls, hc, hfl, hseat,
    List.cons_append, List.nil_append, List.append_assoc]

/-- Witness of C11: confirming the booking of `bookedWorld`. -/
theorem ConfirmBooking_success_calls_witness :
    ∃ secondary : List Call,
      sampleService.traced.ConfirmBooking "t1" (bookedWorld, []) =
        (.ok (bookedRowAs BookingStatusConfirmed),
          ((RedisCache.ReleaseSeatLock 1 3
              (sampleService.publish "booking_confirmed" (bookedRowAs BookingStatusConfirmed)
                { bookedWorld with bookings := [bookedRowAs BookingStatusConfirmed] }).2).2,
            [] ++ ([Call.GetByToken "t1", Call.UpdateStatus "t1" BookingStatusConfirmed,
                Call.Publish "bookings" "t1"
                  (bookingEvent "booking_confirmed" (bookedRowAs BookingStatusConfirmed))]
              ++ secondary ++ [Call.ReleaseSeatLock 1 3]))) ∧
      (secondary = [] ∨ secondary =
        [Call.Publish "" "t1"
          (bookingEvent "booking_confirmed" (bookedRowAs BookingStatusConfirmed))]) ∧
      (sampleService.ConfirmBooking "t1" bookedWorld).2.flights = bookedWorld.flights :=
  (ConfirmBooking_success_calls sampleService RedisCache KafkaProducer rfl rfl (by decide)
    PG_updatesLookedUpRow "t1" bookedWorld bookedWorld
    { bookedWorld with bookings := [bookedRowAs BookingStatusConfirmed] } []
    bookedRow (bookedRowAs BookingStatusConfirmed) (by rfl) rfl (by rfl)).imp
    fun _ h => ⟨h.1, h.2.1, h.2.2 "bookings" "" 60 600 "t1" bookedWorld⟩

/-- C13. A successful `CancelBooking` of a booking that is PENDING or CONFIRMED, on an
engine with a lock coordinator, a producer and a primary topic configured, over a store
whose `UpdateStatus` returns the row of the token it was given.  The returned booking
has status CANCELLED, and the collaborator calls are, in order: the lookup, one
`UpdateStatus(token, CANCELLED)`, one `ReleaseSeat` on the booking's flight, one send
of the `booking_cancelled` event keyed by the token on the primary topic, at most one
further send of that same event on the notifications topic, and one `ReleaseSeatLock`
on the booking's flight and seat.  Over the implemented store, when none of the three
store statements is failed by the environment, the flights table afterwards is the one
before with the available count of the booking's flight incremented by one. -/
theorem CancelBooking_success_calls (s : BookingService σ) (c : Cache σ) (p : Producer σ)
    (hc : s.cache = some c) (hp : s.producer = some p) (ht : s.bookingTopic ≠ "")
    (hstore : s.bookings.UpdatesLookedUpRow) (token : String) (w w1 w2 : σ) (log : List Call)
    (current updated : Booking)
    (hget : s.bookings.GetByToken token w = (.ok current, w1))
    (hlive : current.Status = BookingStatusPending ∨ current.Status = BookingStatusConfirmed)
    (hupd : s.bookings.UpdateStatus token BookingStatusCancelled w1 = (.ok updated, w2)) :
    ∃ secondary : List Call,
      s.traced.CancelBooking token (w, log) =
        (.ok updated,
          ((c.ReleaseSeatLock current.FlightID current.SeatNumber
              (s.publish "booking_cancelled" updated
                (s.bookings.ReleaseSeat current.FlightID w2).2).2).2,
            log ++ ([Call.GetByToken token, Call.UpdateStatus token BookingStatusCancelled,
                Call.ReleaseSeat current.FlightID,
                Call.Publish s.bookingTopic token (bookingEvent "booking_cancelled" updated)]
              ++ secondary
              ++ [Call.ReleaseSeatLock current.FlightID current.SeatNumber]))) ∧
      (secondary = [] ∨ secondary =
        [Call.Publish s.notificationsTopic token (bookingEvent "booking_cancelled" updated)]) ∧
      updated.Status = BookingStatusCancelled ∧
      ∀ (bt nt : String) (hold conf : Int) (tok : String) (w0 : World) (row : Booking),
        w0.bookings.find? (hasToken tok) = some row →
        (row.Status = BookingStatusPending ∨ row.Status = BookingStatusConfirmed) →
        w0.calm 3 →
        ((NewBookingService bt nt hold conf).CancelBooking tok w0).2.flights
          = w0.flights.map fun f =>
              if f.ID = row.FlightID then
                { f with AvailableSeats := f.AvailableSeats + 1, UpdatedAt := w0.dbNow }
              else f := by
  have hnot : ∀ b : Booking,
      (b.Status = BookingStatusPending ∨ b.Status = BookingStatusConfirmed) →
      ¬ (b.Status = BookingStatusCancelled ∨ b.Status = BookingStatusExpired) := by
    intro b hb hcon
    rcases hb with hb | hb <;> rcases hcon with h2 | h2 <;> rw [hb] at h2 <;>
      exact absurd h2 (by decide)
  obtain ⟨htok, hfl, hseat, hst⟩ := hstore token BookingStatusCancelled w w1 w2 current updated
    hget hupd
  obtain ⟨secondary, hsec, hshape⟩ :=
    publishCalls_configured s p hp ht "booking_cancelled" updated
      (s.bookings.ReleaseSeat updated.FlightID w2).2
  rw [htok] at hsec hshape
  refine ⟨secondary, ?_, hshape, hst, ?_⟩
  · rw [traced_CancelBooking_log s token w w1 w2 log current updated hget (hnot current hlive)
      hupd, hsec]
    simp only [BookingService.releaseLock, BookingService.releaseCalls, hc, hfl, hseat,
      List.cons_append, List.nil_append, List.append_assoc]
  · intro bt nt hold conf tok w0 row hrow hrl hcalm
    rw [(CancelBooking_flights_calm bt nt hold conf tok w0 row hrow (hnot row hrl) hcalm).2,
      updateWhere_onFlight]

/-- Witness of C13: cancelling the booking of `bookedWorld` gives flight 1 its fifth seat
back. -/
theorem CancelBooking_success_calls_witness :
    ∃ secondary : List Call,
      sampleService.traced.CancelBooking "t1" (bookedWorld, []) =
        (.ok (bookedRowAs BookingStatusCancelled),
          ((RedisCache.ReleaseSeatLock 1 3
              (sampleService.publish "booking_cancelled" (bookedRowAs BookingStatusCancelled)
                (PGBookingRepository.ReleaseSeat 1
                  { bookedWorld with bookings := [bookedRowAs BookingStatusCancelled] }).2).2).2,
            [] ++ ([Call.GetByToken "t1", Call.UpdateStatus "t1" BookingStatusCancelled,
                Call.ReleaseSeat 1,
                Call.Publish "bookings" "t1"
                  (bookingEvent "booking_cancelled" (bookedRowAs BookingStatusCancelled))]
              ++ secondary ++ [Call.ReleaseSeatLock 1 3]))) ∧
      (bookedRowAs BookingStatusCancelled).Status = BookingStatusCancelled ∧
      (sampleService.CancelBooking "t1" bookedWorld).2.flights = [sampleFlight 1 5 5] :=
  (CancelBooking_success_calls sampleService RedisCache KafkaProducer rfl rfl (by decide)
    PG_updatesLookedUpRow "t1" bookedWorld bookedWorld
    { bookedWorld with bookings := [bookedRowAs BookingStatusCancelled] } []
    bookedRow (bookedRowAs BookingStatusCancelled) (by rfl) (Or.inl rfl) (by rfl)).imp
    fun _ h => ⟨h.1, h.2.2.1,
      h.2.2.2 "bookings" "" 60 600 "t1" bookedWorld bookedRow (by rfl) (Or.inl rfl)
        (by unfold World.calm; decide)⟩

end

section
variable {σ : Type}

theorem publishCalls_isPublish (s : BookingService σ) (ev : String) (b : Booking) (w : σ) :
    ∀ c ∈ s.publishCalls ev b w, c.isPublish = true := by
  unfold BookingService.publishCalls
  intro c hc
  split at hc
  · simp at hc
  · split at hc
    · simp at hc
    · split at hc
      · simp only [List.mem_singleton] at hc; subst hc; rfl
      · split at hc
        · simp only [List.mem_singleton] at hc; subst hc; rfl
        · simp only [List.mem_cons, List.mem_singleton, List.not_mem_nil, or_false] at hc
          rcases hc with hc | hc <;> subst hc <;> rfl

theorem filter_publishCalls_of_not (s : BookingService σ) (ev : String) (b : Booking) (w : σ)
    (q : Call → Bool) (hq : ∀ c, c.isPublish = true → q c = false) :
    (s.publishCalls ev b w).filter q = [] := by
  rw [List.filter_eq_nil_iff]
  intro c hc
  rw [hq c (publishCalls_isPublish s ev b w c hc)]
  simp

theorem filter_publishCalls_primary (s : BookingService σ) (p : Producer σ)
    (hp : s.producer = some p) (ht : s.bookingTopic ≠ "")
    (hn : s.notificationsTopic ≠ s.bookingTopic) (ev : String) (b : Booking) (w : σ) :
    (s.publishCalls ev b w).filter (Call.isPublishOn s.bookingTopic)
      = [Call.Publish s.bookingTopic b.Token (bookingEvent ev b)] := by
  obtain ⟨secondary, hsec, hshape⟩ := publishCalls_configured s p hp ht ev b w
  rw [hsec]
  rcases hshape with h | h <;> subst h <;> simp [List.filter, Call.isPublishOn, hn]

theorem filter_cleanupCalls_releaseSeat (s : BookingService σ) (bs : List Booking) :
    ∀ w : σ, (s.cleanupCalls w bs).filter Call.isReleaseSeat
      = bs.map fun b => Call.ReleaseSeat b.FlightID := by
  induction bs with
  | nil => intro w; rfl
  | cons b bs ih =>
    intro w
    have hrel : (s.releaseCalls b.FlightID b.SeatNumber).filter Call.isReleaseSeat = [] := by
      unfold BookingService.releaseCalls
      cases s.cache <;> rfl
    simp only [BookingService.cleanupCalls, List.filter_append, ih, hrel,
      filter_publishCalls_of_not s _ _ _ Call.isReleaseSeat
        (by intro c hc; cases c <;> simp_all [Call.isPublish, Call.isReleaseSeat]),
      List.map_cons, List.append_nil, List.nil_append]
    rfl

theorem filter_cleanupCalls_releaseSeatLock (s : BookingService σ) (c : Cache σ)
    (hc : s.cache = some c) (bs : List Booking) :
    ∀ w : σ, (s.cleanupCalls w bs).filter Call.isReleaseSeatLock
      = bs.map fun b => Call.ReleaseSeatLock b.FlightID b.SeatNumber := by
  induction bs with
  | nil => intro w; rfl
  | cons b bs ih =>
    intro w
    have hrel : (s.releaseCalls b.FlightID b.SeatNumber).filter Call.isReleaseSeatLock
        = [Call.ReleaseSeatLock b.FlightID b.SeatNumber] := by
      unfold BookingService.releaseCalls
      rw [hc]; rfl
    simp only [BookingService.cleanupCalls, List.filter_append, ih, hrel,
      filter_publishCalls_of_not s _ _ _ Call.isReleaseSeatLock
        (by intro c hc; cases c <;> simp_all [Call.isPublish, Call.isReleaseSeatLock]),
      List.map_cons, List.append_nil, List.nil_append]
    rfl

theorem filter_cleanupCalls_primary (s : BookingService σ) (p : Producer σ)
    (hp : s.producer = some p) (ht : s.bookingTopic ≠ "")
    (hn : s.notificationsTopic ≠ s.bookingTopic) (bs : List Booking) :
    ∀ w : σ, (s.cleanupCalls w bs).filter (Call.isPublishOn s.bookingTopic)
      = bs.map fun b =>
          Call.Publish s.bookingTopic b.Token (bookingEvent "booking_expired" b) := by
  induction bs with
  | nil => intro w; rfl
  | cons b bs ih =>
    intro w
    have hrel : (s.releaseCalls b.FlightID b.SeatNumber).filter
        (Call.isPublishOn s.bookingTopic) = [] := by
      unfold BookingService.releaseCalls
      cases s.cache <;> rfl
    simp only [BookingService.cleanupCalls, List.filter_append, ih, hrel,
      filter_publishCalls_primary s p hp ht hn, List.map_cons, List.append_nil]
    rfl

theorem traced_ExpirePendingBookings_log (s : BookingService σ) (now : Int) (w w1 : σ)
    (log : List Call) (expired : List Booking)
    (hx : s.bookings.ExpirePendingBefore now w = (.ok expired, w1)) :
    s.traced.ExpirePendingBookings now (w, log) =
      (.ok expired, (expired.foldl s.expireCleanup w1,
        log ++ (Call.ExpirePendingBefore now :: s.cleanupCalls w1 expired))) := by
  unfold BookingService.ExpirePendingBookings
  have h1 : s.traced.bookings.ExpirePendingBefore now (w, log)
      = (.ok expired, (w1, log ++ [Call.ExpirePendingBefore now])) := by
    simp [BookingService.traced, BookingRepository.traced, record, hx]
  simp only [h1, traced_foldl_expireCleanup, List.append_assoc, List.singleton_append]

/-- C16. When the store's bulk expire returns the list `expired`,
`ExpirePendingBookings` returns that same list with a nil error, and its collaborator
calls are the bulk expire followed, booking by booking in the order of the list, by
`ReleaseSeat`, the publication of `booking_expired` and the lock release.  Among them
the `ReleaseSeat` calls are exactly one per booking, on its flight; with a coordinator
configured the `ReleaseSeatLock` calls are exactly one per booking, on its flight and
seat; with a producer and a primary topic configured (and a notifications topic that
is not the primary one) the sends on the primary topic are exactly one
`booking_expired` event per booking, keyed by its token.  When the list is empty the
bulk expire is the only collaborator call. -/
theorem ExpirePendingBookings_cleanup_calls (s : BookingService σ) (now : Int) (w w1 : σ)
    (log : List Call) (expired : List Booking)
    (hx : s.bookings.ExpirePendingBefore now w = (.ok expired, w1)) :
    s.traced.ExpirePendingBookings now (w, log) =
      (.ok expired, (expired.foldl s.expireCleanup w1,
        log ++ (Call.ExpirePendingBefore now :: s.cleanupCalls w1 expired))) ∧
    (s.cleanupCalls w1 expired).filter Call.isReleaseSeat
      = expired.map (fun b => Call.ReleaseSeat b.FlightID) ∧
    (s.cache.isSome = true →
      (s.cleanupCalls w1 expired).filter Call.isReleaseSeatLock
        = expired.map fun b => Call.ReleaseSeatLock b.FlightID b.SeatNumber) ∧
    (s.producer.isSome = true → s.bookingTopic ≠ "" →
      s.notificationsTopic ≠ s.bookingTopic →
      (s.cleanupCalls w1 expired).filter (Call.isPublishOn s.bookingTopic)
        = expired.map fun b =>
            Call.Publish s.bookingTopic b.Token (bookingEvent "booking_expired" b)) ∧
    (expired = [] →
      s.traced.ExpirePendingBookings now (w, log) =
        (.ok [], (w1, log ++ [Call.ExpirePendingBefore now]))) := by
  have hlog := traced_ExpirePendingBookings_log s now w w1 log expired hx
  refine ⟨hlog, filter_cleanupCalls_releaseSeat s expired w1, ?_, ?_, ?_⟩
  · intro hc
    obtain ⟨c, hc⟩ := Option.isSome_iff_exists.mp hc
    exact filter_cleanupCalls_releaseSeatLock s c hc expired w1
  · intro hp ht hn
    obtain ⟨p, hp⟩ := Option.isSome_iff_exists.mp hp
    exact filter_cleanupCalls_primary s p hp ht hn expired w1
  · intro he
    subst he
    rw [hlog]
    rfl

/-- Witness of C16: the sweep at 1000 over the sweep example (two rows due), and over a
store without bookings. -/
theorem ExpirePendingBookings_cleanup_calls_witness :
    sampleService.traced.ExpirePendingBookings 1000 (sweepWorld, []) =
      (.ok [sweepRow 1 1 "a" BookingStatusExpired 900,
            sweepRow 4 4 "d" BookingStatusExpired 1000],
        ((sampleService.ExpirePendingBookings 1000 sweepWorld).2,
         [Call.ExpirePendingBefore 1000,
          Call.ReleaseSeat 1,
          Call.Publish "bookings" "a"
            (bookingEvent "booking_expired" (sweepRow 1 1 "a" BookingStatusExpired 900)),
          Call.ReleaseSeatLock 1 1,
          Call.ReleaseSeat 1,
          Call.Publish "bookings" "d"
            (bookingEvent "booking_expired" (sweepRow 4 4 "d" BookingStatusExpired 1000)),
          Call.ReleaseSeatLock 1 4])) ∧
    sampleService.traced.ExpirePendingBookings 1000 (sampleWorld 5, []) =
      (.ok [], (sampleWorld 5, [Call.ExpirePendingBefore 1000])) :=
  ⟨(ExpirePendingBookings_cleanup_calls sampleService 1000 sweepWorld
      (PGBookingRepository.ExpirePendingBefore 1000 sweepWorld).2 []
      [sweepRow 1 1 "a" BookingStatusExpired 900, sweepRow 4 4 "d" BookingStatusExpired 1000]
      (by rfl)).1,
   (ExpirePendingBookings_cleanup_calls sampleService 1000 (sampleWorld 5) (sampleWorld 5) []
      [] (by rfl)).2.2.2.2 rfl⟩

/-- C17. Whatever the collaborators answer during the cleanup, failures included, once
the bulk expire has returned the list `expired` the call `ExpirePendingBookings`
returns the whole list with a nil error, and every booking of the list gets its
`ReleaseSeat`, its `ReleaseSeatLock` (when a coordinator is configured) and the send
of its `booking_expired` event on the primary topic (when a producer and the topic are
configured). -/
theorem ExpirePendingBookings_cleanup_never_aborts (s : BookingService σ) (now : Int)
    (w w1 : σ) (log : List Call) (expired : List Booking)
    (hx : s.bookings.ExpirePendingBefore now w = (.ok expired, w1)) :
    ∃ (calls : List Call) (final : σ),
      s.traced.ExpirePendingBookings now (w, log) =
        (.ok expired, (final, log ++ (Call.ExpirePendingBefore now :: calls))) ∧
      ∀ b ∈ expired,
        Call.ReleaseSeat b.FlightID ∈ calls ∧
        (s.cache.isSome = true → Call.ReleaseSeatLock b.FlightID b.SeatNumber ∈ calls) ∧
        (s.producer.isSome = true → s.bookingTopic ≠ "" →
          Call.Publish s.bookingTopic b.Token (bookingEvent "booking_expired" b) ∈ calls) := by
  refine ⟨s.cleanupCalls w1 expired, expired.foldl s.expireCleanup w1,
    traced_ExpirePendingBookings_log s now w w1 log expired hx, ?_⟩
  clear hx
  induction expired generalizing w1 with
  | nil => intro b hb; simp at hb
  | cons x xs ih =>
    intro b hb
    simp only [BookingService.cleanupCalls, List.mem_append, List.mem_singleton]
    rcases List.mem_cons.mp hb with rfl | hb
    · refine ⟨Or.inl (Or.inl (Or.inl rfl)), ?_, ?_⟩
      · intro hc
        obtain ⟨c, hc⟩ := Option.isSome_iff_exists.mp hc
        left; right
        simp [BookingService.releaseCalls, hc]
      · intro hp ht
        obtain ⟨p, hp⟩ := Option.isSome_iff_exists.mp hp
        obtain ⟨sec, hsec, -⟩ := publishCalls_configured s p hp ht "booking_expired" b
          (s.bookings.ReleaseSeat b.FlightID w1).2
        left; left; right
        rw [hsec]
        exact List.mem_cons_self _ _
    · have := ih (s.expireCleanup w1 x) b hb
      exact ⟨Or.inr this.1, fun hc => Or.inr (this.2.1 hc), fun hp ht => Or.inr (this.2.2 hp ht)⟩

/-- Witness of C17: the seat return, the publication and the lock release of the first
expired row all fail, and the last row still gets its three cleanup calls. -/
theorem ExpirePendingBookings_cleanup_never_aborts_witness :
    ∃ (calls : List Call) (final : World),
      sampleService.traced.ExpirePendingBookings 1000 (stormyWorld, []) =
        (.ok [sweepRow 1 1 "a" BookingStatusExpired 900,
              sweepRow 4 4 "d" BookingStatusExpired 1000],
          (final, [] ++ (Call.ExpirePendingBefore 1000 :: calls))) ∧
      (PGBookingRepository.ReleaseSeat 1
        (PGBookingRepository.ExpirePendingBefore 1000 stormyWorld).2).1 = some "db down" ∧
      Call.ReleaseSeat 1 ∈ calls ∧ Call.ReleaseSeatLock 1 4 ∈ calls ∧
      Call.Publish "bookings" "d"
        (bookingEvent "booking_expired" (sweepRow 4 4 "d" BookingStatusExpired 1000)) ∈ calls :=
  (ExpirePendingBookings_cleanup_never_aborts sampleService 1000 stormyWorld
    (PGBookingRepository.ExpirePendingBefore 1000 stormyWorld).2 []
    [sweepRow 1 1 "a" BookingStatusExpired 900, sweepRow 4 4 "d" BookingStatusExpired 1000]
    (by rfl)).imp fun _ h => h.imp fun _ h2 =>
      ⟨h2.1, by rfl,
        (h2.2 (sweepRow 4 4 "d" BookingStatusExpired 1000) (by decide)).1,
        (h2.2 (sweepRow 4 4 "d" BookingStatusExpired 1000) (by decide)).2.1 rfl,
        (h2.2 (sweepRow 4 4 "d" BookingStatusExpired 1000) (by decide)).2.2 rfl (by decide)⟩

end

/-! ### The publisher's outcome does not reach the result -/
section
variable {α β : Type}

theorem withPublisher_publish (s : BookingService α) (p : Option (Producer β)) (ev : String)
    (b : Booking) (a : α) (x : β) : ((s.withPublisher p).publish ev b (a, x)).2.1 = a := by
  unfold BookingService.publish
  cases p with
  | none => simp [BookingService.withPublisher]
  | some p =>
    simp only [BookingService.withPublisher, Option.map_some', Producer.onSnd]
    split
    · rfl
    · split
      · rename_i h; rw [← (Prod.mk.inj h).2]
      · rename_i h
        split
        · show _ = a
          rw [← (Prod.mk.inj h).2]
        · rw [← (Prod.mk.inj h).2]

theorem withPublisher_releaseLock (s : BookingService α) (p : Option (Producer β))
    (f seat : Int) (a : α) (x : β) :
    ((s.withPublisher p).releaseLock f seat (a, x)).1 = s.withoutPublisher.releaseLock f seat a := by
  unfold BookingService.releaseLock
  cases hc : s.cache with
  | none => simp [BookingService.withPublisher, BookingService.withoutPublisher, hc]
  | some c => simp [BookingService.withPublisher, BookingService.withoutPublisher, hc, Cache.onFst]

theorem withoutPublisher_publish (s : BookingService α) (ev : String) (b : Booking) (a : α) :
    (s.withoutPublisher.publish ev b a).2 = a := by
  simp [BookingService.publish, BookingService.withoutPublisher]

theorem withPublisher_CreateBooking (s : BookingService α) (p : Option (Producer β))
    (input : CreateBookingInput) (token : String) (now : Int) (a : α) (x : β) :
    ((s.withPublisher p).CreateBooking input token now (a, x)).1
        = (s.withoutPublisher.CreateBooking input token now a).1 ∧
    ((s.withPublisher p).CreateBooking input token now (a, x)).2.1
        = (s.withoutPublisher.CreateBooking input token now a).2 := by
  have hnb : (s.withPublisher p).newBooking input token now
      = s.withoutPublisher.newBooking input token now := rfl
  have hafter : ∀ (locked : Bool) (a1 : α),
      ((s.withPublisher p).createAfterLock input token now locked (a1, x)).1
          = (s.withoutPublisher.createAfterLock input token now locked a1).1 ∧
      ((s.withPublisher p).createAfterLock input token now locked (a1, x)).2.1
          = (s.withoutPublisher.createAfterLock input token now locked a1).2 := by
    intro locked a1
    unfold BookingService.createAfterLock
    rw [hnb]
    have hcp : (s.withPublisher p).bookings.CreatePending
        (s.withoutPublisher.newBooking input token now) (a1, x)
        = ((s.bookings.CreatePending (s.withoutPublisher.newBooking input token now) a1).1,
            ((s.bookings.CreatePending (s.withoutPublisher.newBooking input token now) a1).2,
              x)) := rfl
    have hcp2 : s.withoutPublisher.bookings = s.bookings := rfl
    rw [hcp, hcp2]
    rcases s.bookings.CreatePending (s.withoutPublisher.newBooking input token now) a1
      with ⟨⟨left, err⟩, a2⟩
    cases err with
    | some e =>
      cases locked with
      | false => exact ⟨rfl, rfl⟩
      | true =>
        cases hc : s.cache with
        | none =>
          simp [BookingService.withPublisher, BookingService.withoutPublisher, hc]
        | some c =>
          simp [BookingService.withPublisher, BookingService.withoutPublisher, hc, Cache.onFst]
    | none =>
      simp only
      exact ⟨trivial, by rw [withPublisher_publish, withoutPublisher_publish]⟩
  unfold BookingService.CreateBooking
  split
  · exact ⟨rfl, rfl⟩
  · split
    · exact ⟨rfl, rfl⟩
    · cases hc : s.cache with
      | none =>
        have h1 : (s.withPublisher p).cache = none := by simp [BookingService.withPublisher, hc]
        have h2 : s.withoutPublisher.cache = none := hc
        simp only [h1, h2]
        exact hafter false a
      | some c =>
        have h1 : (s.withPublisher p).cache = some c.onFst := by
          simp [BookingService.withPublisher, hc]
        have h2 : s.withoutPublisher.cache = some c := hc
        have h3 : (s.withPublisher p).holdTTL = s.holdTTL := rfl
        have h4 : s.withoutPublisher.holdTTL = s.holdTTL := rfl
        simp only [h1, h2, h3, h4, Cache.onFst]
        rcases c.AcquireSeatLock input.FlightID input.SeatNumber s.holdTTL a
          with ⟨⟨ok, err⟩, a1⟩
        cases err with
        | some e => cases ok <;> exact ⟨rfl, rfl⟩
        | none =>
          cases ok with
          | false => exact ⟨rfl, rfl⟩
          | true => exact hafter true a1

theorem withPublisher_ConfirmBooking (s : BookingService α) (p : Option (Producer β))
    (token : String) (a : α) (x : β) :
    ((s.withPublisher p).ConfirmBooking token (a, x)).1
        = (s.withoutPublisher.ConfirmBooking token a).1 ∧
    ((s.withPublisher p).ConfirmBooking token (a, x)).2.1
        = (s.withoutPublisher.ConfirmBooking token a).2 := by
  unfold BookingService.ConfirmBooking
  have hg : (s.withPublisher p).bookings.GetByToken token (a, x)
      = ((s.bookings.GetByToken token a).1, ((s.bookings.GetByToken token a).2, x)) := rfl
  have hb : s.withoutPublisher.bookings = s.bookings := rfl
  rw [hg, hb]
  rcases s.bookings.GetByToken token a with ⟨r, a1⟩
  cases r with
  | error e => exact ⟨rfl, rfl⟩
  | ok current =>
    simp only
    split
    · exact ⟨rfl, rfl⟩
    · have hu : (s.withPublisher p).bookings.UpdateStatus token BookingStatusConfirmed (a1, x)
          = ((s.bookings.UpdateStatus token BookingStatusConfirmed a1).1,
              ((s.bookings.UpdateStatus token BookingStatusConfirmed a1).2, x)) := rfl
      rw [hu]
      rcases s.bookings.UpdateStatus token BookingStatusConfirmed a1 with ⟨r2, a2⟩
      cases r2 with
      | error e => exact ⟨rfl, rfl⟩
      | ok updated =>
        simp only
        refine ⟨trivial, ?_⟩
        rw [withoutPublisher_publish]
        rw [← withPublisher_releaseLock s p updated.FlightID updated.SeatNumber a2
          ((s.withPublisher p).publish "booking_confirmed" updated (a2, x)).2.2]
        congr 2
        exact Prod.ext (withPublisher_publish s p _ _ a2 x) rfl

theorem withPublisher_CancelBooking (s : BookingService α) (p : Option (Producer β))
    (token : String) (a : α) (x : β) :
    ((s.withPublisher p).CancelBooking token (a, x)).1
        = (s.withoutPublisher.CancelBooking token a).1 ∧
    ((s.withPublisher p).CancelBooking token (a, x)).2.1
        = (s.withoutPublisher.CancelBooking token a).2 := by
  unfold BookingService.CancelBooking
  have hg : (s.withPublisher p).bookings.GetByToken token (a, x)
      = ((s.bookings.GetByToken token a).1, ((s.bookings.GetByToken token a).2, x)) := rfl
  have hb : s.withoutPublisher.bookings = s.bookings := rfl
  rw [hg, hb]
  rcases s.bookings.GetByToken token a with ⟨r, a1⟩
  cases r with
  | error e => exact ⟨rfl, rfl⟩
  | ok current =>
    simp only
    split
    · exact ⟨rfl, rfl⟩
    · have hu : (s.withPublisher p).bookings.UpdateStatus token BookingStatusCancelled (a1, x)
          = ((s.bookings.UpdateStatus token BookingStatusCancelled a1).1,
              ((s.bookings.UpdateStatus token BookingStatusCancelled a1).2, x)) := rfl
      rw [hu]
      rcases s.bookings.UpdateStatus token BookingStatusCancelled a1 with ⟨r2, a2⟩
      cases r2 with
      | error e => exact ⟨rfl, rfl⟩
      | ok updated =>
        simp only
        refine ⟨trivial, ?_⟩
        have hr : (s.withPublisher p).bookings.ReleaseSeat updated.FlightID (a2, x)
            = ((s.bookings.ReleaseSeat updated.FlightID a2).1,
                ((s.bookings.ReleaseSeat updated.FlightID a2).2, x)) := rfl
        rw [hr, withoutPublisher_publish]
        rw [← withPublisher_releaseLock s p updated.FlightID updated.SeatNumber
          (s.bookings.ReleaseSeat updated.FlightID a2).2
          ((s.withPublisher p).publish "booking_cancelled" updated
            ((s.bookings.ReleaseSeat updated.FlightID a2).2, x)).2.2]
        congr 2
        exact Prod.ext (withPublisher_publish s p _ _ _ x) rfl

end

/-- C19. For CreateBooking, ConfirmBooking and CancelBooking, for every input, every
store and every lock coordinator, the returned (booking, error) pair and the state
the store and the coordinator are left in are the same for any two publishers,
whatever their `Publish` returns (success or any error) and whether or not a
publisher is configured at all. -/
theorem publication_outcome_invisible {α β γ : Type} (s : BookingService α)
    (p1 : Option (Producer β)) (p2 : Option (Producer γ)) (input : CreateBookingInput)
    (token : String) (now : Int) (a : α) (x1 : β) (x2 : γ) :
    (((s.withPublisher p1).CreateBooking input token now (a, x1)).1
        = ((s.withPublisher p2).CreateBooking input token now (a, x2)).1 ∧
      ((s.withPublisher p1).CreateBooking input token now (a, x1)).2.1
        = ((s.withPublisher p2).CreateBooking input token now (a, x2)).2.1) ∧
    (((s.withPublisher p1).ConfirmBooking token (a, x1)).1
        = ((s.withPublisher p2).ConfirmBooking token (a, x2)).1 ∧
      ((s.withPublisher p1).ConfirmBooking token (a, x1)).2.1
        = ((s.withPublisher p2).ConfirmBooking token (a, x2)).2.1) ∧
    (((s.withPublisher p1).CancelBooking token (a, x1)).1
        = ((s.withPublisher p2).CancelBooking token (a, x2)).1 ∧
      ((s.withPublisher p1).CancelBooking token (a, x1)).2.1
        = ((s.withPublisher p2).CancelBooking token (a, x2)).2.1) := by
  have c1 := withPublisher_CreateBooking s p1 input token now a x1
  have c2 := withPublisher_CreateBooking s p2 input token now a x2
  have f1 := withPublisher_ConfirmBooking s p1 token a x1
  have f2 := withPublisher_ConfirmBooking s p2 token a x2
  have k1 := withPublisher_CancelBooking s p1 token a x1
  have k2 := withPublisher_CancelBooking s p2 token a x2
  exact ⟨⟨c1.1.trans c2.1.symm, c1.2.trans c2.2.symm⟩,
    ⟨f1.1.trans f2.1.symm, f1.2.trans f2.2.symm⟩,
    ⟨k1.1.trans k2.1.symm, k1.2.trans k2.2.symm⟩⟩
/-! ### Sweep correctness -/

theorem World.calmAll_calm {w : World} (h : w.calmAll) (n : Nat) : w.calm n :=
  fun e he => h e (List.mem_of_mem_take he)

theorem World.calmAll_of_faults {w w2 : World} (hf : ∀ e ∈ w2.faults, e ∈ w.faults)
    (h : w.calmAll) : w2.calmAll :=
  fun e he => h e (hf e he)

theorem World.io_faults_mem (w : World) : ∀ e ∈ w.io.2.faults, e ∈ w.faults := by
  intro e he
  exact List.mem_of_mem_tail he

theorem ReleaseSeat_faults (F : Int) (w : World) :
    (∀ e ∈ (PGBookingRepository.ReleaseSeat F w).2.faults, e ∈ w.faults) ∧
    (PGBookingRepository.ReleaseSeat F w).2.dbNow = w.dbNow := by
  unfold PGBookingRepository.ReleaseSeat
  dsimp only
  split
  · exact ⟨World.io_faults_mem w, rfl⟩
  · split
    · exact ⟨World.io_faults_mem w, rfl⟩
    · split
      · exact ⟨fun e he => World.io_faults_mem w e (List.mem_of_mem_tail he), rfl⟩
      · exact ⟨fun e he => World.io_faults_mem w e (List.mem_of_mem_tail he), rfl⟩

theorem KafkaPublish_faults (topic key : String) (ev : BookingEvent) (w : World) :
    ∀ e ∈ (KafkaProducer.Publish topic key ev w).2.faults, e ∈ w.faults := by
  unfold KafkaProducer.Publish
  dsimp only
  split <;> exact World.io_faults_mem w

theorem ReleaseSeatLock_faults (f seat : Int) (w : World) :
    (∀ e ∈ (RedisCache.ReleaseSeatLock f seat w).2.faults, e ∈ w.faults) ∧
    (RedisCache.ReleaseSeatLock f seat w).2.dbNow = w.dbNow := by
  unfold RedisCache.ReleaseSeatLock
  dsimp only
  split <;> exact ⟨World.io_faults_mem w, rfl⟩

theorem publish_faults (bt nt : String) (hold conf : Int) (ev : String) (b : Booking)
    (w : World) :
    (∀ e ∈ ((NewBookingService bt nt hold conf).publish ev b w).2.faults, e ∈ w.faults) ∧
    ((NewBookingService bt nt hold conf).publish ev b w).2.dbNow = w.dbNow := by
  unfold BookingService.publish
  simp only [NewBookingService, KafkaProducer]
  split
  · exact ⟨fun e he => he, rfl⟩
  · have f1 := KafkaPublish_faults bt b.Token (bookingEvent ev b) w
    have d1 := (KafkaPublish_effect bt b.Token (bookingEvent ev b) w).2.2.2
    rcases h1 : KafkaProducer.Publish bt b.Token (bookingEvent ev b) w with ⟨r, w1⟩
    rw [h1] at f1 d1
    simp only at f1 d1
    cases r with
    | some e => exact ⟨f1, d1⟩
    | none =>
      simp only
      split
      · have f2 := KafkaPublish_faults nt b.Token (bookingEvent ev b) w1
        have d2 := (KafkaPublish_effect nt b.Token (bookingEvent ev b) w1).2.2.2
        exact ⟨fun e he => f1 e (f2 e he), d2.trans d1⟩
      · exact ⟨f1, d1⟩

theorem expireCleanup_calm (bt nt : String) (hold conf : Int) (b : Booking) (w : World)
    (h : w.calmAll) :
    ((NewBookingService bt nt hold conf).expireCleanup w b).calmAll ∧
    ((NewBookingService bt nt hold conf).expireCleanup w b).dbNow = w.dbNow ∧
    ((NewBookingService bt nt hold conf).expireCleanup w b).flights
      = updateWhere (onFlight b.FlightID) (giveSeat w.dbNow) w.flights := by
  unfold BookingService.expireCleanup
  have hstore : (NewBookingService bt nt hold conf).bookings = PGBookingRepository := rfl
  simp only [hstore, PGBookingRepository]
  have e1 := ReleaseSeat_faults b.FlightID w
  have e2 := publish_faults bt nt hold conf "booking_expired" b
    (PGBookingRepository.ReleaseSeat b.FlightID w).2
  have e3 := ReleaseSeatLock_faults b.FlightID b.SeatNumber
    ((NewBookingService bt nt hold conf).publish "booking_expired" b
      (PGBookingRepository.ReleaseSeat b.FlightID w).2).2
  have hrl : ∀ x : World, (NewBookingService bt nt hold conf).releaseLock b.FlightID
      b.SeatNumber x = (RedisCache.ReleaseSeatLock b.FlightID b.SeatNumber x).2 := fun _ => rfl
  refine ⟨?_, ?_, ?_⟩
  · rw [hrl]
    exact World.calmAll_of_faults (fun e he => e1.1 e (e2.1 e (e3.1 e he))) h
  · rw [hrl, e3.2, e2.2, e1.2]
  · rw [(releaseLock_frame bt nt hold conf _ _ _).1, (publish_frame bt nt hold conf _ _ _).1,
      ReleaseSeat_flights_calm _ _ (World.calmAll_calm h 1)]

theorem seats_updateWhere_onFlight (F t : Int) (l : List Flight) :
    (updateWhere (onFlight F) (giveSeat t) l).map Flight.seats
      = l.map fun f =>
          (f.ID, f.TotalSeats, f.AvailableSeats + if f.ID = F then 1 else 0) := by
  unfold updateWhere
  rw [List.map_map]
  apply List.map_congr_left
  intro f _
  by_cases h : f.ID = F <;> simp [onFlight, giveSeat, Flight.seats, h]

theorem foldl_expireCleanup_seats (bt nt : String) (hold conf : Int) (rs : List Booking) :
    ∀ w : World, w.calmAll →
      (rs.foldl (NewBookingService bt nt hold conf).expireCleanup w).flights.map Flight.seats
        = w.flights.map fun f =>
            (f.ID, f.TotalSeats, f.AvailableSeats + (rowsOnFlight rs f.ID : Int)) := by
  induction rs with
  | nil =>
    intro w _
    simp [rowsOnFlight, Flight.seats]
  | cons r rs ih =>
    intro w h
    have e := expireCleanup_calm bt nt hold conf r w h
    simp only [List.foldl_cons]
    rw [ih _ e.1, e.2.2]
    unfold updateWhere
    rw [List.map_map]
    apply List.map_congr_left
    intro f _
    simp only [Function.comp, rowsOnFlight, List.countP_cons]
    by_cases hf : f.ID = r.FlightID
    · have hd1 : decide (f.ID = r.FlightID) = true := decide_eq_true hf
      have hd2 : decide (r.FlightID = f.ID) = true := decide_eq_true hf.symm
      simp only [onFlight, hd1, hd2, if_true, giveSeat]
      refine Prod.ext rfl (Prod.ext rfl ?_)
      simp only
      push_cast
      omega
    · have hd1 : decide (f.ID = r.FlightID) = false := decide_eq_false hf
      have hd2 : decide (r.FlightID = f.ID) = false :=
        decide_eq_false fun h2 => hf h2.symm
      simp only [onFlight, hd1, hd2, Bool.false_eq_true, if_false]
      refine Prod.ext rfl (Prod.ext rfl ?_)
      simp only
      push_cast
      omega

theorem expirable_eq_dueBy (t : Int) : expirable t = dueBy t := by
  funext b
  simp [expirable, dueBy, Bool.decide_and]

/-- C15. Sweep correctness over the implemented store, in an environment that fails no
statement.  `ExpirePendingBefore t` returns exactly the rows that are PENDING with
`expires_at ≤ t` (the boundary included), with status EXPIRED, and the stored rows
afterwards are the rows before with exactly those set to EXPIRED and every other row
as it was.  `ExpirePendingBookings t` returns the same rows, and afterwards every
flight has its capacity unchanged and its available count raised by the number of
returned rows that are on that flight. -/
theorem sweep_correctness (bt nt : String) (hold conf : Int) (t : Int) (w : World)
    (hcalm : w.calmAll) :
    PGBookingRepository.ExpirePendingBefore t w =
      (.ok ((w.bookings.filter (dueBy t)).map fun b =>
          { b with Status := BookingStatusExpired, UpdatedAt := w.dbNow }),
        { w.io.2 with
          bookings := w.bookings.map fun b =>
                        if dueBy t b then
                          { b with Status := BookingStatusExpired, UpdatedAt := w.dbNow }
                        else b }) ∧
    ((NewBookingService bt nt hold conf).ExpirePendingBookings t w).1 =
      .ok ((w.bookings.filter (dueBy t)).map fun b =>
          { b with Status := BookingStatusExpired, UpdatedAt := w.dbNow }) ∧
    ((NewBookingService bt nt hold conf).ExpirePendingBookings t w).2.flights.map Flight.seats
      = w.flights.map fun f =>
          (f.ID, f.TotalSeats,
            f.AvailableSeats + (rowsOnFlight (w.bookings.filter (dueBy t)) f.ID : Int)) := by
  have h1 := World.io_fst_of_calm (World.calmAll_calm hcalm 1)
  have hx : PGBookingRepository.ExpirePendingBefore t w =
      (.ok ((w.bookings.filter (dueBy t)).map fun b =>
          { b with Status := BookingStatusExpired, UpdatedAt := w.dbNow }),
        { w.io.2 with
          bookings := w.bookings.map fun b =>
                        if dueBy t b then
                          { b with Status := BookingStatusExpired, UpdatedAt := w.dbNow }
                        else b }) := by
    unfold PGBookingRepository.ExpirePendingBefore
    simp only [h1, World.io_bookings, World.io_dbNow, expirable_eq_dueBy]
    rfl
  refine ⟨hx, ?_, ?_⟩
  · unfold BookingService.ExpirePendingBookings
    have hstore : (NewBookingService bt nt hold conf).bookings = PGBookingRepository := rfl
    simp only [hstore, PGBookingRepository, hx]
  · unfold BookingService.ExpirePendingBookings
    have hstore : (NewBookingService bt nt hold conf).bookings = PGBookingRepository := rfl
    simp only [hstore, PGBookingRepository, hx]
    rw [foldl_expireCleanup_seats]
    · apply List.map_congr_left
      intro f _
      refine Prod.ext rfl (Prod.ext rfl ?_)
      simp only [rowsOnFlight, List.countP_map]
      rfl
    · exact @World.calmAll_of_faults w _ (World.io_faults_mem w) hcalm

/-- Witness of C15: the sweep example at deadline 1000; the rows expiring at 900 and at
1000 are expired, the later PENDING row and the CONFIRMED row stay, and flight 1 gets
two seats back. -/
theorem sweep_correctness_witness :
    (PGBookingRepository.ExpirePendingBefore 1000 sweepWorld).1 =
      .ok [sweepRow 1 1 "a" BookingStatusExpired 900,
           sweepRow 4 4 "d" BookingStatusExpired 1000] ∧
    (PGBookingRepository.ExpirePendingBefore 1000 sweepWorld).2.bookings =
      [sweepRow 1 1 "a" BookingStatusExpired 900,
       sweepRow 2 2 "b" BookingStatusPending 1100,
       sweepRow 3 3 "c" BookingStatusConfirmed 900,
       sweepRow 4 4 "d" BookingStatusExpired 1000] ∧
    (sampleService.ExpirePendingBookings 1000 sweepWorld).1 =
      .ok [sweepRow 1 1 "a" BookingStatusExpired 900,
           sweepRow 4 4 "d" BookingStatusExpired 1000] ∧
    (sampleService.ExpirePendingBookings 1000 sweepWorld).2.flights.map Flight.seats =
      [(1, 5, 3), (2, 5, 5)] :=
  have h := sweep_correctness "bookings" "" 60 600 1000 sweepWorld
    (by simp [World.calmAll, sweepWorld])
  ⟨congrArg Prod.fst h.1, congrArg (fun r => r.2.bookings) h.1, h.2.1, h.2.2⟩

/-! ### The booking state machine -/

theorem StatusStep.rfl_ (a : BookingStatus) : StatusStep a a := Or.inl rfl

theorem token_unique {bk : List Booking} (h : (bk.map Booking.Token).Nodup) {a b : Booking}
    (ha : a ∈ bk) (hb : b ∈ bk) (hab : a.Token = b.Token) : a = b :=
  List.inj_on_of_nodup_map h ha hb hab

/-- Rows obtained by a status update on the hit rows, some rows possibly deleted after. -/
theorem RowsStep_update {bk bk2 : List Booking} (h : RowsOK bk) (p : Booking → Bool)
    (st : BookingStatus) (t : Int)
    (hsub : bk2.Sublist (updateWhere p (setStatus st t) bk))
    (hst : st = BookingStatusConfirmed ∨ st = BookingStatusCancelled ∨
      st = BookingStatusExpired)
    (hp : ∀ b ∈ bk, p b = true → StatusStep b.Status st) :
    RowsOK bk2 ∧ RowsStep bk bk2 ∧ ∀ x ∈ bk2.map Booking.Token, x ∈ bk.map Booking.Token := by
  have hmap : (updateWhere p (setStatus st t) bk).map Booking.Token = bk.map Booking.Token :=
    map_updateWhere p (setStatus st t) Booking.Token (fun _ => rfl) bk
  have hsrc : ∀ b2 ∈ bk2, (b2 ∈ bk ∧ p b2 = false) ∨
      ∃ y ∈ bk, p y = true ∧ b2 = setStatus st t y :=
    fun b2 hb2 => mem_updateWhere_cases _ _ _ _ (hsub.subset hb2)
  refine ⟨⟨?_, ?_⟩, ?_, ?_⟩
  · have := (hsub.map Booking.Token)
    rw [hmap] at this
    exact h.tokens.sublist this
  · intro b hb
    rcases hsrc b hb with ⟨hb1, -⟩ | ⟨y, -, -, rfl⟩
    · exact h.status b hb1
    · right
      exact hst
  · intro b2 hb2
    rcases hsrc b2 hb2 with ⟨hb1, -⟩ | ⟨y, hy, hpy, rfl⟩
    · refine ⟨?_, ?_⟩
      · intro b1 h1 htok
        rw [token_unique h.tokens h1 hb1 htok]
        exact StatusStep.rfl_ _
      · intro hnone
        exact absurd rfl (hnone b2 hb1)
    · refine ⟨?_, ?_⟩
      · intro b1 h1 htok
        have : b1 = y := token_unique h.tokens h1 hy htok
        rw [this]
        exact hp y hy hpy
      · intro hnone
        exact absurd rfl (hnone y hy)
  · intro x hx
    have := (hsub.map Booking.Token).subset hx
    rw [hmap] at this
    exact this

/-- Rows obtained by deleting rows. -/
theorem RowsStep_sublist {bk bk2 : List Booking} (h : RowsOK bk) (hsub : bk2.Sublist bk) :
    RowsOK bk2 ∧ RowsStep bk bk2 ∧ ∀ x ∈ bk2.map Booking.Token, x ∈ bk.map Booking.Token := by
  refine ⟨⟨h.tokens.sublist (hsub.map _), fun b hb => h.status b (hsub.subset hb)⟩, ?_,
    fun x hx => (hsub.map Booking.Token).subset hx⟩
  intro b2 hb2
  have hb1 := hsub.subset hb2
  refine ⟨?_, fun hnone => absurd rfl (hnone b2 hb1)⟩
  intro b1 h1 htok
  rw [token_unique h.tokens h1 hb1 htok]
  exact StatusStep.rfl_ _

/-- Rows obtained by inserting a PENDING row under a fresh token. -/
theorem RowsStep_insert {bk : List Booking} (h : RowsOK bk) (row : Booking)
    (hst : row.Status = BookingStatusPending) (hfresh : row.Token ∉ bk.map Booking.Token) :
    RowsOK (bk ++ [row]) ∧ RowsStep bk (bk ++ [row]) := by
  refine ⟨⟨?_, ?_⟩, ?_⟩
  · rw [List.map_append]
    apply List.Nodup.append h.tokens (by simp)
    intro x hx1 hx2
    simp only [List.map_cons, List.map_nil, List.mem_singleton] at hx2
    subst hx2
    exact hfresh hx1
  · intro b hb
    rcases List.mem_append.mp hb with hb | hb
    · exact h.status b hb
    · simp only [List.mem_singleton] at hb
      subst hb
      exact Or.inl hst
  · intro b2 hb2
    rcases List.mem_append.mp hb2 with hb | hb
    · refine ⟨?_, fun hnone => absurd rfl (hnone b2 hb)⟩
      intro b1 h1 htok
      rw [token_unique h.tokens h1 hb htok]
      exact StatusStep.rfl_ _
    · simp only [List.mem_singleton] at hb
      subst hb
      refine ⟨?_, fun _ => hst⟩
      intro b1 h1 htok
      exact absurd (List.mem_map.mpr ⟨b1, h1, htok⟩) hfresh


theorem ReleaseSeat_rows (F : Int) (w : World) :
    (PGBookingRepository.ReleaseSeat F w).2.bookings.Sublist w.bookings := by
  rcases (ReleaseSeat_effect F w).2.2 with h | h
  · rw [h]
  · rw [h]; exact List.filter_sublist _

theorem expireCleanup_rows (bt nt : String) (hold conf : Int) (b : Booking) (w : World) :
    ((NewBookingService bt nt hold conf).expireCleanup w b).bookings.Sublist w.bookings := by
  unfold BookingService.expireCleanup
  have hstore : (NewBookingService bt nt hold conf).bookings = PGBookingRepository := rfl
  simp only [hstore, PGBookingRepository]
  rw [(releaseLock_frame bt nt hold conf _ _ _).2, (publish_frame bt nt hold conf _ _ _).2.1]
  exact ReleaseSeat_rows b.FlightID w

theorem foldl_expireCleanup_rows (bt nt : String) (hold conf : Int) (rs : List Booking) :
    ∀ w : World,
      (rs.foldl (NewBookingService bt nt hold conf).expireCleanup w).bookings.Sublist
        w.bookings := by
  induction rs with
  | nil => intro w; exact List.Sublist.refl _
  | cons r rs ih =>
    intro w
    simp only [List.foldl_cons]
    exact (ih _).trans (expireCleanup_rows bt nt hold conf r w)

theorem CreateBooking_rows (bt nt : String) (hold conf : Int) (input : CreateBookingInput)
    (token : String) (now : Int) (w : World) :
    ((NewBookingService bt nt hold conf).CreateBooking input token now w).2.bookings
        = w.bookings ∨
    ∃ row : Booking, row.Status = BookingStatusPending ∧ row.Token = token ∧
      ((NewBookingService bt nt hold conf).CreateBooking input token now w).2.bookings
        = w.bookings ++ [row] := by
  unfold BookingService.CreateBooking
  split
  · exact Or.inl rfl
  · split
    · exact Or.inl rfl
    · have hc : (NewBookingService bt nt hold conf).cache = some RedisCache := rfl
      have hh : (NewBookingService bt nt hold conf).holdTTL = hold := rfl
      simp only [hc, hh]
      have e := AcquireSeatLock_effect input.FlightID input.SeatNumber hold w
      have hacq1 : RedisCache.AcquireSeatLock = (RedisCache : Cache World).AcquireSeatLock := rfl
      rw [← hacq1]
      rcases hacq : RedisCache.AcquireSeatLock input.FlightID input.SeatNumber hold w
        with ⟨⟨ok, err⟩, w1⟩
      rw [hacq] at e
      simp only at e
      cases err with
      | some er => cases ok <;> exact Or.inl e.2.1
      | none =>
        cases ok with
        | false => exact Or.inl e.2.1
        | true =>
          simp only
          unfold BookingService.createAfterLock
          have hstore : (NewBookingService bt nt hold conf).bookings.CreatePending
              = PGBookingRepository.CreatePending := rfl
          rw [hstore]
          have ec := CreatePending_effect
            ((NewBookingService bt nt hold conf).newBooking input token now) w1
          rcases hcp : PGBookingRepository.CreatePending
            ((NewBookingService bt nt hold conf).newBooking input token now) w1
            with ⟨⟨left, err2⟩, w2⟩
          rw [hcp] at ec
          simp only at ec
          cases err2 with
          | some er2 =>
            simp only [if_true, hc]
            rcases ec.2 with ⟨-, -, hb⟩ | ⟨hn, -⟩
            · left
              have er := ReleaseSeatLock_effect input.FlightID input.SeatNumber w2
              rw [show (RedisCache : Cache World).ReleaseSeatLock
                  = RedisCache.ReleaseSeatLock from rfl, er.2.1, hb, e.2.1]
            · cases hn
          | none =>
            simp only
            rcases ec.2 with ⟨⟨x, hx⟩, -⟩ | ⟨-, -, -, id, t, hb⟩
            · cases hx
            · right
              refine ⟨{ (NewBookingService bt nt hold conf).newBooking input token now with
                ID := id, Status := BookingStatusPending, CreatedAt := t, UpdatedAt := t },
                rfl, rfl, ?_⟩
              rw [(publish_frame bt nt hold conf _ _ _).2.1, hb, e.2.1]

theorem ConfirmBooking_rows (bt nt : String) (hold conf : Int) (token : String) (w : World) :
    ((NewBookingService bt nt hold conf).ConfirmBooking token w).2.bookings = w.bookings ∨
    ∃ (current : Booking) (t : Int), w.bookings.find? (hasToken token) = some current ∧
      current.Status = BookingStatusPending ∧
      ((NewBookingService bt nt hold conf).ConfirmBooking token w).2.bookings
        = updateWhere (hasToken token) (setStatus BookingStatusConfirmed t) w.bookings := by
  unfold BookingService.ConfirmBooking
  have hstore : (NewBookingService bt nt hold conf).bookings = PGBookingRepository := rfl
  simp only [hstore, PGBookingRepository]
  have eg := GetByToken_effect token w
  rcases hg : PGBookingRepository.GetByToken token w with ⟨r, w1⟩
  rw [hg] at eg
  simp only at eg
  cases r with
  | error e => exact Or.inl eg.2.2.1
  | ok current =>
    simp only
    split
    · exact Or.inl eg.2.2.1
    · rename_i hpend
      have hpend2 : current.Status = BookingStatusPending := by simpa using hpend
      have hfind := eg.2.2.2 current rfl
      have eu := UpdateStatus_effect token BookingStatusConfirmed w1
      rcases hu : PGBookingRepository.UpdateStatus token BookingStatusConfirmed w1 with ⟨r2, w2⟩
      rw [hu] at eu
      simp only at eu
      rcases eu.2.2 with ⟨⟨e, he⟩, hb⟩ | ⟨b0, hb0, hr, hb⟩
      · subst he
        exact Or.inl (hb.trans eg.2.2.1)
      · subst hr
        simp only
        right
        refine ⟨current, w1.dbNow, hfind, hpend2, ?_⟩
        rw [(releaseLock_frame bt nt hold conf _ _ _).2, (publish_frame bt nt hold conf _ _ _).2.1,
          hb, eg.2.2.1]

theorem CancelBooking_rows (bt nt : String) (hold conf : Int) (token : String) (w : World) :
    ((NewBookingService bt nt hold conf).CancelBooking token w).2.bookings = w.bookings ∨
    ∃ (current : Booking) (t : Int), w.bookings.find? (hasToken token) = some current ∧
      ¬ (current.Status = BookingStatusCancelled ∨ current.Status = BookingStatusExpired) ∧
      ((NewBookingService bt nt hold conf).CancelBooking token w).2.bookings.Sublist
        (updateWhere (hasToken token) (setStatus BookingStatusCancelled t) w.bookings) := by
  unfold BookingService.CancelBooking
  have hstore : (NewBookingService bt nt hold conf).bookings = PGBookingRepository := rfl
  simp only [hstore, PGBookingRepository]
  have eg := GetByToken_effect token w
  rcases hg : PGBookingRepository.GetByToken token w with ⟨r, w1⟩
  rw [hg] at eg
  simp only at eg
  cases r with
  | error e => exact Or.inl eg.2.2.1
  | ok current =>
    simp only
    split
    · exact Or.inl eg.2.2.1
    · rename_i hterm
      have hfind := eg.2.2.2 current rfl
      have eu := UpdateStatus_effect token BookingStatusCancelled w1
      rcases hu : PGBookingRepository.UpdateStatus token BookingStatusCancelled w1 with ⟨r2, w2⟩
      rw [hu] at eu
      simp only at eu
      rcases eu.2.2 with ⟨⟨e, he⟩, hb⟩ | ⟨b0, hb0, hr, hb⟩
      · subst he
        exact Or.inl (hb.trans eg.2.2.1)
      · subst hr
        simp only
        right
        refine ⟨current, w1.dbNow, hfind, hterm, ?_⟩
        rw [(releaseLock_frame bt nt hold conf _ _ _).2, (publish_frame bt nt hold conf _ _ _).2.1]
        have := ReleaseSeat_rows (setStatus BookingStatusCancelled w1.dbNow b0).FlightID w2
        rw [hb, eg.2.2.1] at this
        exact this

theorem ExpirePendingBookings_rows (bt nt : String) (hold conf : Int) (now : Int) (w : World) :
    ∃ t : Int,
      ((NewBookingService bt nt hold conf).ExpirePendingBookings now w).2.bookings.Sublist
        (updateWhere (expirable now) (setStatus BookingStatusExpired t) w.bookings) ∨
      ((NewBookingService bt nt hold conf).ExpirePendingBookings now w).2.bookings
        = w.bookings := by
  unfold BookingService.ExpirePendingBookings
  have hstore : (NewBookingService bt nt hold conf).bookings = PGBookingRepository := rfl
  simp only [hstore, PGBookingRepository]
  have e := ExpirePendingBefore_effect now w
  rcases hx : PGBookingRepository.ExpirePendingBefore now w with ⟨r, w1⟩
  rw [hx] at e
  simp only at e
  refine ⟨w.dbNow, ?_⟩
  rcases e.2.2 with ⟨⟨er, he⟩, hb⟩ | ⟨hr, hb⟩
  · subst he
    exact Or.inr hb
  · subst hr
    left
    simp only
    have := foldl_expireCleanup_rows bt nt hold conf
      (returningWhere (expirable now) (setStatus BookingStatusExpired w.dbNow) w.bookings) w1
    rw [hb] at this
    exact this

theorem step_rows (bt nt : String) (hold conf : Int) (op : Op) (w : World)
    (h : RowsOK w.bookings)
    (hfresh : ∀ t, op.newToken = some t → t ∉ w.bookings.map Booking.Token) :
    RowsOK ((NewBookingService bt nt hold conf).step w op).bookings ∧
    RowsStep w.bookings ((NewBookingService bt nt hold conf).step w op).bookings ∧
    ∀ x ∈ ((NewBookingService bt nt hold conf).step w op).bookings.map Booking.Token,
      x ∈ w.bookings.map Booking.Token ∨ op.newToken = some x := by
  have hsame : ∀ bk2 : List Booking, bk2 = w.bookings →
      RowsOK bk2 ∧ RowsStep w.bookings bk2 ∧
        ∀ x ∈ bk2.map Booking.Token, x ∈ w.bookings.map Booking.Token ∨ op.newToken = some x := by
    intro bk2 he
    subst he
    have := RowsStep_sublist h (List.Sublist.refl _)
    exact ⟨this.1, this.2.1, fun x hx => Or.inl hx⟩
  have hone : ∀ (token : String) (current : Booking),
      w.bookings.find? (hasToken token) = some current →
      ∀ b ∈ w.bookings, hasToken token b = true → b = current := by
    intro token current hfind b hb hpb
    have hc1 : current ∈ w.bookings := List.mem_of_find?_eq_some hfind
    have hc2 : hasToken token current = true := List.find?_some hfind
    simp only [hasToken, decide_eq_true_eq] at hpb hc2
    exact token_unique h.tokens hb hc1 (hpb.trans hc2.symm)
  cases op with
  | create input token now =>
    rcases CreateBooking_rows bt nt hold conf input token now w with h1 | ⟨row, hst, htok, h1⟩
    · exact hsame _ h1
    · rw [show ((NewBookingService bt nt hold conf).step w (Op.create input token now)).bookings
        = ((NewBookingService bt nt hold conf).CreateBooking input token now w).2.bookings from rfl]
      rw [h1]
      have := RowsStep_insert h row hst (by rw [htok]; exact hfresh token rfl)
      refine ⟨this.1, this.2, ?_⟩
      intro x hx
      simp only [List.map_append, List.map_cons, List.map_nil, List.mem_append,
        List.mem_singleton] at hx
      rcases hx with hx | hx
      · exact Or.inl hx
      · right
        rw [hx, htok]
        rfl
  | confirm token =>
    rcases ConfirmBooking_rows bt nt hold conf token w with h1 | ⟨current, t, hfind, hpend, h1⟩
    · exact hsame _ h1
    · rw [show ((NewBookingService bt nt hold conf).step w (Op.confirm token)).bookings
        = ((NewBookingService bt nt hold conf).ConfirmBooking token w).2.bookings from rfl]
      rw [h1]
      have := RowsStep_update h (hasToken token) BookingStatusConfirmed t
        (List.Sublist.refl _) (Or.inl rfl) (by
          intro b hb hpb
          rw [hone token current hfind b hb hpb, hpend]
          exact Or.inr (Or.inl ⟨rfl, rfl⟩))
      exact ⟨this.1, this.2.1, fun x hx => Or.inl (this.2.2 x hx)⟩
  | cancel token =>
    rcases CancelBooking_rows bt nt hold conf token w with h1 | ⟨current, t, hfind, hlive, h1⟩
    · exact hsame _ h1
    · rw [show ((NewBookingService bt nt hold conf).step w (Op.cancel token)).bookings
        = ((NewBookingService bt nt hold conf).CancelBooking token w).2.bookings from rfl]
      have := RowsStep_update h (hasToken token) BookingStatusCancelled t h1
        (Or.inr (Or.inl rfl)) (by
          intro b hb hpb
          rw [hone token current hfind b hb hpb]
          have hval := h.status current (List.mem_of_find?_eq_some hfind)
          rcases hval with hv | hv | hv | hv
          · rw [hv]; exact Or.inr (Or.inr (Or.inl ⟨rfl, rfl⟩))
          · rw [hv]; exact Or.inr (Or.inr (Or.inr (Or.inr ⟨rfl, rfl⟩)))
          · exact absurd (Or.inl hv) hlive
          · exact absurd (Or.inr hv) hlive)
      exact ⟨this.1, this.2.1, fun x hx => Or.inl (this.2.2 x hx)⟩
  | expire now =>
    obtain ⟨t, h1 | h1⟩ := ExpirePendingBookings_rows bt nt hold conf now w
    · rw [show ((NewBookingService bt nt hold conf).step w (Op.expire now)).bookings
        = ((NewBookingService bt nt hold conf).ExpirePendingBookings now w).2.bookings from rfl]
      have := RowsStep_update h (expirable now) BookingStatusExpired t h1
        (Or.inr (Or.inr rfl)) (by
          intro b hb hpb
          simp only [expirable, Bool.and_eq_true, decide_eq_true_eq] at hpb
          rw [hpb.1]
          exact Or.inr (Or.inr (Or.inr (Or.inl ⟨rfl, rfl⟩))))
      exact ⟨this.1, this.2.1, fun x hx => Or.inl (this.2.2 x hx)⟩
    · exact hsame _ h1

theorem run_rows (bt nt : String) (hold conf : Int) (ops : List Op) :
    ∀ (w : World), RowsOK w.bookings → (ops.filterMap Op.newToken).Nodup →
      (∀ x ∈ w.bookings.map Booking.Token, x ∉ ops.filterMap Op.newToken) →
      RowsOK ((NewBookingService bt nt hold conf).run w ops).bookings ∧
      ∀ x ∈ ((NewBookingService bt nt hold conf).run w ops).bookings.map Booking.Token,
        x ∈ w.bookings.map Booking.Token ∨ x ∈ ops.filterMap Op.newToken := by
  induction ops with
  | nil => intro w h _ _; exact ⟨h, fun x hx => Or.inl hx⟩
  | cons op ops ih =>
    intro w h hnd hout
    unfold BookingService.run
    simp only [List.foldl_cons]
    have hs := step_rows bt nt hold conf op w h (by
      intro t ht hin
      exact hout t hin (by simp [List.filterMap_cons, ht]))
    cases hop : op.newToken with
    | none =>
      rw [List.filterMap_cons, hop] at hnd hout ⊢
      have hout2 : ∀ x ∈ ((NewBookingService bt nt hold conf).step w op).bookings.map
          Booking.Token, x ∉ ops.filterMap Op.newToken := by
        intro x hx
        rcases hs.2.2 x hx with h1 | h1
        · exact hout x h1
        · rw [hop] at h1; cases h1
      have := ih _ hs.1 hnd hout2
      refine ⟨this.1, fun x hx => ?_⟩
      rcases this.2 x hx with h1 | h1
      · rcases hs.2.2 x h1 with h2 | h2
        · exact Or.inl h2
        · rw [hop] at h2; cases h2
      · exact Or.inr h1
    | some t =>
      rw [List.filterMap_cons, hop] at hnd hout ⊢
      simp only [List.nodup_cons] at hnd
      have hout2 : ∀ x ∈ ((NewBookingService bt nt hold conf).step w op).bookings.map
          Booking.Token, x ∉ ops.filterMap Op.newToken := by
        intro x hx
        rcases hs.2.2 x hx with h1 | h1
        · intro hin
          exact hout x h1 (List.mem_cons_of_mem _ hin)
        · rw [hop] at h1
          cases h1
          exact hnd.1
      have := ih _ hs.1 hnd.2 hout2
      refine ⟨this.1, fun x hx => ?_⟩
      rcases this.2 x hx with h1 | h1
      · rcases hs.2.2 x h1 with h2 | h2
        · exact Or.inl h2
        · rw [hop] at h2
          cases h2
          exact Or.inr (List.mem_cons_self _ _)
      · exact Or.inr (List.mem_cons_of_mem _ h1)

/-- C14. Booking state machine.  Take the engine of `main.go` over the implemented store,
any series of engine operations from a store without bookings, with any pattern of
collaborator failures, the tokens drawn by the `CreateBooking` calls being pairwise
distinct.  Across every operation of the series, a booking that is stored before and
after the operation has either kept its status or moved PENDING→CONFIRMED,
PENDING→CANCELLED, PENDING→EXPIRED or CONFIRMED→CANCELLED, and a booking stored after
but not before the operation is PENDING.  So a CONFIRMED booking is never moved to
EXPIRED and a CANCELLED or EXPIRED booking never changes status. -/
theorem booking_state_machine (bookingTopic notificationsTopic : String)
    (holdTTL confirmationTTL : Int) (w0 : World) (ops : List Op) (op : Op)
    (hempty : w0.bookings = [])
    (htokens : ((ops ++ [op]).filterMap Op.newToken).Nodup) :
    RowsStep
      ((NewBookingService bookingTopic notificationsTopic holdTTL confirmationTTL).run w0
        ops).bookings
      ((NewBookingService bookingTopic notificationsTopic holdTTL confirmationTTL).step
        ((NewBookingService bookingTopic notificationsTopic holdTTL confirmationTTL).run w0 ops)
        op).bookings := by
  rw [List.filterMap_append] at htokens
  have hnd := List.nodup_append.mp htokens
  have h0 : RowsOK w0.bookings := by
    rw [hempty]; exact ⟨by simp, by simp⟩
  have hr := run_rows bookingTopic notificationsTopic holdTTL confirmationTTL ops w0 h0 hnd.1
    (by rw [hempty]; simp)
  refine (step_rows bookingTopic notificationsTopic holdTTL confirmationTTL op _ hr.1 ?_).2.1
  intro t ht hin
  rcases hr.2 t hin with h1 | h1
  · rw [hempty] at h1; simp at h1
  · exact hnd.2.2 h1 (by simp [List.filterMap_cons, ht])

/-- Witness of C14: cancelling a confirmed booking after another booking was created
and swept. -/
theorem booking_state_machine_witness :
    RowsStep
      ((NewBookingService "bookings" "" 60 600).run (sampleWorld 5)
        [Op.create sampleInput "t1" 100, Op.confirm "t1",
         Op.create { sampleInput with SeatNumber := 4 } "t2" 200, Op.expire 1000]).bookings
      ((NewBookingService "bookings" "" 60 600).step
        ((NewBookingService "bookings" "" 60 600).run (sampleWorld 5)
          [Op.create sampleInput "t1" 100, Op.confirm "t1",
           Op.create { sampleInput with SeatNumber := 4 } "t2" 200, Op.expire 1000])
        (Op.cancel "t1")).bookings :=
  booking_state_machine "bookings" "" 60 600 (sampleWorld 5)
    [Op.create sampleInput "t1" 100, Op.confirm "t1",
     Op.create { sampleInput with SeatNumber := 4 } "t2" 200, Op.expire 1000]
    (Op.cancel "t1") rfl (by decide)

/-! ### Keys, failing confirmations, expiry of the hold -/

theorem seatLockKey_ne_flightsKey (f s : Int) : seatLockKey f s ≠ flightsKey := by
  intro h
  have hd := congrArg String.data h
  simp only [seatLockKey, flightsKey, String.data_append] at hd
  simp only [List.cons_append, List.append_assoc] at hd
  have := (List.cons.inj hd).1
  exact absurd this (by decide)

/-- C22. The seat-lock key identifies the (flight, seat) pair: for all flight ids and
seat numbers (any integers, so in particular every `int64` id and every `int` seat),
`seatLockKey f1 s1 = seatLockKey f2 s2` exactly when `f1 = f2` and `s1 = s2`; and no
seat-lock key is the key `"cache:flights"` of the flights cache. -/
theorem seatLockKey_unique (f1 s1 f2 s2 : Int) :
    (seatLockKey f1 s1 = seatLockKey f2 s2 ↔ f1 = f2 ∧ s1 = s2) ∧
    seatLockKey f1 s1 ≠ flightsKey ∧ flightsKey = "cache:flights" :=
  ⟨⟨seatLockKey_inj f1 s1 f2 s2, fun h => by rw [h.1, h.2]⟩,
    seatLockKey_ne_flightsKey f1 s1, rfl⟩

section
variable {σ : Type}

/-- C26. A failing store call in `ConfirmBooking`, with every collaborator call
recorded.  If the lookup `GetByToken` fails, `ConfirmBooking` returns no booking and
the lookup's error as it is, and the lookup is the only collaborator call: no
`UpdateStatus`.  If the lookup returns a PENDING booking and `UpdateStatus` fails,
`ConfirmBooking` returns no booking and that error as it is, and the collaborator
calls are the lookup and the one `UpdateStatus(token, CONFIRMED)`.  In both cases
there is no `ReleaseSeatLock` and no publication. -/
theorem ConfirmBooking_store_failure (s : BookingService σ) (token : String) (w : σ)
    (log : List Call) :
    (∀ (err : Err) (w1 : σ), s.bookings.GetByToken token w = (.error err, w1) →
      s.traced.ConfirmBooking token (w, log) =
        (.error err, (w1, log ++ [Call.GetByToken token]))) ∧
    (∀ (current : Booking) (w1 : σ) (err : Err) (w2 : σ),
      s.bookings.GetByToken token w = (.ok current, w1) →
      current.Status = BookingStatusPending →
      s.bookings.UpdateStatus token BookingStatusConfirmed w1 = (.error err, w2) →
      s.traced.ConfirmBooking token (w, log) =
        (.error err,
          (w2, log ++ [Call.GetByToken token,
                       Call.UpdateStatus token BookingStatusConfirmed]))) := by
  refine ⟨?_, ?_⟩
  · intro err w1 hget
    unfold BookingService.ConfirmBooking
    have h1 : s.traced.bookings.GetByToken token (w, log)
        = (.error err, (w1, log ++ [Call.GetByToken token])) := by
      simp [BookingService.traced, BookingRepository.traced, record, hget]
    simp only [h1]
  · intro current w1 err w2 hget hpend hupd
    unfold BookingService.ConfirmBooking
    have h1 : s.traced.bookings.GetByToken token (w, log)
        = (.ok current, (w1, log ++ [Call.GetByToken token])) := by
      simp [BookingService.traced, BookingRepository.traced, record, hget]
    have h2 : s.traced.bookings.UpdateStatus token BookingStatusConfirmed
          (w1, log ++ [Call.GetByToken token])
        = (.error err, (w2, log ++ [Call.GetByToken token,
            Call.UpdateStatus token BookingStatusConfirmed])) := by
      simp [BookingService.traced, BookingRepository.traced, record, hupd]
    simp only [h1, hpend, ne_eq, not_true_eq_false, if_false, h2]

/-- Witness of C26: an unknown token, and the booking of `bookedWorld` when the
database fails the update. -/
theorem ConfirmBooking_store_failure_witness :
    sampleService.traced.ConfirmBooking "nope" (bookedWorld, []) =
      (.error ErrNoRows, (bookedWorld, [Call.GetByToken "nope"])) ∧
    sampleService.traced.ConfirmBooking "t1"
        ({ bookedWorld with faults := [none, some "db down"] }, []) =
      (.error "db down",
        (bookedWorld, [Call.GetByToken "t1", Call.UpdateStatus "t1" BookingStatusConfirmed])) :=
  ⟨(ConfirmBooking_store_failure sampleService "nope" bookedWorld []).1 ErrNoRows bookedWorld
      (by rfl),
   (ConfirmBooking_store_failure sampleService "t1"
      { bookedWorld with faults := [none, some "db down"] } []).2 bookedRow
      { bookedWorld with faults := [some "db down"] } "db down" bookedWorld
      (by rfl) rfl (by rfl)⟩

theorem PG_keepsExpiresAt : PGBookingRepository.KeepsExpiresAt := by
  intro b w
  simp only [PGBookingRepository, PGBookingRepository.CreatePending]
  repeat' split
  all_goals simp

end


section
variable {σ : Type}

theorem traced_createAfterLock_calls (s : BookingService σ) (input : CreateBookingInput)
    (token : String) (now : Int) (locked : Bool) (w : σ) (log : List Call) :
    ∃ calls : List Call,
      (s.traced.createAfterLock input token now locked (w, log)).2.2
        = log ++ Call.CreatePending (s.newBooking input token now) :: calls ∧
      ∀ c ∈ calls, c.isPublish = true ∨
        c = Call.ReleaseSeatLock input.FlightID input.SeatNumber := by
  unfold BookingService.createAfterLock
  have h1 : s.traced.bookings.CreatePending (s.traced.newBooking input token now) (w, log)
      = ((s.bookings.CreatePending (s.newBooking input token now) w).1,
          ((s.bookings.CreatePending (s.newBooking input token now) w).2,
            log ++ [Call.CreatePending (s.newBooking input token now)])) := by
    simp [BookingService.traced, BookingRepository.traced, record, BookingService.newBooking]
  rw [h1]
  rcases s.bookings.CreatePending (s.newBooking input token now) w with ⟨⟨left, err⟩, w1⟩
  cases err with
  | some e =>
    simp only
    cases locked with
    | false => exact ⟨[], by simp, by simp⟩
    | true =>
      cases hc : s.cache with
      | none =>
        refine ⟨[], ?_, by simp⟩
        simp [BookingService.traced, hc]
      | some c =>
        refine ⟨[Call.ReleaseSeatLock input.FlightID input.SeatNumber], ?_, by simp⟩
        simp [BookingService.traced, hc, Cache.traced, record]
  | none =>
    simp only
    obtain ⟨pubs, hp, he⟩ := traced_publish s "booking_created"
      { left with Status := BookingStatusPending } w1
      (log ++ [Call.CreatePending (s.newBooking input token now)])
    refine ⟨pubs, ?_, fun c hc => Or.inl (hp c hc)⟩
    rw [he]
    simp

theorem traced_CreateBooking_calls (s : BookingService σ) (input : CreateBookingInput)
    (token : String) (now : Int) (w : σ) (log : List Call) :
    ∃ calls : List Call,
      (s.traced.CreateBooking input token now (w, log)).2.2 = log ++ calls ∧
      ∀ c ∈ calls, c.isPublish = true ∨
        c = Call.AcquireSeatLock input.FlightID input.SeatNumber s.holdTTL ∨
        c = Call.CreatePending (s.newBooking input token now) ∨
        c = Call.ReleaseSeatLock input.FlightID input.SeatNumber := by
  have hafter : ∀ (locked : Bool) (x : σ) (l0 pre : List Call),
      l0 = log ++ pre →
      (∀ c ∈ pre, c = Call.AcquireSeatLock input.FlightID input.SeatNumber s.holdTTL) →
      ∃ calls : List Call,
        (s.traced.createAfterLock input token now locked (x, l0)).2.2 = log ++ calls ∧
        ∀ c ∈ calls, c.isPublish = true ∨
          c = Call.AcquireSeatLock input.FlightID input.SeatNumber s.holdTTL ∨
          c = Call.CreatePending (s.newBooking input token now) ∨
          c = Call.ReleaseSeatLock input.FlightID input.SeatNumber := by
    intro locked x l0 pre hl hpre
    obtain ⟨calls, he, hc⟩ := traced_createAfterLock_calls s input token now locked x l0
    refine ⟨pre ++ Call.CreatePending (s.newBooking input token now) :: calls, ?_, ?_⟩
    · rw [he, hl, List.append_assoc]
    · intro c hcm
      rcases List.mem_append.mp hcm with h | h
      · exact Or.inr (Or.inl (hpre c h))
      · rcases List.mem_cons.mp h with h | h
        · exact Or.inr (Or.inr (Or.inl h))
        · rcases hc c h with h2 | h2
          · exact Or.inl h2
          · exact Or.inr (Or.inr (Or.inr h2))
  unfold BookingService.CreateBooking
  split
  · exact ⟨[], by simp, by simp⟩
  · split
    · exact ⟨[], by simp, by simp⟩
    · cases hc : s.cache with
      | none =>
        have : s.traced.cache = none := by simp [BookingService.traced, hc]
        simp only [this]
        exact hafter false w log [] (by simp) (by simp)
      | some c =>
        have : s.traced.cache = some c.traced := by simp [BookingService.traced, hc]
        simp only [this]
        have hacq : c.traced.AcquireSeatLock input.FlightID input.SeatNumber
              s.traced.holdTTL (w, log)
            = ((c.AcquireSeatLock input.FlightID input.SeatNumber s.holdTTL w).1,
                ((c.AcquireSeatLock input.FlightID input.SeatNumber s.holdTTL w).2,
                  log ++ [Call.AcquireSeatLock input.FlightID input.SeatNumber s.holdTTL])) := by
          simp [BookingService.traced, Cache.traced, record]
        rw [hacq]
        rcases c.AcquireSeatLock input.FlightID input.SeatNumber s.holdTTL w
          with ⟨⟨ok, err⟩, w1⟩
        cases err with
        | some e => simp
        | none =>
          cases ok with
          | false => simp
          | true =>
            exact hafter true w1 _ [Call.AcquireSeatLock input.FlightID input.SeatNumber
              s.holdTTL] rfl (by simp)

theorem CreateBooking_result_expiry (s : BookingService σ)
    (hkeep : s.bookings.KeepsExpiresAt) (input : CreateBookingInput) (token : String)
    (now : Int) (w : σ) (b : Booking)
    (h : (s.CreateBooking input token now w).1 = .ok b) :
    b.ExpiresAt = (s.newBooking input token now).ExpiresAt := by
  have hafter : ∀ (locked : Bool) (x : σ),
      (s.createAfterLock input token now locked x).1 = .ok b →
      b.ExpiresAt = (s.newBooking input token now).ExpiresAt := by
    intro locked x hx
    unfold BookingService.createAfterLock at hx
    have hk := hkeep (s.newBooking input token now) x
    rcases hcp : s.bookings.CreatePending (s.newBooking input token now) x
      with ⟨⟨left, err⟩, w1⟩
    rw [hcp] at hx hk
    cases err with
    | some e =>
      simp only at hx
      cases locked with
      | false => simp at hx
      | true =>
        simp only [if_true] at hx
        cases hc : s.cache with
        | none => rw [hc] at hx; cases hx
        | some c => rw [hc] at hx; cases hx
    | none =>
      simp only at hx hk
      cases hx
      exact hk
  unfold BookingService.CreateBooking at h
  split at h
  · cases h
  · split at h
    · cases h
    · cases hc : s.cache with
      | none =>
        rw [hc] at h
        exact hafter false w h
      | some c =>
        rw [hc] at h
        simp only at h
        rcases hacq : c.AcquireSeatLock input.FlightID input.SeatNumber s.holdTTL w
          with ⟨⟨ok, err⟩, w1⟩
        rw [hacq] at h
        cases err with
        | some e => simp at h
        | none =>
          cases ok with
          | false => simp at h
          | true => exact hafter true w1 h

/-- C23. For every engine configuration and every implementation of the collaborators,
`now` being the time `CreateBooking` reads: the record handed to the store, and (the
store leaving `ExpiresAt` as the caller set it, as the implemented store does) the
booking a successful `CreateBooking` returns, have `ExpiresAt = now + confirmationTTL`
when `confirmationTTL` is non-zero and `ExpiresAt = now + holdTTL` when it is zero.
Every `AcquireSeatLock` the call makes is for the input's flight and seat with the
duration `holdTTL`: each collaborator call of `CreateBooking` is that acquisition,
the `CreatePending` of that record, a release of the input's seat lock or a
publication. -/
theorem CreateBooking_expiry (s : BookingService σ) (hkeep : s.bookings.KeepsExpiresAt)
    (input : CreateBookingInput) (token : String) (now : Int) (w : σ) (log : List Call) :
    (s.confirmationTTL ≠ 0 →
      (s.newBooking input token now).ExpiresAt = now + s.confirmationTTL ∧
      ∀ b, (s.CreateBooking input token now w).1 = .ok b →
        b.ExpiresAt = now + s.confirmationTTL) ∧
    (s.confirmationTTL = 0 →
      (s.newBooking input token now).ExpiresAt = now + s.holdTTL ∧
      ∀ b, (s.CreateBooking input token now w).1 = .ok b →
        b.ExpiresAt = now + s.holdTTL) ∧
    ∃ calls : List Call,
      (s.traced.CreateBooking input token now (w, log)).2.2 = log ++ calls ∧
      ∀ c ∈ calls, c.isPublish = true ∨
        c = Call.AcquireSeatLock input.FlightID input.SeatNumber s.holdTTL ∨
        c = Call.CreatePending (s.newBooking input token now) ∨
        c = Call.ReleaseSeatLock input.FlightID input.SeatNumber := by
  refine ⟨?_, ?_, traced_CreateBooking_calls s input token now w log⟩
  · intro hne
    have h0 : (s.newBooking input token now).ExpiresAt = now + s.confirmationTTL := by
      simp [BookingService.newBooking, hne]
    exact ⟨h0, fun b hb => (CreateBooking_result_expiry s hkeep input token now w b hb).trans h0⟩
  · intro hz
    have h0 : (s.newBooking input token now).ExpiresAt = now + s.holdTTL := by
      simp [BookingService.newBooking, hz]
    exact ⟨h0, fun b hb => (CreateBooking_result_expiry s hkeep input token now w b hb).trans h0⟩

/-- Witness of C23: the sample engine (hold 60, confirmation window 600) at time 100,
and the same engine without a confirmation window. -/
theorem CreateBooking_expiry_witness :
    (sampleService.CreateBooking sampleInput "t1" 100 (sampleWorld 5)).1
      = .ok { bookedRow with ExpiresAt := 100 + 600 } ∧
    ({ bookedRow with ExpiresAt := 100 + 600 } : Booking).ExpiresAt = 100 + 600 ∧
    ((NewBookingService "bookings" "" 60 0).CreateBooking sampleInput "t1" 100
        (sampleWorld 5)).1 = .ok { bookedRow with ExpiresAt := 100 + 60 } ∧
    ({ bookedRow with ExpiresAt := 100 + 60 } : Booking).ExpiresAt = 100 + 60 :=
  ⟨by rfl,
   ((CreateBooking_expiry sampleService PG_keepsExpiresAt sampleInput "t1" 100
      (sampleWorld 5) []).1 (by decide)).2 _ (by rfl),
   by rfl,
   ((CreateBooking_expiry (NewBookingService "bookings" "" 60 0) PG_keepsExpiresAt
      sampleInput "t1" 100 (sampleWorld 5) []).2.1 rfl).2 _ (by rfl)⟩

end


/-- C21. The store's `ReleaseSeat(flightID)` over the tables.  Whatever the environment
does, it takes no flight row away, changes no flight row with another id, adds no
booking row and leaves every booking row that is not a CANCELLED row of that flight in
place and unchanged.  If no flight row has the id and the statement reaches the
database, it fails with "flight not found" and both tables are as before.  If a flight
row has the id and the update reaches the database, that flight's available count is
incremented by exactly one whatever its value (capacity is not consulted) and its
`updated_at` is stamped; if the delete reaches the database too, the call succeeds
and the booking rows afterwards are the rows before without the CANCELLED rows of
that flight. -/
theorem ReleaseSeat_contract (flightID : Int) (w : World) :
    ((PGBookingRepository.ReleaseSeat flightID w).2.flights.map Flight.ID
        = w.flights.map Flight.ID ∧
      (PGBookingRepository.ReleaseSeat flightID w).2.flights.filter
          (fun f => !onFlight flightID f)
        = w.flights.filter (fun f => !onFlight flightID f) ∧
      (PGBookingRepository.ReleaseSeat flightID w).2.bookings.Sublist w.bookings ∧
      (PGBookingRepository.ReleaseSeat flightID w).2.bookings.filter
          (fun b => !cancelledOn flightID b)
        = w.bookings.filter (fun b => !cancelledOn flightID b)) ∧
    ((∀ f ∈ w.flights, f.ID ≠ flightID) → w.calm 1 →
      (PGBookingRepository.ReleaseSeat flightID w).1 = some "flight not found" ∧
      (PGBookingRepository.ReleaseSeat flightID w).2.flights = w.flights ∧
      (PGBookingRepository.ReleaseSeat flightID w).2.bookings = w.bookings) ∧
    ((∃ f ∈ w.flights, f.ID = flightID) → w.calm 1 →
      (PGBookingRepository.ReleaseSeat flightID w).2.flights
        = w.flights.map fun f =>
            if f.ID = flightID then
              { f with AvailableSeats := f.AvailableSeats + 1, UpdatedAt := w.dbNow }
            else f) ∧
    ((∃ f ∈ w.flights, f.ID = flightID) → w.calm 2 →
      (PGBookingRepository.ReleaseSeat flightID w).1 = none ∧
      (PGBookingRepository.ReleaseSeat flightID w).2.bookings
        = w.bookings.filter fun b =>
            !(decide (b.FlightID = flightID) && decide (b.Status = BookingStatusCancelled))) := by
  have hkeepID : (updateWhere (onFlight flightID) (giveSeat w.dbNow) w.flights).map Flight.ID
      = w.flights.map Flight.ID :=
    map_updateWhere (onFlight flightID) (giveSeat w.dbNow) Flight.ID (fun _ => rfl) w.flights
  have hother : (updateWhere (onFlight flightID) (giveSeat w.dbNow) w.flights).filter
        (fun f => !onFlight flightID f)
      = w.flights.filter (fun f => !onFlight flightID f) := by
    unfold updateWhere
    induction w.flights with
    | nil => rfl
    | cons f fs ih =>
      by_cases hf : onFlight flightID f = true
      · have hg : onFlight flightID (giveSeat w.dbNow f) = true := by
          simpa [onFlight, giveSeat] using hf
        simp only [List.map_cons, hf, if_true, List.filter_cons, hg, Bool.not_true]
        simpa using ih
      · have hf2 : onFlight flightID f = false := by simpa using hf
        simp only [List.map_cons, hf2, List.filter_cons, Bool.not_false, if_true, ih]
        simp [hf2]
  have he := ReleaseSeat_effect flightID w
  refine ⟨⟨?_, ?_, ReleaseSeat_rows flightID w, ?_⟩, ?_, ?_, ?_⟩
  · rcases he.2.1 with h | h <;> rw [h]
    exact hkeepID
  · rcases he.2.1 with h | h <;> rw [h]
    exact hother
  · rcases he.2.2 with h | h <;> rw [h]
    rw [List.filter_filter]
    simp
  · intro hnone hcalm
    have h1 := World.io_fst_of_calm hcalm
    have hlen : (w.flights.filter (onFlight flightID)).length = 0 := by
      rw [List.length_eq_zero, List.filter_eq_nil_iff]
      intro f hf
      simpa [onFlight] using hnone f hf
    have hup : updateWhere (onFlight flightID) (giveSeat w.dbNow) w.flights = w.flights :=
      updateWhere_none _ _ _ (by
        intro f hf
        simpa [onFlight] using hnone f hf)
    unfold PGBookingRepository.ReleaseSeat
    simp only [h1, World.io_flights, World.io_dbNow, hlen, if_true, hup]
    simp
  · intro _ hcalm
    rw [ReleaseSeat_flights_calm flightID w hcalm, updateWhere_onFlight]
  · intro hsome hcalm
    have h1 := World.io_fst_of_calm (World.calm_mono (by omega : 1 ≤ 2) hcalm)
    have hc2 : w.io.2.calm 1 := World.io_calm hcalm
    have hlen : ¬ (w.flights.filter (onFlight flightID)).length = 0 := by
      obtain ⟨f, hf, hid⟩ := hsome
      have : f ∈ w.flights.filter (onFlight flightID) :=
        List.mem_filter.mpr ⟨hf, by simp [onFlight, hid]⟩
      intro h0
      rw [List.length_eq_zero] at h0
      rw [h0] at this
      exact absurd this (List.not_mem_nil _)
    have h2 : w.io.2.io.1 = none := World.io_fst_of_calm hc2
    unfold PGBookingRepository.ReleaseSeat
    simp only [h1]
    split
    · rename_i h0
      exact absurd h0 hlen
    · split
      · rename_i err heq
        exact absurd (h2.symm.trans heq) (by simp)
      · exact ⟨rfl, rfl⟩

/-- Witness of C21: in the sample world with a cancelled and a confirmed booking on
flight 1, releasing a seat of flight 1 gives 5 of 5 and purges the cancelled row;
releasing a seat of the unknown flight 9 fails and changes nothing. -/
theorem ReleaseSeat_contract_witness :
    (PGBookingRepository.ReleaseSeat 1
        { bookedWorld with
          bookings := [bookedRowAs BookingStatusCancelled,
                       { bookedRowAs BookingStatusConfirmed with Token := "t2" }] }).2.flights
      = [sampleFlight 1 5 5] ∧
    (PGBookingRepository.ReleaseSeat 1
        { bookedWorld with
          bookings := [bookedRowAs BookingStatusCancelled,
                       { bookedRowAs BookingStatusConfirmed with Token := "t2" }] }).2.bookings
      = [{ bookedRowAs BookingStatusConfirmed with Token := "t2" }] ∧
    (PGBookingRepository.ReleaseSeat 9 bookedWorld).1 = some "flight not found" ∧
    (PGBookingRepository.ReleaseSeat 9 bookedWorld).2.flights = bookedWorld.flights ∧
    (PGBookingRepository.ReleaseSeat 9 bookedWorld).2.bookings = bookedWorld.bookings :=
  ⟨(ReleaseSeat_contract 1 _).2.2.1 ⟨sampleFlight 1 5 4, by decide, rfl⟩
      (by unfold World.calm; decide),
   ((ReleaseSeat_contract 1 _).2.2.2 ⟨sampleFlight 1 5 4, by decide, rfl⟩
      (by unfold World.calm; decide)).2,
   (ReleaseSeat_contract 9 bookedWorld).2.1 (by decide) (by unfold World.calm; decide)⟩

/-! ### The flight catalogue -/

section
variable {σ : Type}

theorem traced_listFromRepo (s : FlightService σ) (w : σ) (log : FlightLog) :
    s.traced.listFromRepo (w, log) =
      match s.repo.List w with
      | ((_, some err), w1) => (.error err, (w1, log ++ [FlightCall.List]))
      | ((flights, none), w1) =>
        match s.cache with
        | some c =>
          (.ok flights, ((c.SetFlights flights w1).2,
            log ++ [FlightCall.List, FlightCall.cache (Call.SetFlights flights)]))
        | none => (.ok flights, (w1, log ++ [FlightCall.List])) := by
  unfold FlightService.listFromRepo
  have h1 : s.traced.repo.List (w, log)
      = ((s.repo.List w).1, ((s.repo.List w).2, log ++ [FlightCall.List])) := by
    simp [FlightService.traced, FlightRepository.traced, note]
  rw [h1]
  rcases s.repo.List w with ⟨⟨fl, err⟩, w1⟩
  cases err with
  | some e => rfl
  | none =>
    cases hc : s.cache with
    | none => simp [FlightService.traced, hc]
    | some c => simp [FlightService.traced, hc, Cache.noted, note]

/-- C27. `FlightService.List`, with every collaborator call recorded, for every
implementation of the repository and the cache.  With a cache configured whose
`GetFlights` returns a non-nil list and no error, it returns that list and the lookup
is its only collaborator call: neither the repository nor `SetFlights` is called.  In
every other case (no cache, a miss, a cache error), after the lookup if a cache is
configured, it calls the repository's `List` once: when that fails, the result is no
list and the repository's error, and there is no cache write; when it succeeds, the
result is the repository's list, preceded by exactly one `SetFlights` with that list
when a cache is configured (whose outcome is ignored) and by no cache write
otherwise. -/
theorem FlightService_List_contract (s : FlightService σ) (w : σ) (log : FlightLog) :
    (∀ (c : Cache σ) (cached : Flights) (w1 : σ), s.cache = some c →
      c.GetFlights w = ((some cached, none), w1) →
      s.traced.List (w, log) =
        (.ok cached, (w1, log ++ [FlightCall.cache Call.GetFlights]))) ∧
    (∀ (w1 : σ) (pre : FlightLog),
      ((s.cache = none ∧ w1 = w ∧ pre = []) ∨
        ∃ (c : Cache σ) (cached : Option Flights) (err : Option Err), s.cache = some c ∧
          c.GetFlights w = ((cached, err), w1) ∧ (cached = none ∨ err ≠ none) ∧
          pre = [FlightCall.cache Call.GetFlights]) →
      (∀ (fl : Flights) (err : Err) (w2 : σ), s.repo.List w1 = ((fl, some err), w2) →
        s.traced.List (w, log) = (.error err, (w2, log ++ pre ++ [FlightCall.List]))) ∧
      (∀ (fl : Flights) (w2 : σ), s.repo.List w1 = ((fl, none), w2) →
        (s.cache = none →
          s.traced.List (w, log) = (.ok fl, (w2, log ++ pre ++ [FlightCall.List]))) ∧
        (∀ c : Cache σ, s.cache = some c →
          s.traced.List (w, log) =
            (.ok fl, ((c.SetFlights fl w2).2,
              log ++ pre ++ [FlightCall.List, FlightCall.cache (Call.SetFlights fl)]))))) := by
  refine ⟨?_, ?_⟩
  · intro c cached w1 hc hget
    unfold FlightService.List
    have h1 : s.traced.cache = some c.noted := by simp [FlightService.traced, hc]
    simp only [h1]
    have h2 : c.noted.GetFlights (w, log)
        = ((some cached, none), (w1, log ++ [FlightCall.cache Call.GetFlights])) := by
      simp [Cache.noted, note, hget]
    rw [h2]
  · intro w1 pre hpre
    have hrepo : s.traced.List (w, log) = s.traced.listFromRepo (w1, log ++ pre) := by
      unfold FlightService.List
      rcases hpre with ⟨hc, hw, hp⟩ | ⟨c, cached, err, hc, hget, hmiss, hp⟩
      · have h1 : s.traced.cache = none := by simp [FlightService.traced, hc]
        simp only [h1, hw, hp, List.append_nil]
      · have h1 : s.traced.cache = some c.noted := by simp [FlightService.traced, hc]
        simp only [h1]
        have h2 : c.noted.GetFlights (w, log)
            = ((cached, err), (w1, log ++ [FlightCall.cache Call.GetFlights])) := by
          simp [Cache.noted, note, hget]
        rw [h2, hp]
        cases cached with
        | none => cases err <;> rfl
        | some fl =>
          cases err with
          | some e => rfl
          | none => rcases hmiss with h | h <;> simp at h
    rw [hrepo, traced_listFromRepo]
    refine ⟨?_, ?_⟩
    · intro fl err w2 hl
      rw [hl]
    · intro fl w2 hl
      rw [hl]
      refine ⟨?_, ?_⟩
      · intro hc
        simp only [hc]
      · intro c hc
        simp only [hc, List.append_assoc]

end

/-- Witness of C27, with the stubs of the tests: a cache hit; a cache error followed
by a repository success whose cache write fails; a cache miss followed by a repository
failure. -/
theorem FlightService_List_contract_witness :
    ({ repo := stubFlightRepository [] none,
       cache := some (stubCache (some [sampleFlight 1 5 4]) none none),
       cacheTTL := 60 } : FlightService Unit).traced.List ((), []) =
      (.ok [sampleFlight 1 5 4], ((), [FlightCall.cache Call.GetFlights])) ∧
    ({ repo := stubFlightRepository [sampleFlight 1 5 4] none,
       cache := some (stubCache none (some "redis down") (some "redis down")),
       cacheTTL := 60 } : FlightService Unit).traced.List ((), []) =
      (.ok [sampleFlight 1 5 4],
        ((), [FlightCall.cache Call.GetFlights, FlightCall.List,
              FlightCall.cache (Call.SetFlights [sampleFlight 1 5 4])])) ∧
    ({ repo := stubFlightRepository [] (some "db down"),
       cache := some (stubCache none none none),
       cacheTTL := 60 } : FlightService Unit).traced.List ((), []) =
      (.error "db down", ((), [FlightCall.cache Call.GetFlights, FlightCall.List])) :=
  ⟨(FlightService_List_contract _ () []).1 _ [sampleFlight 1 5 4] () rfl rfl,
   (((FlightService_List_contract
        ({ repo := stubFlightRepository [sampleFlight 1 5 4] none,
           cache := some (stubCache none (some "redis down") (some "redis down")),
           cacheTTL := 60 } : FlightService Unit) () []).2 ()
      [FlightCall.cache Call.GetFlights]
      (Or.inr ⟨_, none, some "redis down", rfl, rfl, Or.inl rfl, rfl⟩)).2
      [sampleFlight 1 5 4] () rfl).2 _ rfl,
   ((FlightService_List_contract
        ({ repo := stubFlightRepository [] (some "db down"),
           cache := some (stubCache none none none),
           cacheTTL := 60 } : FlightService Unit) () []).2 ()
      [FlightCall.cache Call.GetFlights]
      (Or.inr ⟨_, none, none, rfl, rfl, Or.inl rfl, rfl⟩)).1 [] "db down" () rfl⟩

/-! ### Cancellation when the seat return fails -/

theorem find?_updateWhere_token (tok : String) (f : Booking → Booking)
    (hf : ∀ b, (f b).Token = b.Token) (l : List Booking) :
    (updateWhere (hasToken tok) f l).find? (hasToken tok)
      = (l.find? (hasToken tok)).map f := by
  induction l with
  | nil => rfl
  | cons b bs ih =>
    unfold updateWhere at ih ⊢
    simp only [List.map_cons]
    by_cases hb : hasToken tok b = true
    · have hs : hasToken tok (f b) = true := by
        simp only [hasToken, decide_eq_true_eq, hf] at hb ⊢
        exact hb
      rw [if_pos hb, List.find?_cons_of_pos _ hs, List.find?_cons_of_pos _ hb]
      rfl
    · rw [if_neg hb, List.find?_cons_of_neg _ hb, List.find?_cons_of_neg _ hb]
      exact ih

theorem ReleaseSeat_failed (F : Int) (w : World) (e : Err) (h : w.io.1 = some e) :
    PGBookingRepository.ReleaseSeat F w = (some e, w.io.2) := by
  unfold PGBookingRepository.ReleaseSeat
  simp only [h]

theorem CancelBooking_release_failed (bt nt : String) (hold conf : Int) (token : String)
    (w : World) (current : Booking) (e : Err) (rest : List (Option Err))
    (hrow : w.bookings.find? (hasToken token) = some current)
    (hlive : ¬ (current.Status = BookingStatusCancelled ∨ current.Status = BookingStatusExpired))
    (hfaults : w.faults = none :: none :: some e :: rest) :
    ((NewBookingService bt nt hold conf).CancelBooking token w).1
        = .ok (setStatus BookingStatusCancelled w.dbNow current) ∧
    ((NewBookingService bt nt hold conf).CancelBooking token w).2.flights = w.flights ∧
    ((NewBookingService bt nt hold conf).CancelBooking token w).2.bookings
        = updateWhere (hasToken token) (setStatus BookingStatusCancelled w.dbNow) w.bookings := by
  have hc1 : w.calm 1 := by
    unfold World.calm; rw [hfaults]; simp
  have hc2' : w.io.2.calm 1 := by
    unfold World.calm World.io; rw [hfaults]; simp
  have hg : PGBookingRepository.GetByToken token w = (.ok current, w.io.2) := by
    rw [PGBookingRepository.GetByToken_calm token w hc1, hrow]
  obtain ⟨w2, hu, hfl, hbk, hio⟩ : ∃ w2 : World,
      PGBookingRepository.UpdateStatus token BookingStatusCancelled w.io.2
        = (.ok (setStatus BookingStatusCancelled w.dbNow current), w2) ∧
      w2.flights = w.flights ∧
      w2.bookings
        = updateWhere (hasToken token) (setStatus BookingStatusCancelled w.dbNow) w.bookings ∧
      w2.io.1 = some e := by
    have hcalc := PGBookingRepository.UpdateStatus_calm token BookingStatusCancelled w.io.2 hc2'
    rw [World.io_bookings, hrow] at hcalc
    refine ⟨(PGBookingRepository.UpdateStatus token BookingStatusCancelled w.io.2).2,
      ?_, ?_, ?_, ?_⟩
    · rw [hcalc]; rfl
    · rw [hcalc]; rfl
    · rw [hcalc]; rfl
    · rw [hcalc]
      show (w.faults.tail.tail).headD none = some e
      rw [hfaults]; rfl
  unfold BookingService.CancelBooking
  have hstore : (NewBookingService bt nt hold conf).bookings = PGBookingRepository := rfl
  simp only [hstore, PGBookingRepository, hg, hlive, if_false, hu, true_and]
  rw [(releaseLock_frame bt nt hold conf _ _ _).1, (publish_frame bt nt hold conf _ _ _).1,
    (releaseLock_frame bt nt hold conf _ _ _).2, (publish_frame bt nt hold conf _ _ _).2.1,
    ReleaseSeat_failed _ w2 e hio]
  exact ⟨hfl, hbk⟩

section
variable {σ : Type}

/-- C28. `CancelBooking` ignores the outcome of the seat return.  On an engine with a
lock coordinator, a producer and a primary topic configured, over a store whose
`UpdateStatus` returns the row of the token: for a booking that is PENDING or
CONFIRMED and whose `UpdateStatus` succeeds, whatever `ReleaseSeat` returns (an error
included), `CancelBooking` returns the booking with status CANCELLED and a nil error,
and after the `ReleaseSeat` it still sends the `booking_cancelled` event keyed by the
token and still calls `ReleaseSeatLock` on the booking's flight and seat.  Over the
implemented store, when the lookup and the update go through and the seat return is
failed by the database, the row is stored as CANCELLED while the flights table, hence
the flight's available count, is as before the call. -/
theorem CancelBooking_ignores_ReleaseSeat_failure (s : BookingService σ) (c : Cache σ)
    (p : Producer σ) (hc : s.cache = some c) (hp : s.producer = some p)
    (ht : s.bookingTopic ≠ "") (hstore : s.bookings.UpdatesLookedUpRow) (token : String)
    (w w1 w2 w3 : σ) (log : List Call) (current updated : Booking) (outcome : Option Err)
    (hget : s.bookings.GetByToken token w = (.ok current, w1))
    (hlive : current.Status = BookingStatusPending ∨ current.Status = BookingStatusConfirmed)
    (hupd : s.bookings.UpdateStatus token BookingStatusCancelled w1 = (.ok updated, w2))
    (hrel : s.bookings.ReleaseSeat updated.FlightID w2 = (outcome, w3)) :
    (∃ secondary : List Call,
      s.traced.CancelBooking token (w, log) =
        (.ok updated,
          ((c.ReleaseSeatLock updated.FlightID updated.SeatNumber
              (s.publish "booking_cancelled" updated w3).2).2,
            log ++ ([Call.GetByToken token, Call.UpdateStatus token BookingStatusCancelled,
                Call.ReleaseSeat updated.FlightID,
                Call.Publish s.bookingTopic token (bookingEvent "booking_cancelled" updated)]
              ++ secondary
              ++ [Call.ReleaseSeatLock updated.FlightID updated.SeatNumber]))) ∧
      (secondary = [] ∨ secondary =
        [Call.Publish s.notificationsTopic token (bookingEvent "booking_cancelled" updated)])) ∧
    updated.Status = BookingStatusCancelled ∧
    ∀ (bt nt : String) (hold conf : Int) (tok : String) (w0 : World) (row : Booking)
      (e : Err) (rest : List (Option Err)),
      w0.bookings.find? (hasToken tok) = some row →
      (row.Status = BookingStatusPending ∨ row.Status = BookingStatusConfirmed) →
      w0.faults = none :: none :: some e :: rest →
      ((NewBookingService bt nt hold conf).CancelBooking tok w0).1
          = .ok { row with Status := BookingStatusCancelled, UpdatedAt := w0.dbNow } ∧
      ((NewBookingService bt nt hold conf).CancelBooking tok w0).2.flights = w0.flights ∧
      ((NewBookingService bt nt hold conf).CancelBooking tok w0).2.bookings.find?
          (hasToken tok)
        = some { row with Status := BookingStatusCancelled, UpdatedAt := w0.dbNow } := by
  have hnot : ∀ b : Booking,
      (b.Status = BookingStatusPending ∨ b.Status = BookingStatusConfirmed) →
      ¬ (b.Status = BookingStatusCancelled ∨ b.Status = BookingStatusExpired) := by
    intro b hb hcon
    rcases hb with hb | hb <;> rcases hcon with h2 | h2 <;> rw [hb] at h2 <;>
      exact absurd h2 (by decide)
  obtain ⟨htok, -, -, hst⟩ := hstore token BookingStatusCancelled w w1 w2 current updated
    hget hupd
  have hw3 : (s.bookings.ReleaseSeat updated.FlightID w2).2 = w3 := by rw [hrel]
  obtain ⟨secondary, hsec, hshape⟩ :=
    publishCalls_configured s p hp ht "booking_cancelled" updated w3
  rw [htok] at hsec hshape
  refine ⟨⟨secondary, ?_, hshape⟩, hst, ?_⟩
  · rw [traced_CancelBooking_log s token w w1 w2 log current updated hget (hnot current hlive)
      hupd, hw3, hsec]
    simp only [BookingService.releaseLock, BookingService.releaseCalls, hc,
      List.cons_append, List.nil_append, List.append_assoc]
  · intro bt nt hold conf tok w0 row e rest hrow hrl hfaults
    obtain ⟨h1, h2, h3⟩ := CancelBooking_release_failed bt nt hold conf tok w0 row e rest hrow
      (hnot row hrl) hfaults
    refine ⟨h1, h2, ?_⟩
    rw [h3]
    rw [find?_updateWhere_token tok (setStatus BookingStatusCancelled w0.dbNow)
      (fun _ => rfl), hrow]
    rfl

end

/-- Witness of C28: the booking of `bookedWorld` is cancelled while the database fails
the seat return; the result is the CANCELLED booking, the event and the lock release
follow, and flight 1 still has four seats available. -/
theorem CancelBooking_ignores_ReleaseSeat_failure_witness :
    (∃ secondary : List Call,
      sampleService.traced.CancelBooking "t1"
          ({ bookedWorld with faults := [none, none, some "db down"] }, []) =
        (.ok (bookedRowAs BookingStatusCancelled),
          ((RedisCache.ReleaseSeatLock 1 3
              (sampleService.publish "booking_cancelled" (bookedRowAs BookingStatusCancelled)
                { bookedWorld with
                  bookings := [bookedRowAs BookingStatusCancelled] }).2).2,
            [] ++ ([Call.GetByToken "t1", Call.UpdateStatus "t1" BookingStatusCancelled,
                Call.ReleaseSeat 1,
                Call.Publish "bookings" "t1"
                  (bookingEvent "booking_cancelled" (bookedRowAs BookingStatusCancelled))]
              ++ secondary ++ [Call.ReleaseSeatLock 1 3]))) ∧
      (secondary = [] ∨ secondary =
        [Call.Publish "" "t1"
          (bookingEvent "booking_cancelled" (bookedRowAs BookingStatusCancelled))])) ∧
    (sampleService.CancelBooking "t1"
        { bookedWorld with faults := [none, none, some "db down"] }).2.flights
      = [sampleFlight 1 5 4] ∧
    (sampleService.CancelBooking "t1"
        { bookedWorld with faults := [none, none, some "db down"] }).2.bookings.find?
        (hasToken "t1")
      = some (bookedRowAs BookingStatusCancelled) :=
  have h := CancelBooking_ignores_ReleaseSeat_failure sampleService RedisCache KafkaProducer
    rfl rfl (by decide) PG_updatesLookedUpRow "t1"
    { bookedWorld with faults := [none, none, some "db down"] }
    { bookedWorld with faults := [none, some "db down"] }
    { bookedWorld with bookings := [bookedRowAs BookingStatusCancelled],
                       faults := [some "db down"] }
    { bookedWorld with bookings := [bookedRowAs BookingStatusCancelled] } []
    bookedRow (bookedRowAs BookingStatusCancelled) (some "db down")
    (by rfl) (Or.inl rfl) (by rfl) (by rfl)
  ⟨h.1,
   (h.2.2 "bookings" "" 60 600 "t1" { bookedWorld with faults := [none, none, some "db down"] }
      bookedRow "db down" [] (by rfl) (Or.inl rfl) (by rfl)).2.1,
   (h.2.2 "bookings" "" 60 600 "t1" { bookedWorld with faults := [none, none, some "db down"] }
      bookedRow "db down" [] (by rfl) (Or.inl rfl) (by rfl)).2.2⟩

/-! ### Confirmation and the expiry time -/

theorem updateWhere_token_comm (tok : String) (f g : Booking → Booking)
    (hf : ∀ b, (f b).Token = b.Token) (hg : ∀ b, (g b).Token = b.Token)
    (hfg : ∀ b, f (g b) = g (f b)) (l : List Booking) :
    updateWhere (hasToken tok) f (updateWhere (hasToken tok) g l)
      = updateWhere (hasToken tok) g (updateWhere (hasToken tok) f l) := by
  unfold updateWhere
  rw [List.map_map, List.map_map]
  apply List.map_congr_left
  intro b _
  by_cases hb : hasToken tok b = true
  · have h1 : hasToken tok (g b) = true := by
      simp only [hasToken, decide_eq_true_eq, hg] at hb ⊢
      exact hb
    have h2 : hasToken tok (f b) = true := by
      simp only [hasToken, decide_eq_true_eq, hf] at hb ⊢
      exact hb
    simp only [Function.comp, hb, if_true, h1, h2, hfg]
  · have hb2 : hasToken tok b = false := by simpa using hb
    simp [Function.comp, hb2]

theorem GetByToken_withExpiry (tok : String) (e : Int) (w : World) :
    PGBookingRepository.GetByToken tok (withExpiry tok e w)
      = ((PGBookingRepository.GetByToken tok w).1.map fun b => { b with ExpiresAt := e },
         withExpiry tok e (PGBookingRepository.GetByToken tok w).2) := by
  have hf : (withExpiry tok e w).io.2.bookings.find? (hasToken tok)
      = (w.io.2.bookings.find? (hasToken tok)).map fun b => { b with ExpiresAt := e } :=
    find?_updateWhere_token tok (fun b => { b with ExpiresAt := e }) (fun _ => rfl) w.bookings
  have hio : (withExpiry tok e w).io.1 = w.io.1 := rfl
  unfold PGBookingRepository.GetByToken
  simp only [hio, hf]
  cases w.io.1 with
  | some err => rfl
  | none =>
    simp only
    cases w.io.2.bookings.find? (hasToken tok) <;> rfl

theorem UpdateStatus_withExpiry (tok : String) (st : BookingStatus) (e : Int) (w : World) :
    PGBookingRepository.UpdateStatus tok st (withExpiry tok e w)
      = ((PGBookingRepository.UpdateStatus tok st w).1.map fun b => { b with ExpiresAt := e },
         withExpiry tok e (PGBookingRepository.UpdateStatus tok st w).2) := by
  have hf : (returningWhere (hasToken tok) (setStatus st w.dbNow)
        (withExpiry tok e w).io.2.bookings).head?
      = ((returningWhere (hasToken tok) (setStatus st w.dbNow) w.io.2.bookings).head?).map
          fun b => { b with ExpiresAt := e } := by
    unfold returningWhere
    rw [List.head?_map, List.head?_map, head?_filter_eq_find?, head?_filter_eq_find?]
    have := find?_updateWhere_token tok (fun b => { b with ExpiresAt := e }) (fun _ => rfl)
      w.bookings
    show Option.map _ ((updateWhere (hasToken tok) _ w.bookings).find? (hasToken tok)) = _
    rw [this]
    show _ = Option.map _ (Option.map _ (w.bookings.find? (hasToken tok)))
    cases w.bookings.find? (hasToken tok) <;> rfl
  have hb : updateWhere (hasToken tok) (setStatus st w.dbNow) (withExpiry tok e w).io.2.bookings
      = updateWhere (hasToken tok) (fun b => { b with ExpiresAt := e })
          (updateWhere (hasToken tok) (setStatus st w.dbNow) w.io.2.bookings) :=
    updateWhere_token_comm tok (setStatus st w.dbNow) (fun b => { b with ExpiresAt := e })
      (fun _ => rfl) (fun _ => rfl) (fun _ => rfl) w.bookings
  have hio : (withExpiry tok e w).io.1 = w.io.1 := rfl
  have hnow : (withExpiry tok e w).io.2.dbNow = w.dbNow := rfl
  unfold PGBookingRepository.UpdateStatus
  simp only [hio, hnow, World.io_dbNow, hf, hb]
  cases w.io.1 with
  | some err => rfl
  | none =>
    simp only
    cases (returningWhere (hasToken tok) (setStatus st w.dbNow) w.io.2.bookings).head? <;> rfl

theorem ConfirmBooking_withExpiry (bt nt : String) (hold conf : Int) (tok : String) (e : Int)
    (w : World) :
    ((NewBookingService bt nt hold conf).ConfirmBooking tok (withExpiry tok e w)).1
      = ((NewBookingService bt nt hold conf).ConfirmBooking tok w).1.map
          (fun b => { b with ExpiresAt := e }) ∧
    ((NewBookingService bt nt hold conf).ConfirmBooking tok (withExpiry tok e w)).2.bookings
      = updateWhere (hasToken tok) (fun b => { b with ExpiresAt := e })
          ((NewBookingService bt nt hold conf).ConfirmBooking tok w).2.bookings := by
  unfold BookingService.ConfirmBooking
  have hstore : (NewBookingService bt nt hold conf).bookings = PGBookingRepository := rfl
  simp only [hstore, PGBookingRepository, GetByToken_withExpiry]
  rcases PGBookingRepository.GetByToken tok w with ⟨r, w1⟩
  cases r with
  | error err => exact ⟨rfl, rfl⟩
  | ok current =>
    simp only [Except.map]
    by_cases hp : current.Status = BookingStatusPending
    · simp only [hp, ne_eq, not_true_eq_false, if_false, UpdateStatus_withExpiry]
      rcases PGBookingRepository.UpdateStatus tok BookingStatusConfirmed w1 with ⟨r2, w2⟩
      cases r2 with
      | error err => exact ⟨rfl, rfl⟩
      | ok updated =>
        simp only [Except.map]
        refine ⟨trivial, ?_⟩
        rw [(releaseLock_frame bt nt hold conf _ _ _).2,
          (publish_frame bt nt hold conf _ _ _).2.1,
          (releaseLock_frame bt nt hold conf _ _ _).2,
          (publish_frame bt nt hold conf _ _ _).2.1]
        rfl
    · simp only [hp, ne_eq, not_false_eq_true, if_true]
      exact ⟨trivial, rfl⟩

theorem ConfirmBooking_calm (bt nt : String) (hold conf : Int) (token : String)
    (w : World) (current : Booking)
    (hrow : w.bookings.find? (hasToken token) = some current)
    (hpend : current.Status = BookingStatusPending) (hcalm : w.calm 2) :
    ((NewBookingService bt nt hold conf).ConfirmBooking token w).1
      = .ok (setStatus BookingStatusConfirmed w.dbNow current) := by
  have hc1 : w.calm 1 := World.calm_mono (by omega) hcalm
  have hc2 : w.io.2.calm 1 := World.io_calm hcalm
  have hg : PGBookingRepository.GetByToken token w = (.ok current, w.io.2) := by
    rw [PGBookingRepository.GetByToken_calm token w hc1, hrow]
  have hu : (PGBookingRepository.UpdateStatus token BookingStatusConfirmed w.io.2).1
      = .ok (setStatus BookingStatusConfirmed w.dbNow current) := by
    rw [PGBookingRepository.UpdateStatus_calm token BookingStatusConfirmed w.io.2 hc2,
      World.io_bookings, hrow]
    rfl
  unfold BookingService.ConfirmBooking
  have hstore : (NewBookingService bt nt hold conf).bookings = PGBookingRepository := rfl
  simp only [hstore, PGBookingRepository, hg, hpend, ne_eq, not_true_eq_false, if_false]
  rcases hx : PGBookingRepository.UpdateStatus token BookingStatusConfirmed w.io.2
    with ⟨r2, w2⟩
  rw [hx] at hu
  simp only at hu
  subst hu
  rfl

section
variable {σ : Type}

/-- C30. `ConfirmBooking` never consults `ExpiresAt`.  For every implementation of the
collaborators: once the lookup has returned a PENDING booking, whatever its
`ExpiresAt`, the next collaborator call is `UpdateStatus(token, CONFIRMED)`.  Over the
implemented store: a stored PENDING booking is confirmed when the lookup and the
update reach the database, with no condition on its `ExpiresAt` (it may lie before
the database's clock, the sweep not having run yet); and replacing the `ExpiresAt` of
the token's row by any other value changes nothing in the outcome of `ConfirmBooking`
but that value in the returned and in the stored booking. -/
theorem ConfirmBooking_ignores_expiry (s : BookingService σ) (token : String) (w w1 : σ)
    (log : List Call) (current : Booking)
    (hget : s.bookings.GetByToken token w = (.ok current, w1))
    (hpend : current.Status = BookingStatusPending) :
    (∃ rest : List Call,
      (s.traced.ConfirmBooking token (w, log)).2.2
        = log ++ (Call.GetByToken token ::
            Call.UpdateStatus token BookingStatusConfirmed :: rest)) ∧
    (∀ (bt nt : String) (hold conf : Int) (tok : String) (w0 : World) (row : Booking),
      w0.bookings.find? (hasToken tok) = some row →
      row.Status = BookingStatusPending → w0.calm 2 →
      ((NewBookingService bt nt hold conf).ConfirmBooking tok w0).1
        = .ok { row with Status := BookingStatusConfirmed, UpdatedAt := w0.dbNow }) ∧
    (∀ (bt nt : String) (hold conf : Int) (tok : String) (w0 : World) (e : Int),
      ((NewBookingService bt nt hold conf).ConfirmBooking tok (withExpiry tok e w0)).1
        = ((NewBookingService bt nt hold conf).ConfirmBooking tok w0).1.map
            (fun b => { b with ExpiresAt := e }) ∧
      ((NewBookingService bt nt hold conf).ConfirmBooking tok (withExpiry tok e w0)).2.bookings
        = updateWhere (hasToken tok) (fun b => { b with ExpiresAt := e })
            ((NewBookingService bt nt hold conf).ConfirmBooking tok w0).2.bookings ∧
      ((NewBookingService bt nt hold conf).ConfirmBooking tok (withExpiry tok e w0)).2.flights
        = ((NewBookingService bt nt hold conf).ConfirmBooking tok w0).2.flights) := by
  refine ⟨?_, ?_, ?_⟩
  · rcases hupd : s.bookings.UpdateStatus token BookingStatusConfirmed w1 with ⟨r2, w2⟩
    cases r2 with
    | error err =>
      refine ⟨[], ?_⟩
      unfold BookingService.ConfirmBooking
      have h1 : s.traced.bookings.GetByToken token (w, log)
          = (.ok current, (w1, log ++ [Call.GetByToken token])) := by
        simp [BookingService.traced, BookingRepository.traced, record, hget]
      have h2 : s.traced.bookings.UpdateStatus token BookingStatusConfirmed
            (w1, log ++ [Call.GetByToken token])
          = (.error err, (w2, log ++ [Call.GetByToken token,
              Call.UpdateStatus token BookingStatusConfirmed])) := by
        simp [BookingService.traced, BookingRepository.traced, record, hupd]
      simp only [h1, hpend, ne_eq, not_true_eq_false, if_false, h2]
    | ok updated =>
      refine ⟨s.publishCalls "booking_confirmed" updated w2
        ++ s.releaseCalls updated.FlightID updated.SeatNumber, ?_⟩
      rw [traced_ConfirmBooking_log s token w w1 w2 log current updated hget hpend hupd]
      simp
  · intro bt nt hold conf tok w0 row hrow hp hcalm
    exact ConfirmBooking_calm bt nt hold conf tok w0 row hrow hp hcalm
  · intro bt nt hold conf tok w0 e
    have h := ConfirmBooking_withExpiry bt nt hold conf tok e w0
    exact ⟨h.1, h.2, by rw [ConfirmBooking_flights, ConfirmBooking_flights]; rfl⟩

end

/-- Witness of C30: the booking of `bookedWorld` expires at 700; at database time 1000,
not yet swept, it is confirmed all the same, as it is when it expires at 5000. -/
theorem ConfirmBooking_ignores_expiry_witness :
    (∃ rest : List Call,
      (sampleService.traced.ConfirmBooking "t1"
          ({ bookedWorld with dbNow := 1000 }, [])).2.2
        = [] ++ (Call.GetByToken "t1" ::
            Call.UpdateStatus "t1" BookingStatusConfirmed :: rest)) ∧
    bookedRow.ExpiresAt < ({ bookedWorld with dbNow := 1000 } : World).dbNow ∧
    (sampleService.ConfirmBooking "t1" { bookedWorld with dbNow := 1000 }).1
      = .ok { bookedRow with Status := BookingStatusConfirmed, UpdatedAt := 1000 } ∧
    (sampleService.ConfirmBooking "t1"
        (withExpiry "t1" 5000 { bookedWorld with dbNow := 1000 })).1
      = .ok { bookedRow with Status := BookingStatusConfirmed, UpdatedAt := 1000,
                             ExpiresAt := 5000 } :=
  have h := ConfirmBooking_ignores_expiry sampleService "t1"
    { bookedWorld with dbNow := 1000 } { bookedWorld with dbNow := 1000 } [] bookedRow
    (by rfl) rfl
  ⟨h.1, by decide,
   h.2.1 "bookings" "" 60 600 "t1" { bookedWorld with dbNow := 1000 } bookedRow (by rfl) rfl
     (by unfold World.calm; decide),
   ((h.2.2 "bookings" "" 60 600 "t1" { bookedWorld with dbNow := 1000 } 5000).1.trans
     (by rfl))⟩

/-! ### Seat accounting across a booking's life -/

theorem PG_keepsToken (b : Booking) (w : World) :
    (PGBookingRepository.CreatePending b w).1.1.Token = b.Token := by
  simp only [PGBookingRepository.CreatePending]
  repeat' split
  all_goals simp

theorem CreateBooking_ok_effect (bt nt : String) (hold conf : Int) (input : CreateBookingInput)
    (token : String) (now : Int) (w : World) (b : Booking)
    (h : ((NewBookingService bt nt hold conf).CreateBooking input token now w).1 = .ok b) :
    (∃ t : Int,
      ((NewBookingService bt nt hold conf).CreateBooking input token now w).2.flights
        = updateWhere (reservable input.FlightID) (takeSeat t) w.flights) ∧
    (∃ row : Booking, row.Token = token ∧ row.FlightID = input.FlightID ∧
      row.SeatNumber = input.SeatNumber ∧ row.Email = input.Email ∧
      row.Status = BookingStatusPending ∧
      ((NewBookingService bt nt hold conf).CreateBooking input token now w).2.bookings
        = w.bookings ++ [row]) ∧
    b.Token = token ∧ b.FlightID = input.FlightID ∧ b.SeatNumber = input.SeatNumber ∧
    b.Email = input.Email ∧ b.Status = BookingStatusPending := by
  unfold BookingService.CreateBooking at h ⊢
  split at h
  · cases h
  · split at h
    · cases h
    · rename_i hs hm
      simp only [hs, hm, if_false]
      have hc : (NewBookingService bt nt hold conf).cache = some RedisCache := rfl
      have hh : (NewBookingService bt nt hold conf).holdTTL = hold := rfl
      simp only [hc, hh] at h ⊢
      have e := AcquireSeatLock_effect input.FlightID input.SeatNumber hold w
      have hacq1 : RedisCache.AcquireSeatLock = (RedisCache : Cache World).AcquireSeatLock := rfl
      rw [← hacq1] at h ⊢
      rcases hacq : RedisCache.AcquireSeatLock input.FlightID input.SeatNumber hold w
        with ⟨⟨ok, err⟩, w1⟩
      rw [hacq] at e h
      simp only at e
      cases err with
      | some er => simp at h
      | none =>
        cases ok with
        | false => simp at h
        | true =>
          simp only at h ⊢
          unfold BookingService.createAfterLock at h ⊢
          have hstore : (NewBookingService bt nt hold conf).bookings.CreatePending
              = PGBookingRepository.CreatePending := rfl
          rw [hstore] at h ⊢
          have ec := CreatePending_effect
            ((NewBookingService bt nt hold conf).newBooking input token now) w1
          have hk := PG_keepsCallerFields
            ((NewBookingService bt nt hold conf).newBooking input token now) w1
          have hkt := PG_keepsToken
            ((NewBookingService bt nt hold conf).newBooking input token now) w1
          have hk1 : (PGBookingRepository.CreatePending
              ((NewBookingService bt nt hold conf).newBooking input token now) w1).1.1.FlightID
              = input.FlightID := hk.1
          have hk2 : (PGBookingRepository.CreatePending
              ((NewBookingService bt nt hold conf).newBooking input token now) w1).1.1.SeatNumber
              = input.SeatNumber := hk.2.1
          have hk3 : (PGBookingRepository.CreatePending
              ((NewBookingService bt nt hold conf).newBooking input token now) w1).1.1.Email
              = input.Email := hk.2.2
          have hk4 : (PGBookingRepository.CreatePending
              ((NewBookingService bt nt hold conf).newBooking input token now) w1).1.1.Token
              = token := hkt
          rcases hcp : PGBookingRepository.CreatePending
            ((NewBookingService bt nt hold conf).newBooking input token now) w1
            with ⟨⟨left, err2⟩, w2⟩
          rw [hcp] at ec h hk1 hk2 hk3 hk4
          simp only at ec hk1 hk2 hk3 hk4
          cases err2 with
          | some er2 =>
            simp only [if_true, hc] at h
            cases h
          | none =>
            simp only at h ⊢
            have hb : b = { left with Status := BookingStatusPending } := by
              cases h; rfl
            rcases ec.2 with ⟨⟨x, hx⟩, -⟩ | ⟨-, -, hf, id, t, hbk⟩
            · cases hx
            · refine ⟨⟨w1.dbNow, ?_⟩, ⟨{ (NewBookingService bt nt hold conf).newBooking
                  input token now with
                  ID := id, Status := BookingStatusPending, CreatedAt := t, UpdatedAt := t },
                rfl, rfl, rfl, rfl, rfl, ?_⟩, ?_⟩
              · rw [(publish_frame bt nt hold conf _ _ _).1, hf, e.1]
                rfl
              · rw [(publish_frame bt nt hold conf _ _ _).2.1, hbk, e.2.1]
              · subst hb
                exact ⟨hk4, hk1, hk2, hk3, rfl⟩

theorem seats_take_give (F t1 t2 : Int) (l : List Flight)
    (havail : ∀ f ∈ l, f.ID = F → 0 < f.AvailableSeats) :
    (updateWhere (reservable F) (takeSeat t1) l).map Flight.seats
      = l.map (fun f =>
          if f.ID = F then (f.ID, f.TotalSeats, f.AvailableSeats - 1) else f.seats) ∧
    (updateWhere (onFlight F) (giveSeat t2) (updateWhere (reservable F) (takeSeat t1) l)).map
        Flight.seats = l.map Flight.seats := by
  unfold updateWhere
  rw [List.map_map, List.map_map, List.map_map]
  refine ⟨List.map_congr_left ?_, List.map_congr_left ?_⟩
  · intro f hf
    by_cases h : f.ID = F
    · have := havail f hf h
      simp [reservable, takeSeat, Flight.seats, h, this]
    · simp [reservable, Flight.seats, h]
  · intro f hf
    by_cases h : f.ID = F
    · have := havail f hf h
      simp [reservable, takeSeat, onFlight, giveSeat, Flight.seats, h, this]
    · simp [reservable, onFlight, Flight.seats, h]

/-- C25. Seat accounting across a booking's life, on the engine of `main.go` over the
implemented store.  Let every flight row with the requested id have a positive
available count `n`.  A successful `CreateBooking` leaves that flight with `n − 1`
and every other flight as it was.  A subsequent `ConfirmBooking` of that booking,
successful or not, leaves the flights table as it is, so the count stays `n − 1`.  A
`CancelBooking` of another booking that is PENDING on the same flight, whose three
store statements reach the database, then succeeds and leaves every flight with the
capacity and the available count it had before the creation: the flight is back at
`n`. -/
theorem seat_accounting_scenario (bt nt : String) (hold conf : Int) (w0 : World)
    (input : CreateBookingInput) (token : String) (now : Int) (created : Booking)
    (other : String) (row : Booking)
    (havail : ∀ f ∈ w0.flights, f.ID = input.FlightID → 0 < f.AvailableSeats)
    (hcreate : ((NewBookingService bt nt hold conf).CreateBooking input token now w0).1
      = .ok created)
    (hother : ((NewBookingService bt nt hold conf).ConfirmBooking token
      ((NewBookingService bt nt hold conf).CreateBooking input token now w0).2).2.bookings.find?
      (hasToken other) = some row)
    (hpend : row.Status = BookingStatusPending) (hflight : row.FlightID = input.FlightID)
    (hcalm : ((NewBookingService bt nt hold conf).ConfirmBooking token
      ((NewBookingService bt nt hold conf).CreateBooking input token now w0).2).2.calm 3) :
    ((NewBookingService bt nt hold conf).CreateBooking input token now w0).2.flights.map
        Flight.seats
      = w0.flights.map (fun f =>
          if f.ID = input.FlightID then (f.ID, f.TotalSeats, f.AvailableSeats - 1)
          else f.seats) ∧
    ((NewBookingService bt nt hold conf).ConfirmBooking token
        ((NewBookingService bt nt hold conf).CreateBooking input token now w0).2).2.flights
      = ((NewBookingService bt nt hold conf).CreateBooking input token now w0).2.flights ∧
    (∃ cancelled : Booking,
      ((NewBookingService bt nt hold conf).CancelBooking other
        ((NewBookingService bt nt hold conf).ConfirmBooking token
          ((NewBookingService bt nt hold conf).CreateBooking input token now w0).2).2).1
        = .ok cancelled ∧ cancelled.Status = BookingStatusCancelled) ∧
    ((NewBookingService bt nt hold conf).CancelBooking other
        ((NewBookingService bt nt hold conf).ConfirmBooking token
          ((NewBookingService bt nt hold conf).CreateBooking input token now w0).2).2).2.flights.map
        Flight.seats
      = w0.flights.map Flight.seats := by
  obtain ⟨⟨t, hfl⟩, -, -⟩ := CreateBooking_ok_effect bt nt hold conf input token now w0 created
    hcreate
  have hcf := ConfirmBooking_flights bt nt hold conf token
    ((NewBookingService bt nt hold conf).CreateBooking input token now w0).2
  have hlive : ¬ (row.Status = BookingStatusCancelled ∨ row.Status = BookingStatusExpired) := by
    rw [hpend]; decide
  have hcan := CancelBooking_flights_calm bt nt hold conf other _ row hother hlive hcalm
  refine ⟨?_, hcf, ⟨_, hcan.1, rfl⟩, ?_⟩
  · rw [hfl]
    exact (seats_take_give input.FlightID t 0 w0.flights havail).1
  · rw [hcan.2, hcf, hfl, hflight]
    exact (seats_take_give input.FlightID t _ w0.flights havail).2

/-- Witness of C25: flight 1 has 4 of 5 seats left and a PENDING booking `t0` on seat 4;
seat 3 is booked (3 left) and confirmed (3 left), then `t0` is cancelled (4 left). -/
theorem seat_accounting_scenario_witness :
    (sampleService.CreateBooking sampleInput "t1" 100 accountingWorld).2.flights.map
        Flight.seats = [(1, 5, 3)] ∧
    (sampleService.ConfirmBooking "t1"
        (sampleService.CreateBooking sampleInput "t1" 100 accountingWorld).2).1
      = .ok { bookedRow with ID := 2, Status := BookingStatusConfirmed } ∧
    (sampleService.ConfirmBooking "t1"
        (sampleService.CreateBooking sampleInput "t1" 100 accountingWorld).2).2.flights.map
        Flight.seats = [(1, 5, 3)] ∧
    (sampleService.CancelBooking "t0"
        (sampleService.ConfirmBooking "t1"
          (sampleService.CreateBooking sampleInput "t1" 100 accountingWorld).2).2).2.flights.map
        Flight.seats = [(1, 5, 4)] :=
  have h := seat_accounting_scenario "bookings" "" 60 600 accountingWorld sampleInput "t1" 100
    { bookedRow with ID := 2 } "t0"
    { bookedRow with SeatNumber := 4, Token := "t0", ExpiresAt := 650 }
    (by decide) (by rfl) (by rfl) rfl rfl (by unfold World.calm; decide)
  ⟨h.1, by rfl, h.2.1 ▸ h.1, h.2.2.2⟩

/-! ### The seat lock has no owner -/

theorem lockHeld_filter_false (rd : List (String × String)) (k : String)
    (q : String × String → Bool) (h : lockHeld rd k = false) :
    lockHeld (rd.filter q) k = false := by
  unfold lockHeld at h ⊢
  rw [List.any_eq_false] at h ⊢
  intro kv hkv
  exact h kv (List.mem_of_mem_filter hkv)

theorem lockHeld_filter_self (rd : List (String × String)) (k : String) :
    lockHeld (rd.filter fun kv => !(kv.1 == k)) k = false := by
  unfold lockHeld
  rw [List.any_eq_false]
  intro kv hkv
  have := (List.mem_filter.mp hkv).2
  simpa using this

theorem ReleaseSeatLock_released (f seat : Int) (w : World) (h : w.io.1 = none) :
    lockHeld (RedisCache.ReleaseSeatLock f seat w).2.redis (seatLockKey f seat) = false := by
  unfold RedisCache.ReleaseSeatLock
  simp only [h]
  exact lockHeld_filter_self _ _

theorem ReleaseSeatLock_keeps_released (f seat : Int) (w : World) (k : String)
    (h : lockHeld w.redis k = false) :
    lockHeld (RedisCache.ReleaseSeatLock f seat w).2.redis k = false := by
  rcases (ReleaseSeatLock_effect f seat w).2.2 with h1 | h1 <;> rw [h1]
  · exact h
  · exact lockHeld_filter_false _ _ _ h

theorem AcquireSeatLock_free (f seat ttl : Int) (w : World) (hio : w.io.1 = none)
    (h : lockHeld w.redis (seatLockKey f seat) = false) :
    RedisCache.AcquireSeatLock f seat ttl w
      = ((true, none),
          { w.io.2 with redis := w.redis ++ [(seatLockKey f seat, "locked")] }) := by
  unfold RedisCache.AcquireSeatLock
  simp only [hio, World.io_redis, h]
  rfl

theorem expireCleanup_releases (bt nt : String) (hold conf : Int) (b : Booking) (w : World)
    (h : w.calmAll) :
    lockHeld ((NewBookingService bt nt hold conf).expireCleanup w b).redis
      (seatLockKey b.FlightID b.SeatNumber) = false := by
  unfold BookingService.expireCleanup
  have hstore : (NewBookingService bt nt hold conf).bookings = PGBookingRepository := rfl
  simp only [hstore, PGBookingRepository]
  have e1 := ReleaseSeat_faults b.FlightID w
  have e2 := publish_faults bt nt hold conf "booking_expired" b
    (PGBookingRepository.ReleaseSeat b.FlightID w).2
  have hc : ((NewBookingService bt nt hold conf).publish "booking_expired" b
      (PGBookingRepository.ReleaseSeat b.FlightID w).2).2.calmAll :=
    World.calmAll_of_faults (fun e he => e1.1 e (e2.1 e he)) h
  exact ReleaseSeatLock_released _ _ _ (World.io_fst_of_calm (World.calmAll_calm hc 1))

theorem expireCleanup_keeps_released (bt nt : String) (hold conf : Int) (b : Booking)
    (w : World) (k : String) (h : lockHeld w.redis k = false) :
    lockHeld ((NewBookingService bt nt hold conf).expireCleanup w b).redis k = false := by
  unfold BookingService.expireCleanup
  have hstore : (NewBookingService bt nt hold conf).bookings = PGBookingRepository := rfl
  simp only [hstore, PGBookingRepository]
  apply ReleaseSeatLock_keeps_released
  rw [(publish_frame bt nt hold conf _ _ _).2.2, (ReleaseSeat_effect _ _).1]
  exact h

theorem foldl_expireCleanup_releases (bt nt : String) (hold conf : Int) (rs : List Booking)
    (a : Booking) (ha : a ∈ rs) :
    ∀ w : World, w.calmAll →
      lockHeld (rs.foldl (NewBookingService bt nt hold conf).expireCleanup w).redis
        (seatLockKey a.FlightID a.SeatNumber) = false := by
  have hkeep : ∀ (l : List Booking) (w : World) (k : String), lockHeld w.redis k = false →
      lockHeld (l.foldl (NewBookingService bt nt hold conf).expireCleanup w).redis k
        = false := by
    intro l
    induction l with
    | nil => intro w k h; exact h
    | cons r l ih =>
      intro w k h
      simp only [List.foldl_cons]
      exact ih _ k (expireCleanup_keeps_released bt nt hold conf r w k h)
  induction rs with
  | nil => cases ha
  | cons r rs ih =>
    intro w hw
    simp only [List.foldl_cons]
    rcases List.mem_cons.mp ha with h | h
    · subst h
      exact hkeep rs _ _ (expireCleanup_releases bt nt hold conf a w hw)
    · exact ih h _ (expireCleanup_calm bt nt hold conf r w hw).1

theorem ConfirmBooking_releases (bt nt : String) (hold conf : Int) (token : String)
    (w : World) (a : Booking) (hrow : w.bookings.find? (hasToken token) = some a)
    (hpend : a.Status = BookingStatusPending) (hcalm : w.calmAll) :
    lockHeld ((NewBookingService bt nt hold conf).ConfirmBooking token w).2.redis
      (seatLockKey a.FlightID a.SeatNumber) = false := by
  have hc1 : w.calm 1 := World.calmAll_calm hcalm 1
  have hc2 : w.io.2.calmAll := World.calmAll_of_faults (World.io_faults_mem w) hcalm
  have hg : PGBookingRepository.GetByToken token w = (.ok a, w.io.2) := by
    rw [PGBookingRepository.GetByToken_calm token w hc1, hrow]
  obtain ⟨w2, hu, hcw2⟩ : ∃ w2 : World,
      PGBookingRepository.UpdateStatus token BookingStatusConfirmed w.io.2
        = (.ok (setStatus BookingStatusConfirmed w.dbNow a), w2) ∧ w2.calmAll := by
    have hcalc := PGBookingRepository.UpdateStatus_calm token BookingStatusConfirmed w.io.2
      (World.calmAll_calm hc2 1)
    rw [World.io_bookings, hrow] at hcalc
    refine ⟨(PGBookingRepository.UpdateStatus token BookingStatusConfirmed w.io.2).2, ?_, ?_⟩
    · rw [hcalc]; rfl
    · rw [hcalc]
      exact World.calmAll_of_faults (World.io_faults_mem w.io.2) hc2
  unfold BookingService.ConfirmBooking
  have hstore : (NewBookingService bt nt hold conf).bookings = PGBookingRepository := rfl
  simp only [hstore, PGBookingRepository, hg, hpend, ne_eq, not_true_eq_false, if_false, hu]
  have hc3 : ((NewBookingService bt nt hold conf).publish "booking_confirmed"
      (setStatus BookingStatusConfirmed w.dbNow a) w2).2.calmAll :=
    World.calmAll_of_faults (publish_faults bt nt hold conf _ _ w2).1 hcw2
  exact ReleaseSeatLock_released a.FlightID a.SeatNumber _
    (World.io_fst_of_calm (World.calmAll_calm hc3 1))

theorem CancelBooking_releases (bt nt : String) (hold conf : Int) (token : String)
    (w : World) (a : Booking) (hrow : w.bookings.find? (hasToken token) = some a)
    (hlive : ¬ (a.Status = BookingStatusCancelled ∨ a.Status = BookingStatusExpired))
    (hcalm : w.calmAll) :
    lockHeld ((NewBookingService bt nt hold conf).CancelBooking token w).2.redis
      (seatLockKey a.FlightID a.SeatNumber) = false := by
  have hc1 : w.calm 1 := World.calmAll_calm hcalm 1
  have hc2 : w.io.2.calmAll := World.calmAll_of_faults (World.io_faults_mem w) hcalm
  have hg : PGBookingRepository.GetByToken token w = (.ok a, w.io.2) := by
    rw [PGBookingRepository.GetByToken_calm token w hc1, hrow]
  obtain ⟨w2, hu, hcw2⟩ : ∃ w2 : World,
      PGBookingRepository.UpdateStatus token BookingStatusCancelled w.io.2
        = (.ok (setStatus BookingStatusCancelled w.dbNow a), w2) ∧ w2.calmAll := by
    have hcalc := PGBookingRepository.UpdateStatus_calm token BookingStatusCancelled w.io.2
      (World.calmAll_calm hc2 1)
    rw [World.io_bookings, hrow] at hcalc
    refine ⟨(PGBookingRepository.UpdateStatus token BookingStatusCancelled w.io.2).2, ?_, ?_⟩
    · rw [hcalc]; rfl
    · rw [hcalc]
      exact World.calmAll_of_faults (World.io_faults_mem w.io.2) hc2
  unfold BookingService.CancelBooking
  have hstore : (NewBookingService bt nt hold conf).bookings = PGBookingRepository := rfl
  simp only [hstore, PGBookingRepository, hg, hlive, if_false, hu]
  have hc3 : ((NewBookingService bt nt hold conf).publish "booking_cancelled"
      (setStatus BookingStatusCancelled w.dbNow a)
      (PGBookingRepository.ReleaseSeat (setStatus BookingStatusCancelled w.dbNow a).FlightID
        w2).2).2.calmAll :=
    World.calmAll_of_faults
      (fun e he => (ReleaseSeat_faults _ w2).1 e ((publish_faults bt nt hold conf _ _ _).1 e he))
      hcw2
  exact ReleaseSeatLock_released a.FlightID a.SeatNumber _
    (World.io_fst_of_calm (World.calmAll_calm hc3 1))

theorem ExpirePendingBookings_releases (bt nt : String) (hold conf : Int) (now : Int)
    (w : World) (a : Booking) (ha : a ∈ w.bookings)
    (hpend : a.Status = BookingStatusPending) (hdue : a.ExpiresAt ≤ now)
    (hcalm : w.calmAll) :
    lockHeld ((NewBookingService bt nt hold conf).ExpirePendingBookings now w).2.redis
      (seatLockKey a.FlightID a.SeatNumber) = false := by
  have h1 := World.io_fst_of_calm (World.calmAll_calm hcalm 1)
  unfold BookingService.ExpirePendingBookings
  have hstore : (NewBookingService bt nt hold conf).bookings = PGBookingRepository := rfl
  simp only [hstore, PGBookingRepository, PGBookingRepository.ExpirePendingBefore, h1]
  have hmem : setStatus BookingStatusExpired w.io.2.dbNow a
      ∈ returningWhere (expirable now) (setStatus BookingStatusExpired w.io.2.dbNow)
          w.io.2.bookings := by
    unfold returningWhere
    apply List.mem_map_of_mem
    exact List.mem_filter.mpr ⟨ha, by simp [expirable, hpend, hdue]⟩
  exact foldl_expireCleanup_releases bt nt hold conf _ _ hmem _
    (World.calmAll_of_faults (World.io_faults_mem w) hcalm)

/-- C29. The seat lock carries no owner.  What `AcquireSeatLock` stores under the key of
a (flight, seat) is the constant "locked": nothing of the booking it was taken for.
On the engine of `main.go`, in an environment that fails no call and whatever Redis
holds (so also when the lock now held for the seat was acquired by a later
`CreateBooking`, after the first lock lapsed): a `ConfirmBooking` of a PENDING booking
A, a `CancelBooking` of a PENDING or CONFIRMED booking A, and an
`ExpirePendingBookings` that expires A each leave no lock under the key of A's flight
and seat.  And whenever no lock is under the key of a seat, the next
`AcquireSeatLock` for that seat that reaches Redis succeeds. -/
theorem lock_release_without_owner (bt nt : String) (hold conf : Int) (w : World)
    (hcalm : w.calmAll) :
    (∀ f seat ttl : Int, (RedisCache.AcquireSeatLock f seat ttl w).1 = (true, none) →
      (RedisCache.AcquireSeatLock f seat ttl w).2.redis
        = w.redis ++ [(seatLockKey f seat, "locked")]) ∧
    (∀ (token : String) (a : Booking), w.bookings.find? (hasToken token) = some a →
      a.Status = BookingStatusPending →
      lockHeld ((NewBookingService bt nt hold conf).ConfirmBooking token w).2.redis
        (seatLockKey a.FlightID a.SeatNumber) = false) ∧
    (∀ (token : String) (a : Booking), w.bookings.find? (hasToken token) = some a →
      (a.Status = BookingStatusPending ∨ a.Status = BookingStatusConfirmed) →
      lockHeld ((NewBookingService bt nt hold conf).CancelBooking token w).2.redis
        (seatLockKey a.FlightID a.SeatNumber) = false) ∧
    (∀ (now : Int) (a : Booking), a ∈ w.bookings → a.Status = BookingStatusPending →
      a.ExpiresAt ≤ now →
      lockHeld ((NewBookingService bt nt hold conf).ExpirePendingBookings now w).2.redis
        (seatLockKey a.FlightID a.SeatNumber) = false) ∧
    (∀ (f seat ttl : Int) (w2 : World), lockHeld w2.redis (seatLockKey f seat) = false →
      w2.calm 1 → (RedisCache.AcquireSeatLock f seat ttl w2).1 = (true, none)) := by
  refine ⟨?_, ?_, ?_, ?_, ?_⟩
  · intro f seat ttl h
    rcases (AcquireSeatLock_effect f seat ttl w).2.2 with ⟨hne, -⟩ | ⟨-, -, hr⟩
    · exact absurd h hne
    · exact hr
  · intro token a hrow hpend
    exact ConfirmBooking_releases bt nt hold conf token w a hrow hpend hcalm
  · intro token a hrow hlive
    refine CancelBooking_releases bt nt hold conf token w a hrow ?_ hcalm
    intro hcon
    rcases hlive with hb | hb <;> rcases hcon with h2 | h2 <;> rw [hb] at h2 <;>
      exact absurd h2 (by decide)
  · intro now a ha hpend hdue
    exact ExpirePendingBookings_releases bt nt hold conf now w a ha hpend hdue hcalm
  · intro f seat ttl w2 hfree hc
    rw [AcquireSeatLock_free f seat ttl w2 (World.io_fst_of_calm hc) hfree]

/-- Witness of C29: in `relockedWorld` the seat of the PENDING booking `t1` is locked by
the later booking `t2`; confirming `t1` removes that lock, and the seat can be locked
once more. -/
theorem lock_release_without_owner_witness :
    relockedWorld.bookings.map (fun b => (b.Token, b.SeatNumber, b.Status))
      = [("t1", 3, BookingStatusPending), ("t2", 3, BookingStatusPending)] ∧
    lockHeld relockedWorld.redis (seatLockKey 1 3) = true ∧
    lockHeld (sampleService.ConfirmBooking "t1" relockedWorld).2.redis (seatLockKey 1 3)
      = false ∧
    (RedisCache.AcquireSeatLock 1 3 60 (sampleService.ConfirmBooking "t1" relockedWorld).2).1
      = (true, none) :=
  have h := lock_release_without_owner "bookings" "" 60 600 relockedWorld
    (by unfold World.calmAll; decide)
  ⟨by rfl, by rfl, h.2.1 "t1" bookedRow (by rfl) rfl,
   h.2.2.2.2 1 3 60 _ (h.2.1 "t1" bookedRow (by rfl) rfl) (by unfold World.calm; decide)⟩

/-! ### Token round trip -/

theorem ReleaseSeat_keeps (F : Int) (w : World) (r : Booking) (hr : r ∈ w.bookings)
    (hst : r.Status ≠ BookingStatusCancelled) :
    r ∈ (PGBookingRepository.ReleaseSeat F w).2.bookings := by
  rcases (ReleaseSeat_effect F w).2.2 with h | h <;> rw [h]
  · exact hr
  · refine List.mem_filter.mpr ⟨hr, ?_⟩
    have : ¬ r.Status = "CANCELLED" := hst
    simp [cancelledOn, this]

theorem expireCleanup_keeps (bt nt : String) (hold conf : Int) (b : Booking) (w : World)
    (r : Booking) (hr : r ∈ w.bookings) (hst : r.Status ≠ BookingStatusCancelled) :
    r ∈ ((NewBookingService bt nt hold conf).expireCleanup w b).bookings := by
  unfold BookingService.expireCleanup
  have hstore : (NewBookingService bt nt hold conf).bookings = PGBookingRepository := rfl
  simp only [hstore, PGBookingRepository]
  rw [(releaseLock_frame bt nt hold conf _ _ _).2, (publish_frame bt nt hold conf _ _ _).2.1]
  exact ReleaseSeat_keeps b.FlightID w r hr hst

theorem foldl_expireCleanup_keeps (bt nt : String) (hold conf : Int) (rs : List Booking)
    (r : Booking) (hst : r.Status ≠ BookingStatusCancelled) :
    ∀ w : World, r ∈ w.bookings →
      r ∈ (rs.foldl (NewBookingService bt nt hold conf).expireCleanup w).bookings := by
  induction rs with
  | nil => intro w h; exact h
  | cons x xs ih =>
    intro w h
    simp only [List.foldl_cons]
    exact ih _ (expireCleanup_keeps bt nt hold conf x w r h hst)

/-- Rows of a token other than the one an update is aimed at stay as they are. -/
theorem mem_updateWhere_other (tok : String) (f : Booking → Booking) (l : List Booking)
    (r : Booking) (hr : r ∈ l) (hne : r.Token ≠ tok) :
    r ∈ updateWhere (hasToken tok) f l := by
  unfold updateWhere
  refine List.mem_map.mpr ⟨r, hr, ?_⟩
  have : hasToken tok r = false := by simp [hasToken, hne]
  simp [this]

theorem mem_updateWhere_image {α : Type} (p : α → Bool) (f : α → α) (l : List α) (r : α)
    (hr : r ∈ l) : r ∈ updateWhere p f l ∨ f r ∈ updateWhere p f l := by
  unfold updateWhere
  by_cases h : p r = true
  · exact Or.inr (List.mem_map.mpr ⟨r, hr, by simp [h]⟩)
  · exact Or.inl (List.mem_map.mpr ⟨r, hr, by simp [h]⟩)

theorem CancelBooking_keeps (bt nt : String) (hold conf : Int) (token : String) (w : World)
    (r : Booking) (hr : r ∈ w.bookings) (hne : r.Token ≠ token)
    (hst : r.Status ≠ BookingStatusCancelled) :
    r ∈ ((NewBookingService bt nt hold conf).CancelBooking token w).2.bookings := by
  unfold BookingService.CancelBooking
  have hstore : (NewBookingService bt nt hold conf).bookings = PGBookingRepository := rfl
  simp only [hstore, PGBookingRepository]
  have eg := GetByToken_effect token w
  rcases hg : PGBookingRepository.GetByToken token w with ⟨res, w1⟩
  rw [hg] at eg
  simp only at eg
  have hr1 : r ∈ w1.bookings := by rw [eg.2.2.1]; exact hr
  cases res with
  | error e => exact hr1
  | ok current =>
    simp only
    split
    · exact hr1
    · have eu := UpdateStatus_effect token BookingStatusCancelled w1
      rcases hu : PGBookingRepository.UpdateStatus token BookingStatusCancelled w1 with ⟨r2, w2⟩
      rw [hu] at eu
      simp only at eu
      have hr2 : r ∈ w2.bookings := by
        rcases eu.2.2 with ⟨-, hb⟩ | ⟨b0, -, -, hb⟩ <;> rw [hb]
        · exact hr1
        · exact mem_updateWhere_other token _ _ r hr1 hne
      cases r2 with
      | error e => exact hr2
      | ok updated =>
        simp only
        rw [(releaseLock_frame bt nt hold conf _ _ _).2,
          (publish_frame bt nt hold conf _ _ _).2.1]
        exact ReleaseSeat_keeps _ w2 r hr2 hst

theorem ExpirePendingBookings_keeps (bt nt : String) (hold conf : Int) (now : Int) (w : World)
    (r : Booking) (hr : r ∈ w.bookings) (hst : r.Status ≠ BookingStatusCancelled) :
    ∃ r2 ∈ ((NewBookingService bt nt hold conf).ExpirePendingBookings now w).2.bookings,
      r2.Token = r.Token ∧ r2.Status ≠ BookingStatusCancelled := by
  unfold BookingService.ExpirePendingBookings
  have hstore : (NewBookingService bt nt hold conf).bookings = PGBookingRepository := rfl
  simp only [hstore, PGBookingRepository]
  have e := ExpirePendingBefore_effect now w
  rcases hx : PGBookingRepository.ExpirePendingBefore now w with ⟨res, w1⟩
  rw [hx] at e
  simp only at e
  rcases e.2.2 with ⟨⟨er, he⟩, hb⟩ | ⟨hres, hb⟩
  · subst he
    exact ⟨r, by rw [hb]; exact hr, rfl, hst⟩
  · subst hres
    simp only
    rcases mem_updateWhere_image (expirable now) (setStatus BookingStatusExpired w.dbNow)
      w.bookings r hr with h | h
    · exact ⟨r, foldl_expireCleanup_keeps bt nt hold conf _ r hst w1 (by rw [hb]; exact h),
        rfl, hst⟩
    · have hx2 : (setStatus BookingStatusExpired w.dbNow r).Status ≠ BookingStatusCancelled := by
        show BookingStatusExpired ≠ BookingStatusCancelled
        decide
      exact ⟨setStatus BookingStatusExpired w.dbNow r,
        foldl_expireCleanup_keeps bt nt hold conf _ (setStatus BookingStatusExpired w.dbNow r)
          hx2 w1 (by rw [hb]; exact h), rfl, hx2⟩

theorem find?_hasToken_mem {tok : String} {l : List Booking} {b : Booking}
    (h : l.find? (hasToken tok) = some b) : b ∈ l ∧ b.Token = tok := by
  refine ⟨List.mem_of_find?_eq_some h, ?_⟩
  have := List.find?_some h
  simpa [hasToken] using this

theorem identity_of_update (tok : String) (ident : Int × Int × String) (l l2 : List Booking)
    (p : Booking → Bool) (st : BookingStatus) (t : Int)
    (h : ∀ r ∈ l, r.Token = tok → r.identity = ident)
    (hsub : l2.Sublist (updateWhere p (setStatus st t) l)) :
    ∀ r ∈ l2, r.Token = tok → r.identity = ident := by
  intro r hr htok
  rcases mem_updateWhere p (setStatus st t) l r (hsub.subset hr) with h1 | ⟨y, hy, -, rfl⟩
  · exact h r h1 htok
  · exact h y hy htok

theorem GetByToken_result_row (token : String) (w : World) (r : Booking)
    (h : (PGBookingRepository.GetByToken token w).1 = .ok r) :
    r ∈ w.bookings ∧ r.Token = token :=
  find?_hasToken_mem ((GetByToken_effect token w).2.2.2 r h)

theorem ConfirmBooking_result_row (bt nt : String) (hold conf : Int) (token : String)
    (w : World) (r : Booking)
    (h : ((NewBookingService bt nt hold conf).ConfirmBooking token w).1 = .ok r) :
    ∃ b0 ∈ w.bookings, b0.Token = token ∧ r.Token = token ∧ r.identity = b0.identity := by
  unfold BookingService.ConfirmBooking at h
  have hstore : (NewBookingService bt nt hold conf).bookings = PGBookingRepository := rfl
  simp only [hstore, PGBookingRepository] at h
  have eg := GetByToken_effect token w
  rcases hg : PGBookingRepository.GetByToken token w with ⟨res, w1⟩
  rw [hg] at eg h
  simp only at eg
  cases res with
  | error e => simp at h
  | ok current =>
    simp only at h
    split at h
    · simp at h
    · have eu := UpdateStatus_effect token BookingStatusConfirmed w1
      rcases hu : PGBookingRepository.UpdateStatus token BookingStatusConfirmed w1 with ⟨r2, w2⟩
      rw [hu] at eu h
      simp only at eu
      rcases eu.2.2 with ⟨⟨e, he⟩, -⟩ | ⟨b0, hb0, hr, -⟩
      · subst he; simp at h
      · subst hr
        simp only at h
        cases h
        rw [eg.2.2.1] at hb0
        obtain ⟨hm, ht⟩ := find?_hasToken_mem hb0
        exact ⟨b0, hm, ht, ht, rfl⟩

theorem CancelBooking_result_row (bt nt : String) (hold conf : Int) (token : String)
    (w : World) (r : Booking)
    (h : ((NewBookingService bt nt hold conf).CancelBooking token w).1 = .ok r) :
    ∃ b0 ∈ w.bookings, b0.Token = token ∧ r.Token = token ∧ r.identity = b0.identity := by
  unfold BookingService.CancelBooking at h
  have hstore : (NewBookingService bt nt hold conf).bookings = PGBookingRepository := rfl
  simp only [hstore, PGBookingRepository] at h
  have eg := GetByToken_effect token w
  rcases hg : PGBookingRepository.GetByToken token w with ⟨res, w1⟩
  rw [hg] at eg h
  simp only at eg
  cases res with
  | error e => simp at h
  | ok current =>
    simp only at h
    obtain ⟨hcm, hct⟩ := find?_hasToken_mem (eg.2.2.2 current rfl)
    split at h
    · cases h
      exact ⟨r, hcm, hct, hct, rfl⟩
    · have eu := UpdateStatus_effect token BookingStatusCancelled w1
      rcases hu : PGBookingRepository.UpdateStatus token BookingStatusCancelled w1 with ⟨r2, w2⟩
      rw [hu] at eu h
      simp only at eu
      rcases eu.2.2 with ⟨⟨e, he⟩, -⟩ | ⟨b0, hb0, hr, -⟩
      · subst he; simp at h
      · subst hr
        simp only at h
        cases h
        rw [eg.2.2.1] at hb0
        obtain ⟨hm, ht⟩ := find?_hasToken_mem hb0
        exact ⟨b0, hm, ht, ht, rfl⟩

theorem step_identity (bt nt : String) (hold conf : Int) (tok : String)
    (ident : Int × Int × String) (op : Op) (w : World) (hnew : op.newToken ≠ some tok)
    (h : ∀ r ∈ w.bookings, r.Token = tok → r.identity = ident) :
    ∀ r ∈ ((NewBookingService bt nt hold conf).step w op).bookings,
      r.Token = tok → r.identity = ident := by
  cases op with
  | create input token now =>
    rw [show ((NewBookingService bt nt hold conf).step w (Op.create input token now)).bookings
        = ((NewBookingService bt nt hold conf).CreateBooking input token now w).2.bookings
        from rfl]
    rcases CreateBooking_rows bt nt hold conf input token now w with h1 | ⟨row, -, htok, h1⟩
    · rw [h1]; exact h
    · rw [h1]
      intro r hr hrt
      rcases List.mem_append.mp hr with hr | hr
      · exact h r hr hrt
      · rw [List.mem_singleton] at hr
        subst hr
        exact absurd (by rw [← htok, hrt]; rfl :
          Op.newToken (Op.create input token now) = some tok) hnew
  | confirm token =>
    rw [show ((NewBookingService bt nt hold conf).step w (Op.confirm token)).bookings
        = ((NewBookingService bt nt hold conf).ConfirmBooking token w).2.bookings from rfl]
    rcases ConfirmBooking_rows bt nt hold conf token w with h1 | ⟨_, t, -, -, h1⟩
    · rw [h1]; exact h
    · rw [h1]
      exact identity_of_update tok ident _ _ _ _ t h (List.Sublist.refl _)
  | cancel token =>
    rw [show ((NewBookingService bt nt hold conf).step w (Op.cancel token)).bookings
        = ((NewBookingService bt nt hold conf).CancelBooking token w).2.bookings from rfl]
    rcases CancelBooking_rows bt nt hold conf token w with h1 | ⟨_, t, -, -, h1⟩
    · rw [h1]; exact h
    · exact identity_of_update tok ident _ _ _ _ t h h1
  | expire now =>
    rw [show ((NewBookingService bt nt hold conf).step w (Op.expire now)).bookings
        = ((NewBookingService bt nt hold conf).ExpirePendingBookings now w).2.bookings
        from rfl]
    obtain ⟨t, h1 | h1⟩ := ExpirePendingBookings_rows bt nt hold conf now w
    · exact identity_of_update tok ident _ _ _ _ t h h1
    · rw [h1]; exact h

theorem step_present (bt nt : String) (hold conf : Int) (tok : String) (op : Op) (w : World)
    (hop : op ≠ Op.cancel tok)
    (h : ∃ r ∈ w.bookings, r.Token = tok ∧ r.Status ≠ BookingStatusCancelled) :
    ∃ r ∈ ((NewBookingService bt nt hold conf).step w op).bookings,
      r.Token = tok ∧ r.Status ≠ BookingStatusCancelled := by
  obtain ⟨r, hr, htok, hst⟩ := h
  cases op with
  | create input token now =>
    rw [show ((NewBookingService bt nt hold conf).step w (Op.create input token now)).bookings
        = ((NewBookingService bt nt hold conf).CreateBooking input token now w).2.bookings
        from rfl]
    rcases CreateBooking_rows bt nt hold conf input token now w with h1 | ⟨row, -, -, h1⟩
    · rw [h1]; exact ⟨r, hr, htok, hst⟩
    · rw [h1]; exact ⟨r, List.mem_append_left _ hr, htok, hst⟩
  | confirm token =>
    rw [show ((NewBookingService bt nt hold conf).step w (Op.confirm token)).bookings
        = ((NewBookingService bt nt hold conf).ConfirmBooking token w).2.bookings from rfl]
    rcases ConfirmBooking_rows bt nt hold conf token w with h1 | ⟨_, t, -, -, h1⟩
    · rw [h1]; exact ⟨r, hr, htok, hst⟩
    · rw [h1]
      rcases mem_updateWhere_image (hasToken token) (setStatus BookingStatusConfirmed t)
        w.bookings r hr with h2 | h2
      · exact ⟨r, h2, htok, hst⟩
      · exact ⟨_, h2, htok, by
          show BookingStatusConfirmed ≠ BookingStatusCancelled
          decide⟩
  | cancel token =>
    have hne : r.Token ≠ token := by
      intro he
      exact hop (by rw [← he, htok])
    exact ⟨r, CancelBooking_keeps bt nt hold conf token w r hr hne hst, htok, hst⟩
  | expire now =>
    obtain ⟨r2, hr2, ht2, hs2⟩ := ExpirePendingBookings_keeps bt nt hold conf now w r hr hst
    exact ⟨r2, hr2, ht2.trans htok, hs2⟩

theorem run_round_trip (bt nt : String) (hold conf : Int) (tok : String)
    (ident : Int × Int × String) (ops : List Op) :
    ∀ w : World, (∀ r ∈ w.bookings, r.Token = tok → r.identity = ident) →
      (∃ r ∈ w.bookings, r.Token = tok ∧ r.Status ≠ BookingStatusCancelled) →
      (∀ op ∈ ops, op.newToken ≠ some tok) →
      (∀ r ∈ ((NewBookingService bt nt hold conf).run w ops).bookings,
        r.Token = tok → r.identity = ident) ∧
      ((∀ op ∈ ops, op ≠ Op.cancel tok) →
        ∃ r ∈ ((NewBookingService bt nt hold conf).run w ops).bookings,
          r.Token = tok ∧ r.Status ≠ BookingStatusCancelled) := by
  have hid : ∀ (ops : List Op) (w : World),
      (∀ r ∈ w.bookings, r.Token = tok → r.identity = ident) →
      (∀ op ∈ ops, op.newToken ≠ some tok) →
      ∀ r ∈ ((NewBookingService bt nt hold conf).run w ops).bookings,
        r.Token = tok → r.identity = ident := by
    intro ops
    induction ops with
    | nil => intro w h _; exact h
    | cons op ops ih =>
      intro w h hnew
      unfold BookingService.run
      simp only [List.foldl_cons]
      exact ih _ (step_identity bt nt hold conf tok ident op w
        (hnew op (List.mem_cons_self _ _)) h)
        (fun o ho => hnew o (List.mem_cons_of_mem _ ho))
  have hpres : ∀ (ops : List Op) (w : World),
      (∃ r ∈ w.bookings, r.Token = tok ∧ r.Status ≠ BookingStatusCancelled) →
      (∀ op ∈ ops, op ≠ Op.cancel tok) →
      ∃ r ∈ ((NewBookingService bt nt hold conf).run w ops).bookings,
        r.Token = tok ∧ r.Status ≠ BookingStatusCancelled := by
    intro ops
    induction ops with
    | nil => intro w h _; exact h
    | cons op ops ih =>
      intro w h hop
      unfold BookingService.run
      simp only [List.foldl_cons]
      exact ih _ (step_present bt nt hold conf tok op w (hop op (List.mem_cons_self _ _)) h)
        (fun o ho => hop o (List.mem_cons_of_mem _ ho))
  intro w h1 h2 hnew
  exact ⟨hid ops w h1 hnew, hpres ops w h2⟩


theorem GetByToken_resolves (token : String) (w : World) (r0 : Booking) (hr : r0 ∈ w.bookings)
    (htok : r0.Token = token) (hcalm : w.calm 1) :
    ∃ r, (PGBookingRepository.GetByToken token w).1 = .ok r := by
  rw [PGBookingRepository.GetByToken_calm token w hcalm]
  cases hf : w.bookings.find? (hasToken token) with
  | some b => exact ⟨b, rfl⟩
  | none =>
    have := List.find?_eq_none.mp hf r0 hr
    simp [hasToken, htok] at this

/-- C24. Token round trip, on the engine of `main.go` over the implemented store, for
every pattern of collaborator failures.  Let a `CreateBooking` that drew a token not
yet stored succeed and return `b`, and let any series of engine operations on any
tokens follow, whose `CreateBooking` calls draw other tokens.  Then `b` carries the
token and the flight, seat and contact of the request, and in the state reached:
every stored row of the token has the flight, seat and contact of `b`; so has every
record a lookup of the token returns, and every booking `ConfirmBooking` or
`CancelBooking` returns for the token; whenever a row of the token is stored (in
particular while the booking is PENDING or CONFIRMED) a lookup that reaches the
database succeeds; and a row of the token is stored for as long as no
`CancelBooking` was called on it. -/
theorem token_round_trip (bt nt : String) (hold conf : Int) (w0 : World)
    (input : CreateBookingInput) (token : String) (now : Int) (b : Booking) (ops : List Op)
    (hfresh : token ∉ w0.bookings.map Booking.Token)
    (hnew : ∀ op ∈ ops, op.newToken ≠ some token)
    (hcreate : ((NewBookingService bt nt hold conf).CreateBooking input token now w0).1
      = .ok b) :
    b.Token = token ∧ b.identity = (input.FlightID, input.SeatNumber, input.Email) ∧
    (∀ r ∈ ((NewBookingService bt nt hold conf).run
        ((NewBookingService bt nt hold conf).CreateBooking input token now w0).2 ops).bookings,
      r.Token = token → r.identity = b.identity) ∧
    (∀ r, (PGBookingRepository.GetByToken token ((NewBookingService bt nt hold conf).run
        ((NewBookingService bt nt hold conf).CreateBooking input token now w0).2 ops)).1
      = .ok r → r.identity = b.identity) ∧
    (∀ r, ((NewBookingService bt nt hold conf).ConfirmBooking token
        ((NewBookingService bt nt hold conf).run
          ((NewBookingService bt nt hold conf).CreateBooking input token now w0).2 ops)).1
      = .ok r → r.identity = b.identity) ∧
    (∀ r, ((NewBookingService bt nt hold conf).CancelBooking token
        ((NewBookingService bt nt hold conf).run
          ((NewBookingService bt nt hold conf).CreateBooking input token now w0).2 ops)).1
      = .ok r → r.identity = b.identity) ∧
    (∀ r0 ∈ ((NewBookingService bt nt hold conf).run
        ((NewBookingService bt nt hold conf).CreateBooking input token now w0).2 ops).bookings,
      r0.Token = token →
      ((NewBookingService bt nt hold conf).run
        ((NewBookingService bt nt hold conf).CreateBooking input token now w0).2 ops).calm 1 →
      ∃ r, (PGBookingRepository.GetByToken token ((NewBookingService bt nt hold conf).run
          ((NewBookingService bt nt hold conf).CreateBooking input token now w0).2 ops)).1
        = .ok r ∧ r.identity = b.identity) ∧
    ((∀ op ∈ ops, op ≠ Op.cancel token) →
      ∃ r0 ∈ ((NewBookingService bt nt hold conf).run
        ((NewBookingService bt nt hold conf).CreateBooking input token now w0).2 ops).bookings,
        r0.Token = token ∧ r0.identity = b.identity) := by
  obtain ⟨-, ⟨row, hrt, hrf, hrs, hre, hrst, hbk⟩, hbt, hbf, hbs, hbe, -⟩ :=
    CreateBooking_ok_effect bt nt hold conf input token now w0 b hcreate
  have hident : b.identity = (input.FlightID, input.SeatNumber, input.Email) := by
    simp [Booking.identity, hbf, hbs, hbe]
  have hinv0 : ∀ r ∈ ((NewBookingService bt nt hold conf).CreateBooking input token now
      w0).2.bookings, r.Token = token → r.identity = b.identity := by
    rw [hbk]
    intro r hr htok
    rcases List.mem_append.mp hr with hr | hr
    · exact absurd (by rw [← htok]; exact List.mem_map_of_mem Booking.Token hr) hfresh
    · rw [List.mem_singleton] at hr
      subst hr
      rw [hident]
      simp [Booking.identity, hrf, hrs, hre]
  have hpres0 : ∃ r ∈ ((NewBookingService bt nt hold conf).CreateBooking input token now
      w0).2.bookings, r.Token = token ∧ r.Status ≠ BookingStatusCancelled := by
    rw [hbk]
    refine ⟨row, List.mem_append_right _ (List.mem_singleton.mpr rfl), hrt, ?_⟩
    rw [hrst]
    decide
  obtain ⟨hinv, hpres⟩ := run_round_trip bt nt hold conf token b.identity ops _ hinv0 hpres0
    hnew
  refine ⟨hbt, hident, hinv, ?_, ?_, ?_, ?_, ?_⟩
  · intro r hr
    obtain ⟨hm, ht⟩ := GetByToken_result_row token _ r hr
    exact hinv r hm ht
  · intro r hr
    obtain ⟨b0, hm, ht, -, hid⟩ := ConfirmBooking_result_row bt nt hold conf token _ r hr
    exact hid.trans (hinv b0 hm ht)
  · intro r hr
    obtain ⟨b0, hm, ht, -, hid⟩ := CancelBooking_result_row bt nt hold conf token _ r hr
    exact hid.trans (hinv b0 hm ht)
  · intro r0 hr0 ht0 hcalm
    obtain ⟨r, hr⟩ := GetByToken_resolves token _ r0 hr0 ht0 hcalm
    obtain ⟨hm, ht⟩ := GetByToken_result_row token _ r hr
    exact ⟨r, hr, hinv r hm ht⟩
  · intro hop
    obtain ⟨r, hr, ht, -⟩ := hpres hop
    exact ⟨r, hr, ht, hinv r hr ht⟩

/-- Witness of C24: seat 3 of flight 1 is booked under `t1`; another seat is booked, `t1`
is confirmed and the sweep runs; the lookup of `t1` still returns flight 1, seat 3 and
the contact of the request. -/
theorem token_round_trip_witness :
    (PGBookingRepository.GetByToken "t1"
      (sampleService.run bookedWorld
        [Op.create { sampleInput with SeatNumber := 4 } "t2" 200, Op.confirm "t1",
         Op.expire 1000])).1
      = .ok (bookedRowAs BookingStatusConfirmed) ∧
    (bookedRowAs BookingStatusConfirmed).identity = bookedRow.identity ∧
    bookedRow.identity = (1, 3, "a@x.com") :=
  have h := token_round_trip "bookings" "" 60 600 (sampleWorld 5) sampleInput "t1" 100
    bookedRow
    [Op.create { sampleInput with SeatNumber := 4 } "t2" 200, Op.confirm "t1", Op.expire 1000]
    (by decide) (by decide) (by rfl)
  ⟨by rfl, h.2.2.2.1 (bookedRowAs BookingStatusConfirmed) (by rfl), h.2.1⟩


end Airbooking
